import Mathlib

/-!
Arena shooter simulation core: embedding and contracts.

The C++ sources (Entity.cpp, Projectile.cpp, StaticObject.cpp, Game.cpp) are
embedded as pure state-passing functions.  The C++ type `float` is embedded as an
arbitrary linearly ordered field `K`, so every definition runs on `ℚ`.  Most
definitions compute in exact arithmetic.  The functions whose flags, branches or
integer colour channels depend on the rounding of a float operation (the cooldown
timer, the projectile age and launch velocity, the obstacle health and colour) are
also embedded with a rounding operator `fl` after every float operation; `round32`
is IEEE binary32 round-to-nearest-even on `ℚ`, including the subnormal range.
Overflow to infinity and NaN are outside the model.  `std::sqrt` is a parameter of
the functions that call it, a pointer to the avatar is the avatar state passed as
an argument, and the calls into SFML (rectangle intersection) and the standard
library (std::erase_if) are small definitions of their own.
-/

namespace Shooter

/-! ## Data model -/

/-- Two-component vector, the embedding of sf::Vector2<float>. -/
structure Vector2 (K : Type) where
  x : K
  y : K

/-- Colour with 8-bit channels, the embedding of sf::Color (alpha is never touched by the core). -/
structure Color where
  r : Nat
  g : Nat
  b : Nat

/-- GameObject (GameObject.h): position, size and the active flag. -/
structure GameObject (K : Type) where
  position : Vector2 K
  size : Vector2 K
  isActive : Bool

/-- Entity (Entity.h): a GameObject with velocity, speed and colour. -/
structure Entity (K : Type) extends GameObject K where
  velocity : Vector2 K
  speed : K
  color : Color

/-- Player (Entity.h): an Entity with health and the cooldown-gated firing state. -/
structure Player (K : Type) extends Entity K where
  health : K
  canShoot : Bool
  shootCooldown : K
  cooldownTimer : K

/-- Input snapshot read by Player::handleInput through sf::Keyboard::isKeyPressed. -/
structure Keys where
  w : Bool
  s : Bool
  a : Bool
  d : Bool

section Defs

variable {K : Type} [LinearOrderedField K]

/-! ## GameObject and Entity (Entity.cpp) -/

/-- GameObject::GameObject(x, y, w, h). -/
def GameObject.new (x y w h : K) : GameObject K :=
  { position := ⟨x, y⟩, size := ⟨w, h⟩, isActive := true }

/-- Entity::Entity(x, y, w, h, spd, col). -/
def Entity.new (x y w h spd : K) (col : Color) : Entity K :=
  { GameObject.new x y w h with velocity := ⟨0, 0⟩, speed := spd, color := col }

/-- Entity::move(dx, dy, dt): the parameter dt is not read. -/
def Entity.move (e : Entity K) (dx dy _dt : K) : Entity K :=
  { e with velocity := ⟨dx * e.speed, dy * e.speed⟩ }

/-- Entity::update(dt). -/
def Entity.update (e : Entity K) (dt : K) : Entity K :=
  { e with position := ⟨e.position.x + e.velocity.x * dt, e.position.y + e.velocity.y * dt⟩ }

/-! ## Player (Entity.cpp) -/

/-- Player::Player(x, y); sf::Color::Green is (0, 255, 0). -/
def Player.new (x y : K) : Player K :=
  { Entity.new x y 30 30 200 ⟨0, 255, 0⟩ with
    health := 100, canShoot := true, shootCooldown := 2 / 10, cooldownTimer := 0 }

/-- Player::handleInput(dt), with the four key states passed in as a snapshot. -/
def Player.handleInput (p : Player K) (k : Keys) (dt : K) : Player K :=
  let dx : K := 0
  let dy : K := 0
  let dy := if k.w then -1 else dy
  let dy := if k.s then 1 else dy
  let dx := if k.a then -1 else dx
  let dx := if k.d then 1 else dx
  let dx2 := if dx ≠ 0 ∧ dy ≠ 0 then dx * (707 / 1000) else dx
  let dy2 := if dx ≠ 0 ∧ dy ≠ 0 then dy * (707 / 1000) else dy
  { p with toEntity := p.toEntity.move dx2 dy2 dt }

/-- Player::update(dt). -/
def Player.update (p : Player K) (dt : K) : Player K :=
  let p1 : Player K := { p with toEntity := p.toEntity.update dt }
  if ¬ p1.canShoot = true then
    let p2 : Player K := { p1 with cooldownTimer := p1.cooldownTimer + dt }
    if p2.cooldownTimer ≥ p2.shootCooldown then
      { p2 with canShoot := true, cooldownTimer := 0 }
    else p2
  else p1

/-- Player::tryShoot(): the returned flag together with the state after the call. -/
def Player.tryShoot (p : Player K) : Bool × Player K :=
  if p.canShoot = true then (true, { p with canShoot := false })
  else (false, p)

/-- Player::takeDamage(damage). -/
def Player.takeDamage (p : Player K) (damage : K) : Player K :=
  { p with health := p.health - damage }

/-! ## Call traces of a Player -/

/-- One call made on a Player by its owner: update(dt) or tryShoot(). -/
inductive Action (K : Type) where
  | update (dt : K)
  | tryShoot

/-- Simulated time that one call lets pass: dt for update(dt), none for tryShoot(). -/
def Action.dt : Action K → K
  | .update dt => dt
  | .tryShoot => 0

/-- State after one call. -/
def Player.step (p : Player K) : Action K → Player K
  | .update dt => p.update dt
  | .tryShoot => (p.tryShoot).2

/-- State after a sequence of calls, made from left to right. -/
def Player.run (p : Player K) (acts : List (Action K)) : Player K :=
  acts.foldl Player.step p

/-- Simulated time that passes during a sequence of calls. -/
def elapsed (acts : List (Action K)) : K :=
  (acts.map Action.dt).sum

/-! ## Projectile (Projectile.h, Projectile.cpp) -/

/-- Projectile (Projectile.h): a GameObject with velocity, speed, colour, lifetime and age. -/
structure Projectile (K : Type) extends GameObject K where
  velocity : Vector2 K
  speed : K
  color : Color
  lifetime : K
  age : K

/-- Projectile::Projectile(x, y, dx, dy); std::sqrt is the parameter sqrtf and
sf::Color::Yellow is (255, 255, 0). -/
def Projectile.new (sqrtf : K → K) (x y dx dy : K) : Projectile K :=
  let speed : K := 400
  let length := sqrtf (dx * dx + dy * dy)
  { GameObject.new x y 8 8 with
    speed := speed
    color := ⟨255, 255, 0⟩
    lifetime := 3
    age := 0
    velocity := if length > 0 then ⟨(dx / length) * speed, (dy / length) * speed⟩ else ⟨0, 0⟩ }

/-- Projectile::update(dt). -/
def Projectile.update (q : Projectile K) (dt : K) : Projectile K :=
  let q1 : Projectile K :=
    { q with
      position := ⟨q.position.x + q.velocity.x * dt, q.position.y + q.velocity.y * dt⟩
      age := q.age + dt }
  if q1.age ≥ q1.lifetime then { q1 with isActive := false } else q1

/-- A sequence of Projectile::update calls, one per dt, from left to right. -/
def Projectile.updates (q : Projectile K) (dts : List K) : Projectile K :=
  dts.foldl Projectile.update q

/-! ## StaticObject and DestructibleObject (StaticObject.h, StaticObject.cpp) -/

/-- StaticObject (StaticObject.h): a GameObject with a colour. -/
structure StaticObject (K : Type) extends GameObject K where
  color : Color

/-- DestructibleObject (StaticObject.h): a StaticObject with health and maxHealth. -/
structure DestructibleObject (K : Type) extends StaticObject K where
  health : K
  maxHealth : K

/-- StaticObject::StaticObject(x, y, w, h, col). -/
def StaticObject.new (x y w h : K) (col : Color) : StaticObject K :=
  { GameObject.new x y w h with color := col }

/-- StaticObject::update(dt): no state change. -/
def StaticObject.update (o : StaticObject K) (_dt : K) : StaticObject K := o

/-- DestructibleObject::DestructibleObject(x, y, w, h, hp). -/
def DestructibleObject.new (x y w h hp : K) : DestructibleObject K :=
  { StaticObject.new x y w h ⟨139, 69, 19⟩ with health := hp, maxHealth := hp }

/-- Conversion static_cast<sf::Uint8>(v) of a float: the fractional part is discarded
(rounding toward zero) and the low 8 bits are kept.  C++ defines the result only when the
truncated value lies in 0..255; the theorems use it in that range only. -/
def toUint8 [FloorRing K] (v : K) : Nat :=
  ((if 0 ≤ v then ⌊v⌋ else ⌈v⌉) % 256).toNat

/-- DestructibleObject::takeDamage(damage). -/
def DestructibleObject.takeDamage [FloorRing K] (o : DestructibleObject K) (damage : K) :
    DestructibleObject K :=
  let o1 : DestructibleObject K := { o with health := o.health - damage }
  let o2 : DestructibleObject K :=
    if o1.health ≤ 0 then { o1 with isActive := false, health := 0 } else o1
  let ratio := o2.health / o2.maxHealth
  { o2 with color := ⟨toUint8 (139 * ratio), toUint8 (69 * ratio), toUint8 (19 * ratio)⟩ }

/-- A sequence of DestructibleObject::takeDamage calls, one per amount, from left to right. -/
def DestructibleObject.hits [FloorRing K] (o : DestructibleObject K) (amounts : List K) :
    DestructibleObject K :=
  amounts.foldl DestructibleObject.takeDamage o

/-! ## Enemy (Entity.h, Entity.cpp) -/

/-- Enemy (Entity.h): an Entity with a detection range.  The member targetPlayer is a
non-owning pointer; the state of its pointee at the time of a call (none for a null
pointer) is passed to Enemy.update as an argument. -/
structure Enemy (K : Type) extends Entity K where
  detectionRange : K

/-- Enemy::Enemy(x, y, player); sf::Color::Red is (255, 0, 0). -/
def Enemy.new (x y : K) : Enemy K :=
  { Entity.new x y 25 25 100 ⟨255, 0, 0⟩ with detectionRange := 300 }

/-- Enemy::update(dt); std::sqrt is the parameter sqrtf and target is what targetPlayer
points to. -/
def Enemy.update (sqrtf : K → K) (e : Enemy K) (target : Option (Player K)) (dt : K) :
    Enemy K :=
  let e1 : Enemy K :=
    match target with
    | some player =>
      if player.isActive = true then
        let playerPos := player.position
        let dirx := playerPos.x - e.position.x
        let diry := playerPos.y - e.position.y
        let distance := sqrtf (dirx * dirx + diry * diry)
        if distance < e.detectionRange ∧ distance > 0 then
          { e with toEntity := e.toEntity.move (dirx / distance) (diry / distance) dt }
        else
          { e with toEntity := e.toEntity.move 0 0 dt }
      else e
    | none => e
  { e1 with toEntity := e1.toEntity.update dt }

/-! ## Bounding boxes (GameObject.h) -/

/-- Axis-aligned rectangle given by its corner and its size, the embedding of
sf::Rect<float>. -/
structure Rect (K : Type) where
  position : Vector2 K
  size : Vector2 K

/-- GameObject::getBounds(). -/
def GameObject.getBounds (o : GameObject K) : Rect K :=
  ⟨o.position, o.size⟩

/-- Modelled from the spec: sf::Rect<float>::findIntersection is code of the SFML library
and not under src/.  The result is the overlap rectangle of the two boxes, present only
when it has positive width and positive height, so boxes that merely touch do not
intersect; as in SFML, a box with a negative size is first put in min/max form. -/
def Rect.findIntersection (r1 r2 : Rect K) : Option (Rect K) :=
  let r1MinX := min r1.position.x (r1.position.x + r1.size.x)
  let r1MaxX := max r1.position.x (r1.position.x + r1.size.x)
  let r1MinY := min r1.position.y (r1.position.y + r1.size.y)
  let r1MaxY := max r1.position.y (r1.position.y + r1.size.y)
  let r2MinX := min r2.position.x (r2.position.x + r2.size.x)
  let r2MaxX := max r2.position.x (r2.position.x + r2.size.x)
  let r2MinY := min r2.position.y (r2.position.y + r2.size.y)
  let r2MaxY := max r2.position.y (r2.position.y + r2.size.y)
  let interLeft := max r1MinX r2MinX
  let interTop := max r1MinY r2MinY
  let interRight := min r1MaxX r2MaxX
  let interBottom := min r1MaxY r2MaxY
  if interLeft < interRight ∧ interTop < interBottom then
    some ⟨⟨interLeft, interTop⟩, ⟨interRight - interLeft, interBottom - interTop⟩⟩
  else none

/-- Modelled from the spec: sf::Rect<float>::intersects is code of the SFML library and not
under src/; plain rectangle intersection, true exactly when findIntersection has a value. -/
def Rect.intersects (r1 r2 : Rect K) : Bool :=
  (r1.findIntersection r2).isSome

/-! ## Game (Game.h, Game.cpp) -/

/-- Wall (StaticObject.h): a StaticObject without further members. -/
structure Wall (K : Type) extends StaticObject K

/-- Wall::Wall(x, y, w, h). -/
def Wall.new (x y w h : K) : Wall K :=
  { StaticObject.new x y w h ⟨100, 100, 100⟩ with }

/-- Game (Game.h): the avatar and the four collections; the window and the clock are not
part of the simulation state. -/
structure Game (K : Type) where
  player : Player K
  enemies : List (Enemy K)
  projectiles : List (Projectile K)
  walls : List (Wall K)
  destructibles : List (DestructibleObject K)

/-- Game::Game(): every Enemy is given the pointer to the avatar. -/
def Game.new : Game K :=
  { player := Player.new 400 300
    walls := [Wall.new 0 0 800 20, Wall.new 0 580 800 20, Wall.new 0 0 20 600,
      Wall.new 780 0 20 600, Wall.new 200 200 100 20, Wall.new 500 400 20 150]
    destructibles := [DestructibleObject.new 300 300 40 40 100,
      DestructibleObject.new 600 200 40 40 100]
    enemies := [Enemy.new 200 100, Enemy.new 600 500]
    projectiles := [] }

/-- Body of the first loop of Game::handleCollisions (player vs walls) for one wall. -/
def Game.pushBack (player : Player K) (wall : Wall K) : Player K :=
  if wall.isActive = true then
    let pBounds := player.getBounds
    let wBounds := wall.getBounds
    match pBounds.findIntersection wBounds with
    | some intersection =>
      let pPos := player.position
      let overlapX := intersection.size.x
      let overlapY := intersection.size.y
      let pPos2 : Vector2 K :=
        if overlapX < overlapY then
          if pBounds.position.x < wBounds.position.x then ⟨pPos.x - overlapX, pPos.y⟩
          else ⟨pPos.x + overlapX, pPos.y⟩
        else
          if pBounds.position.y < wBounds.position.y then ⟨pPos.x, pPos.y - overlapY⟩
          else ⟨pPos.x, pPos.y + overlapY⟩
      { player with position := pPos2 }
    | none => player
  else player

/-- The loop shape `for (auto &x : xs) { if (cond(x)) { act(x); break; } }` used twice in
Game::handleCollisions: whether the body ran, and the collection afterwards. -/
def forFirst {α : Type} (cond : α → Bool) (act : α → α) : List α → Bool × List α
  | [] => (false, [])
  | x :: xs =>
    if cond x = true then (true, act x :: xs)
    else ((forFirst cond act xs).1, x :: (forFirst cond act xs).2)

/-- Body of the second loop of Game::handleCollisions (projectiles vs entities) for one
projectile: the projectile, the enemies and the destructibles afterwards. -/
def Game.collideProjectile [FloorRing K] (proj : Projectile K) (enemies : List (Enemy K))
    (destructibles : List (DestructibleObject K)) :
    Projectile K × List (Enemy K) × List (DestructibleObject K) :=
  if ¬ proj.isActive = true then (proj, enemies, destructibles)
  else
    let r1 := forFirst
      (fun enemy : Enemy K =>
        enemy.isActive && proj.getBounds.intersects enemy.getBounds)
      (fun enemy => { enemy with isActive := false }) enemies
    let proj1 : Projectile K := if r1.1 = true then { proj with isActive := false } else proj
    if ¬ proj1.isActive = true then (proj1, r1.2, destructibles)
    else
      let r2 := forFirst
        (fun dest : DestructibleObject K =>
          dest.isActive && proj1.getBounds.intersects dest.getBounds)
        (fun dest => dest.takeDamage 25) destructibles
      let proj2 : Projectile K :=
        if r2.1 = true then { proj1 with isActive := false } else proj1
      (proj2, r1.2, r2.2)

/-- The second loop of Game::handleCollisions over the projectiles, in collection order. -/
def Game.collideProjectiles [FloorRing K] :
    List (Projectile K) → List (Enemy K) → List (DestructibleObject K) →
    List (Projectile K) × List (Enemy K) × List (DestructibleObject K)
  | [], enemies, destructibles => ([], enemies, destructibles)
  | proj :: rest, enemies, destructibles =>
    let r := Game.collideProjectile proj enemies destructibles
    let rs := Game.collideProjectiles rest r.2.1 r.2.2
    (r.1 :: rs.1, rs.2.1, rs.2.2)

/-- Game::handleCollisions(). -/
def Game.handleCollisions [FloorRing K] (g : Game K) : Game K :=
  let player := g.walls.foldl Game.pushBack g.player
  let r := Game.collideProjectiles g.projectiles g.enemies g.destructibles
  { g with player := player, projectiles := r.1, enemies := r.2.1, destructibles := r.2.2 }

/-- Modelled from the spec: std::erase_if is code of the C++ standard library and not
under src/; it removes every element for which the predicate holds and keeps the others
in their order. -/
def eraseIf {α : Type} (pred : α → Bool) : List α → List α
  | [] => []
  | x :: xs => if pred x = true then eraseIf pred xs else x :: eraseIf pred xs

/-- Game::cleanupInactive(). -/
def Game.cleanupInactive (g : Game K) : Game K :=
  { g with
    projectiles := eraseIf (fun p : Projectile K => !p.isActive) g.projectiles
    enemies := eraseIf (fun e : Enemy K => !e.isActive) g.enemies
    destructibles := eraseIf (fun d : DestructibleObject K => !d.isActive) g.destructibles }

/-! ## Comparing a collection before and after a pass -/

/-- For a collection `before` and the same collection `after` a pass that keeps every
element in its place: the states after the pass of the elements that were active before
it, in collection order. -/
def keptStates {α : Type} (active : α → Bool) (before after : List α) : List α :=
  ((before.zip after).filter (fun q => active q.1)).map Prod.snd

/-! ## The frame loop (Game.cpp) -/

/-- Event returned by window.pollEvent() in Game::handleEvents.  A press of the left mouse
button carries the mouse position that sf::Mouse::getPosition(window) reports while the
event is handled. -/
inductive Event where
  | closed
  | mouseLeftPressed (mouseX mouseY : Int)
  | other

/-- Body of the loop of Game::handleEvents for one event; closing the window does not touch
the simulation state. -/
def Game.handleEvent (sqrtf : K → K) (g : Game K) : Event → Game K
  | .mouseLeftPressed mouseX mouseY =>
    let shot := g.player.tryShoot
    if shot.1 = true then
      let pPos := shot.2.position
      let dx := (mouseX : K) - (pPos.x + 15)
      let dy := (mouseY : K) - (pPos.y + 15)
      { g with
        player := shot.2
        projectiles := g.projectiles ++ [Projectile.new sqrtf (pPos.x + 15) (pPos.y + 15) dx dy] }
    else { g with player := shot.2 }
  | .closed => g
  | .other => g

/-- Game::handleEvents(), for the events polled in one frame. -/
def Game.handleEvents (sqrtf : K → K) (g : Game K) (events : List Event) : Game K :=
  events.foldl (Game.handleEvent sqrtf) g

/-- Game::update(dt), with the keyboard state read by Player::handleInput as the snapshot
keys; every Enemy points to the avatar, which has been updated when the enemies are. -/
def Game.update [FloorRing K] (sqrtf : K → K) (g : Game K) (keys : Keys) (dt : K) : Game K :=
  let player := (g.player.handleInput keys dt).update dt
  let enemies := g.enemies.map (fun enemy => Enemy.update sqrtf enemy (some player) dt)
  let projectiles := g.projectiles.map (fun proj => proj.update dt)
  let destructibles := g.destructibles.map
    (fun dest => { dest with toStaticObject := dest.toStaticObject.update dt })
  Game.cleanupInactive (Game.handleCollisions
    { g with
      player := player
      enemies := enemies
      projectiles := projectiles
      destructibles := destructibles })

/-- Delta time of a frame in Game::run: `dt = std::min(dt, 0.05f)` applied to the raw
value clock.restart().asSeconds(). -/
def Game.frameDt (rawDt : K) : K :=
  min rawDt (5 / 100)

/-- One iteration of the loop of Game::run (rendering left out): clamp the raw frame time,
handle the polled events, update. -/
def Game.runFrame [FloorRing K] (sqrtf : K → K) (g : Game K) (rawDt : K)
    (events : List Event) (keys : Keys) : Game K :=
  let dt := Game.frameDt rawDt
  Game.update sqrtf (Game.handleEvents sqrtf g events) keys dt

/-! ## Counting hits in a collision pass -/

/-- For a collection `before` and the same collection `after` a pass: the number of
elements whose active flag went from true to false. -/
def countDeactivated {α : Type} (active : α → Bool) (before after : List α) : Nat :=
  ((before.zip after).filter (fun q => active q.1 && !active q.2)).length

/-- Ghost counter: how many times the statement `dest->takeDamage(25.0f)` is executed in
the pass of Game::handleCollisions for one projectile.  It is reached only by an active
projectile that was not deactivated in the pursuer loop and whose obstacle loop finds a
match. -/
def Game.damageCalls [FloorRing K] (proj : Projectile K) (enemies : List (Enemy K))
    (destructibles : List (DestructibleObject K)) : Nat :=
  if ¬ proj.isActive = true then 0
  else if (forFirst
      (fun enemy : Enemy K => enemy.isActive && proj.getBounds.intersects enemy.getBounds)
      (fun enemy => { enemy with isActive := false }) enemies).1 = true then 0
  else if (forFirst
      (fun dest : DestructibleObject K =>
        dest.isActive && proj.getBounds.intersects dest.getBounds)
      (fun dest => dest.takeDamage 25) destructibles).1 = true then 1
  else 0

/-- Ghost counter: executions of `dest->takeDamage(25.0f)` in the whole projectile loop of
Game::handleCollisions, each projectile seeing the collections as the earlier ones left
them. -/
def Game.damageCallsAll [FloorRing K] :
    List (Projectile K) → List (Enemy K) → List (DestructibleObject K) → Nat
  | [], _, _ => 0
  | proj :: rest, enemies, destructibles =>
    Game.damageCalls proj enemies destructibles +
      Game.damageCallsAll rest (Game.collideProjectile proj enemies destructibles).2.1
        (Game.collideProjectile proj enemies destructibles).2.2

/-! ## Rounded float arithmetic

The definitions above compute in exact arithmetic.  The flags, branches and integer colour
channels of the program depend on the rounding of `float`, so the functions that decide them
are embedded a second time below with a rounding operator `fl` applied after every float
operation of the source, each operation rounded on its own.  With `fl` the identity they are
the definitions above; with `fl` = `round32` they compute what the program computes in IEEE
binary32 with round-to-nearest-even, as long as no operation overflows (infinities and NaN
are not modelled). -/

/-- Nearest integer, ties to the even one. -/
def roundHalfEven (x : ℚ) : ℤ :=
  if x - ⌊x⌋ < 1 / 2 then ⌊x⌋
  else if 1 / 2 < x - ⌊x⌋ then ⌊x⌋ + 1
  else if ⌊x⌋ % 2 = 0 then ⌊x⌋ else ⌊x⌋ + 1

/-- Exponent of the unit in the last place of binary32 at the magnitude a: 24 significant
bits for normal numbers, and the fixed exponent -149 below 2^-126 (subnormal numbers). -/
def ulpExponent (a : ℚ) : ℤ :=
  max (Int.log 2 a) (-126) - 23

/-- Rounding of a non-negative magnitude to the binary32 grid. -/
def roundMag (a : ℚ) : ℚ :=
  (roundHalfEven (a / 2 ^ ulpExponent a) : ℚ) * 2 ^ ulpExponent a

/-- IEEE binary32 round-to-nearest-even on the rationals (sign and magnitude). -/
def round32 (x : ℚ) : ℚ :=
  if 0 ≤ x then roundMag x else -roundMag (-x)

/-- What the theorems ask of a rounding operator: monotone, the identity on its own results,
and exact at 0. -/
def IsRounding (fl : K → K) : Prop :=
  (∀ a b, a ≤ b → fl a ≤ fl b) ∧ (∀ a, fl (fl a) = fl a) ∧ fl 0 = 0

/-- The running sum `t += dt` of the source, one rounded addition per element, from t. -/
def accumulate (fl : K → K) (t : K) (dts : List K) : K :=
  dts.foldl (fun s d => fl (s + d)) t

/-- Entity::update(dt) with rounding: `position.x += velocity.x * dt` is a rounded product
followed by a rounded sum. -/
def Entity.updateFl (fl : K → K) (e : Entity K) (dt : K) : Entity K :=
  { e with position := ⟨fl (e.position.x + fl (e.velocity.x * dt)),
                        fl (e.position.y + fl (e.velocity.y * dt))⟩ }

/-- Player::Player(x, y) with rounding: the literal 0.2f is the float nearest to 2/10; the
other literals (30, 200, 100, 0) are floats. -/
def Player.newFl (fl : K → K) (x y : K) : Player K :=
  { Entity.new x y 30 30 200 ⟨0, 255, 0⟩ with
    health := 100, canShoot := true, shootCooldown := fl (2 / 10), cooldownTimer := 0 }

/-- Player::update(dt) with rounding: `cooldownTimer += dt` is a rounded sum. -/
def Player.updateFl (fl : K → K) (p : Player K) (dt : K) : Player K :=
  let p1 : Player K := { p with toEntity := p.toEntity.updateFl fl dt }
  if ¬ p1.canShoot = true then
    let p2 : Player K := { p1 with cooldownTimer := fl (p1.cooldownTimer + dt) }
    if p2.cooldownTimer ≥ p2.shootCooldown then
      { p2 with canShoot := true, cooldownTimer := 0 }
    else p2
  else p1

/-- State after one call, with rounding. -/
def Player.stepFl (fl : K → K) (p : Player K) : Action K → Player K
  | .update dt => p.updateFl fl dt
  | .tryShoot => (p.tryShoot).2

/-- State after a sequence of calls, made from left to right, with rounding. -/
def Player.runFl (fl : K → K) (p : Player K) (acts : List (Action K)) : Player K :=
  acts.foldl (Player.stepFl fl) p

/-- The dt arguments of the update calls of a sequence of calls, in order. -/
def updateDts : List (Action K) → List K
  | [] => []
  | .update dt :: rest => dt :: updateDts rest
  | .tryShoot :: rest => updateDts rest

/-- Projectile::Projectile(x, y, dx, dy) with rounding: `dx * dx + dy * dy` is two rounded
products and a rounded sum, `(dx / length) * speed` a rounded quotient and a rounded product;
std::sqrt on floats is the parameter sqrtf. -/
def Projectile.newFl (fl sqrtf : K → K) (x y dx dy : K) : Projectile K :=
  let speed : K := 400
  let length := sqrtf (fl (fl (dx * dx) + fl (dy * dy)))
  { GameObject.new x y 8 8 with
    speed := speed
    color := ⟨255, 255, 0⟩
    lifetime := 3
    age := 0
    velocity :=
      if length > 0 then ⟨fl (fl (dx / length) * speed), fl (fl (dy / length) * speed)⟩
      else ⟨0, 0⟩ }

/-- Projectile::update(dt) with rounding: `age += dt` is a rounded sum. -/
def Projectile.updateFl (fl : K → K) (q : Projectile K) (dt : K) : Projectile K :=
  let q1 : Projectile K :=
    { q with
      position := ⟨fl (q.position.x + fl (q.velocity.x * dt)),
                   fl (q.position.y + fl (q.velocity.y * dt))⟩
      age := fl (q.age + dt) }
  if q1.age ≥ q1.lifetime then { q1 with isActive := false } else q1

/-- A sequence of Projectile::update calls, one per dt, from left to right, with rounding. -/
def Projectile.updatesFl (fl : K → K) (q : Projectile K) (dts : List K) : Projectile K :=
  dts.foldl (Projectile.updateFl fl) q

/-- DestructibleObject::takeDamage(damage) with rounding: `health -= damage` is a rounded
difference, `health / maxHealth` a rounded quotient stored in the float `ratio`, and each
`139 * ratio` a rounded product that static_cast<sf::Uint8> then truncates. -/
def DestructibleObject.takeDamageFl [FloorRing K] (fl : K → K) (o : DestructibleObject K)
    (damage : K) : DestructibleObject K :=
  let o1 : DestructibleObject K := { o with health := fl (o.health - damage) }
  let o2 : DestructibleObject K :=
    if o1.health ≤ 0 then { o1 with isActive := false, health := 0 } else o1
  let ratio := fl (o2.health / o2.maxHealth)
  { o2 with color :=
      ⟨toUint8 (fl (139 * ratio)), toUint8 (fl (69 * ratio)), toUint8 (fl (19 * ratio))⟩ }

/-- A sequence of DestructibleObject::takeDamage calls, from left to right, with rounding. -/
def DestructibleObject.hitsFl [FloorRing K] (fl : K → K) (o : DestructibleObject K)
    (amounts : List K) : DestructibleObject K :=
  amounts.foldl (DestructibleObject.takeDamageFl fl) o

end Defs

section Theorems

/-- C1: Player::tryShoot returns true exactly when canShoot was true before the call;
when it returns true the resulting state is the old state with only canShoot set to
false, and when it returns false the resulting state is the old state. -/
theorem Player.tryShoot_gate {K : Type} (p : Player K) :
    ((p.tryShoot).1 = true ↔ p.canShoot = true) ∧
    ((p.tryShoot).1 = true → (p.tryShoot).2 = { p with canShoot := false }) ∧
    ((p.tryShoot).1 = false → (p.tryShoot).2 = p) := by
  unfold Player.tryShoot
  by_cases h : p.canShoot = true <;> simp [h]

/-! ### Cooldown lemmas -/

theorem Player.update_canShoot_timer {K : Type} [LinearOrderedField K] (p : Player K) (dt : K)
    (h : p.canShoot = true → p.cooldownTimer = 0) :
    (p.update dt).canShoot = true → (p.update dt).cooldownTimer = 0 := by
  unfold Player.update
  by_cases hc : p.canShoot = true
  · simp [hc, h hc]
  · by_cases ht : p.shootCooldown ≤ p.cooldownTimer + dt <;> simp [hc, ht]

theorem Player.tryShoot_canShoot_timer {K : Type} [Zero K] (p : Player K) :
    (p.tryShoot).2.canShoot = true → (p.tryShoot).2.cooldownTimer = 0 := by
  unfold Player.tryShoot
  by_cases hc : p.canShoot = true <;> simp [hc]

theorem Player.run_canShoot_timer {K : Type} [LinearOrderedField K] (acts : List (Action K))
    (p : Player K) (h : p.canShoot = true → p.cooldownTimer = 0) :
    (p.run acts).canShoot = true → (p.run acts).cooldownTimer = 0 := by
  induction acts generalizing p with
  | nil => simpa [Player.run] using h
  | cons a rest ih =>
    have hstep : (p.step a).canShoot = true → (p.step a).cooldownTimer = 0 := by
      cases a with
      | update dt => exact Player.update_canShoot_timer p dt h
      | tryShoot => exact Player.tryShoot_canShoot_timer p
    simpa [Player.run] using ih (p.step a) hstep

theorem Player.update_shootCooldown {K : Type} [LinearOrderedField K] (p : Player K) (dt : K) :
    (p.update dt).shootCooldown = p.shootCooldown := by
  unfold Player.update
  by_cases hc : p.canShoot = true
  · simp [hc]
  · by_cases ht : p.shootCooldown ≤ p.cooldownTimer + dt <;> simp [hc, ht]

theorem Player.run_shootCooldown {K : Type} [LinearOrderedField K] (acts : List (Action K))
    (p : Player K) : (p.run acts).shootCooldown = p.shootCooldown := by
  induction acts generalizing p with
  | nil => rfl
  | cons a rest ih =>
    have hstep : (p.step a).shootCooldown = p.shootCooldown := by
      cases a with
      | update dt => exact Player.update_shootCooldown p dt
      | tryShoot =>
        unfold Player.step Player.tryShoot
        by_cases hc : p.canShoot = true <;> simp [hc]
    have := ih (p.step a)
    simpa [Player.run, hstep] using this

theorem elapsed_nonneg {K : Type} [LinearOrderedField K] (acts : List (Action K))
    (h : ∀ a ∈ acts, 0 ≤ a.dt) : 0 ≤ elapsed acts := by
  unfold elapsed
  apply List.sum_nonneg
  intro v hv
  obtain ⟨a, ha, rfl⟩ := List.mem_map.mp hv
  exact h a ha

/-- While the player cannot shoot, the timer plus the time still to pass must reach the
cooldown before the player can shoot again. -/
theorem Player.run_rearm {K : Type} [LinearOrderedField K] (acts : List (Action K))
    (p : Player K) (hdt : ∀ a ∈ acts, 0 ≤ a.dt) (hc : p.canShoot = false)
    (hr : (p.run acts).canShoot = true) :
    p.shootCooldown ≤ p.cooldownTimer + elapsed acts := by
  induction acts generalizing p with
  | nil => simp [Player.run, hc] at hr
  | cons a rest ih =>
    have hrest : ∀ b ∈ rest, 0 ≤ b.dt := fun b hb => hdt b (List.mem_cons_of_mem a hb)
    have hrest0 : 0 ≤ elapsed rest := elapsed_nonneg rest hrest
    have hsum : elapsed (a :: rest) = a.dt + elapsed rest := by simp [elapsed]
    have hr2 : ((p.step a).run rest).canShoot = true := by simpa [Player.run] using hr
    cases a with
    | tryShoot =>
      have hp : p.step Action.tryShoot = p := by simp [Player.step, Player.tryShoot, hc]
      rw [hp] at hr2
      have := ih p hrest hc hr2
      simpa [hsum, Action.dt] using this
    | update dt =>
      by_cases ht : p.shootCooldown ≤ p.cooldownTimer + dt
      · rw [hsum]
        simp only [Action.dt]
        linarith
      · have hc2 : (p.step (Action.update dt)).canShoot = false := by
          simp [Player.step, Player.update, hc, ht]
        have ht2 : (p.step (Action.update dt)).cooldownTimer = p.cooldownTimer + dt := by
          simp [Player.step, Player.update, hc, ht]
        have hs2 : (p.step (Action.update dt)).shootCooldown = p.shootCooldown :=
          Player.update_shootCooldown p dt
        have := ih _ hrest hc2 hr2
        rw [ht2, hs2] at this
        rw [hsum]
        simp only [Action.dt]
        linarith

/-! ### Claims -/

/-- Rate limit in exact arithmetic, with no float operation rounded: starting from a freshly
constructed Player, take any calls `pre`, then a tryShoot that returns true, then any calls
`mid` whose update steps have dt >= 0, then a tryShoot that returns true again: the dt values
of the update calls in `mid` sum to at least 2 / 10. -/
theorem Player.rate_limit_exact {K : Type} [LinearOrderedField K] (x y : K)
    (pre mid : List (Action K)) (hdt : ∀ a ∈ mid, 0 ≤ a.dt)
    (h1 : (((Player.new x y).run pre).tryShoot).1 = true)
    (h2 : ((((Player.new x y).run pre).tryShoot).2.run mid).tryShoot.1 = true) :
    (Player.new x y).shootCooldown = 2 / 10 ∧ (2 / 10 : K) ≤ elapsed mid := by
  refine ⟨rfl, ?_⟩
  set q := (Player.new x y).run pre with hq
  have hinv : q.canShoot = true → q.cooldownTimer = 0 :=
    Player.run_canShoot_timer pre (Player.new x y) (fun _ => rfl)
  have hcd : q.shootCooldown = 2 / 10 := by
    rw [hq, Player.run_shootCooldown]; rfl
  have hqc : q.canShoot = true := by
    by_contra hn
    simp [Player.tryShoot, hn] at h1
  have hshot : (q.tryShoot).2 = { q with canShoot := false } := by
    simp [Player.tryShoot, hqc]
  rw [hshot] at h2
  have hfin : (({ q with canShoot := false } : Player K).run mid).canShoot = true := by
    by_contra hn
    simp [Player.tryShoot, hn] at h2
  have := Player.run_rearm mid { q with canShoot := false } hdt rfl hfin
  simp only [hcd, hinv hqc, zero_add] at this
  exact this

/-- C4: Entity::move(dx, dy, dt) sets the velocity to (dx * speed, dy * speed) whatever dt
is and leaves the position (and the speed) unchanged; so for a unit direction the squared
velocity magnitude is speed^2 and for the zero direction the velocity is zero. -/
theorem Entity.move_contract {K : Type} [LinearOrderedField K] (e : Entity K) (dx dy dt : K) :
    (e.move dx dy dt).velocity.x = dx * e.speed ∧
    (e.move dx dy dt).velocity.y = dy * e.speed ∧
    (e.move dx dy dt).position = e.position ∧
    (e.move dx dy dt).speed = e.speed ∧
    (dx ^ 2 + dy ^ 2 = 1 →
      (e.move dx dy dt).velocity.x ^ 2 + (e.move dx dy dt).velocity.y ^ 2 = e.speed ^ 2) ∧
    (dx = 0 → dy = 0 →
      (e.move dx dy dt).velocity.x = 0 ∧ (e.move dx dy dt).velocity.y = 0) := by
  refine ⟨rfl, rfl, rfl, rfl, ?_, ?_⟩
  · intro h
    simp only [Entity.move]
    calc (dx * e.speed) ^ 2 + (dy * e.speed) ^ 2
        = (dx ^ 2 + dy ^ 2) * e.speed ^ 2 := by ring
      _ = e.speed ^ 2 := by rw [h, one_mul]
  · intro hx hy
    simp [Entity.move, hx, hy]

/-- C5 (as stated, refuted): with W and D held, a freshly constructed Player gets the
velocity (141.4, -141.4), whose squared magnitude 39987.92 is not speed^2 = 40000, so the
velocity magnitude is not equal to speed. -/
theorem Player.handleInput_diagonal_not_speed :
    ((Player.new (0 : ℚ) 0).handleInput ⟨true, false, false, true⟩ (1 / 60)).velocity.x = 1414 / 10 ∧
    ((Player.new (0 : ℚ) 0).handleInput ⟨true, false, false, true⟩ (1 / 60)).velocity.y = -(1414 / 10) ∧
    ((Player.new (0 : ℚ) 0).handleInput ⟨true, false, false, true⟩ (1 / 60)).velocity.x ^ 2 +
      ((Player.new (0 : ℚ) 0).handleInput ⟨true, false, false, true⟩ (1 / 60)).velocity.y ^ 2
      ≠ (Player.new (0 : ℚ) 0).speed ^ 2 := by
  norm_num [Player.handleInput, Player.new, Entity.new, Entity.move]

/-- C5 (amended): for a Player of speed 200 and a snapshot with a vertical and a horizontal
key pressed, Player::handleInput gives each velocity component the absolute value
200 * 0.707 = 141.4; the squared velocity magnitude is 2 * 141.4^2 = 39987.92, which lies
strictly between 199.9^2 and speed^2 = 200^2. -/
theorem Player.handleInput_diagonal {K : Type} [LinearOrderedField K] (p : Player K) (k : Keys)
    (dt : K) (hs : p.speed = 200) (hv : k.w = true ∨ k.s = true) (hh : k.a = true ∨ k.d = true) :
    |(p.handleInput k dt).velocity.x| = p.speed * (707 / 1000) ∧
    |(p.handleInput k dt).velocity.y| = p.speed * (707 / 1000) ∧
    (p.handleInput k dt).velocity.x ^ 2 + (p.handleInput k dt).velocity.y ^ 2
      = 2 * (p.speed * (707 / 1000)) ^ 2 ∧
    (1999 / 10 : K) ^ 2 <
      (p.handleInput k dt).velocity.x ^ 2 + (p.handleInput k dt).velocity.y ^ 2 ∧
    (p.handleInput k dt).velocity.x ^ 2 + (p.handleInput k dt).velocity.y ^ 2 < p.speed ^ 2 := by
  obtain ⟨w, s, a, d⟩ := k
  simp only at hv hh
  have h1 : |(-(707 / 1000 : K)) * 200| = 200 * (707 / 1000) := by
    rw [abs_of_nonpos (by norm_num)]; ring
  have h2 : |(707 / 1000 : K) * 200| = 200 * (707 / 1000) := by
    rw [abs_of_nonneg (by norm_num)]; ring
  cases w <;> cases s <;> cases a <;> cases d <;> simp at hv hh <;>
    simp only [Player.handleInput, Entity.move, hs] <;>
    norm_num [h1, h2]

/-- C5 witness: the fresh Player at the origin with W and D held. -/
theorem Player.handleInput_diagonal_witness :
    |((Player.new (0 : ℚ) 0).handleInput ⟨true, false, false, true⟩ (1 / 60)).velocity.x|
      = (Player.new (0 : ℚ) 0).speed * (707 / 1000) :=
  (Player.handleInput_diagonal (Player.new (0 : ℚ) 0) ⟨true, false, false, true⟩ (1 / 60)
    rfl (Or.inl rfl) (Or.inr rfl)).1

/-! ### Projectile lemmas -/

theorem Projectile.update_inactive {K : Type} [LinearOrderedField K] (q : Projectile K) (dt : K)
    (h : q.isActive = false) : (q.update dt).isActive = false := by
  unfold Projectile.update
  by_cases ht : q.lifetime ≤ q.age + dt <;> simp [ht, h]

theorem Projectile.updates_inactive {K : Type} [LinearOrderedField K] (dts : List K)
    (q : Projectile K) (h : q.isActive = false) : (q.updates dts).isActive = false := by
  induction dts generalizing q with
  | nil => simpa [Projectile.updates] using h
  | cons dt rest ih =>
    simpa [Projectile.updates] using ih (q.update dt) (Projectile.update_inactive q dt h)

/-- An active projectile younger than its lifetime is inactive after a run of non-negative
steps exactly when its age has reached the lifetime. -/
theorem Projectile.updates_expired_iff {K : Type} [LinearOrderedField K] (dts : List K)
    (q : Projectile K) (hdt : ∀ dt ∈ dts, 0 ≤ dt) (ha : q.isActive = true)
    (hage : q.age < q.lifetime) :
    (q.updates dts).isActive = false ↔ q.lifetime ≤ q.age + dts.sum := by
  induction dts generalizing q with
  | nil => simp [Projectile.updates, ha, hage]
  | cons dt rest ih =>
    have hrest : ∀ d ∈ rest, 0 ≤ d := fun d hd => hdt d (List.mem_cons_of_mem dt hd)
    have hsum : 0 ≤ rest.sum := List.sum_nonneg hrest
    have hstep : (q.updates (dt :: rest)) = (q.update dt).updates rest := by
      simp [Projectile.updates]
    rw [hstep, List.sum_cons]
    by_cases ht : q.lifetime ≤ q.age + dt
    · have hin : (q.update dt).isActive = false := by simp [Projectile.update, ht]
      constructor
      · intro _; linarith
      · intro _; exact Projectile.updates_inactive rest _ hin
    · have hact : (q.update dt).isActive = true := by simp [Projectile.update, ht, ha]
      have hage2 : (q.update dt).age = q.age + dt := by simp [Projectile.update, ht]
      have hlife : (q.update dt).lifetime = q.lifetime := by simp [Projectile.update, ht]
      have := ih (q.update dt) hrest hact (by rw [hage2, hlife]; exact lt_of_not_le ht)
      rw [this, hage2, hlife, add_assoc]

theorem Projectile.update_still {K : Type} [LinearOrderedField K] (q : Projectile K) (dt : K)
    (hx : q.velocity.x = 0) (hy : q.velocity.y = 0) :
    (q.update dt).position = q.position ∧ (q.update dt).velocity = q.velocity := by
  unfold Projectile.update
  by_cases ht : q.lifetime ≤ q.age + dt <;> simp [ht, hx, hy]

theorem Projectile.updates_still {K : Type} [LinearOrderedField K] (dts : List K)
    (q : Projectile K) (hx : q.velocity.x = 0) (hy : q.velocity.y = 0) :
    (q.updates dts).position = q.position := by
  induction dts generalizing q with
  | nil => rfl
  | cons dt rest ih =>
    obtain ⟨hp, hv⟩ := Projectile.update_still q dt hx hy
    have := ih (q.update dt) (by rw [hv]; exact hx) (by rw [hv]; exact hy)
    rw [hp] at this
    simpa [Projectile.updates] using this

/-! ### Projectile claims -/

/-- Expiry in exact arithmetic, with no float operation rounded: for a freshly constructed
projectile and update steps dt_1, ..., dt_n that are all >= 0, the active flag after the n
steps is false exactly when dt_1 + ... + dt_n >= 3 (the lifetime); so when the whole run
lasts less than 3 the projectile is active after every prefix of it, and an inactive
projectile stays inactive under any further steps. -/
theorem Projectile.expiry_exact {K : Type} [LinearOrderedField K] (sqrtf : K → K) (x y dx dy : K)
    (dts : List K) (hdt : ∀ dt ∈ dts, 0 ≤ dt) :
    (Projectile.new sqrtf x y dx dy).lifetime = 3 ∧
    (((Projectile.new sqrtf x y dx dy).updates dts).isActive = false ↔ 3 ≤ dts.sum) ∧
    (dts.sum < 3 →
      ∀ n, ((Projectile.new sqrtf x y dx dy).updates (dts.take n)).isActive = true) ∧
    (∀ (q : Projectile K) (more : List K),
      q.isActive = false → (q.updates more).isActive = false) := by
  have key : ∀ l : List K, (∀ dt ∈ l, 0 ≤ dt) →
      (((Projectile.new sqrtf x y dx dy).updates l).isActive = false ↔ 3 ≤ l.sum) := by
    intro l hl
    have := Projectile.updates_expired_iff l (Projectile.new sqrtf x y dx dy) hl rfl
      (by simp [Projectile.new])
    simpa [Projectile.new] using this
  refine ⟨rfl, key dts hdt, ?_, fun q more h => Projectile.updates_inactive more q h⟩
  intro hlt n
  have htake : ∀ dt ∈ dts.take n, 0 ≤ dt := fun d hd => hdt d (List.mem_of_mem_take hd)
  have hdrop : 0 ≤ (dts.drop n).sum :=
    List.sum_nonneg (fun d hd => hdt d (List.mem_of_mem_drop hd))
  have hsplit : dts.sum = (dts.take n).sum + (dts.drop n).sum := by
    rw [← List.sum_append, List.take_append_drop]
  have hnot : ¬ (3 : K) ≤ (dts.take n).sum := by
    intro h3; linarith
  have := (key (dts.take n) htake).not.mpr hnot
  simpa using this

/-- C7: a projectile constructed with heading (0, 0) at (x, y) has zero velocity, and after
any sequence of Projectile::update calls, whatever the dt values, its position is (x, y). -/
theorem Projectile.zero_heading_still {K : Type} [LinearOrderedField K] (sqrtf : K → K)
    (x y : K) (dts : List K) :
    (Projectile.new sqrtf x y 0 0).velocity.x = 0 ∧
    (Projectile.new sqrtf x y 0 0).velocity.y = 0 ∧
    ((Projectile.new sqrtf x y 0 0).updates dts).position.x = x ∧
    ((Projectile.new sqrtf x y 0 0).updates dts).position.y = y := by
  have hx : (Projectile.new sqrtf x y 0 0).velocity.x = 0 := by
    unfold Projectile.new
    by_cases h : sqrtf (0 * 0 + 0 * 0) > 0 <;> simp [h]
  have hy : (Projectile.new sqrtf x y 0 0).velocity.y = 0 := by
    unfold Projectile.new
    by_cases h : sqrtf (0 * 0 + 0 * 0) > 0 <;> simp [h]
  have hpos := Projectile.updates_still dts (Projectile.new sqrtf x y 0 0) hx hy
  refine ⟨hx, hy, ?_, ?_⟩
  · rw [hpos]; rfl
  · rw [hpos]; rfl

/-- Launch velocity in exact arithmetic, with no float operation rounded: for a heading
(dx, dy) other than (0, 0), with std::sqrt returning the exact non-negative root L of
dx^2 + dy^2, the constructor sets velocity = (dx / L * 400, dy / L * 400): L is positive, so
the velocity is the heading times the positive factor 400 / L, and its squared magnitude is
exactly 400^2 whatever the heading length. -/
theorem Projectile.new_velocity_exact {K : Type} [LinearOrderedField K] (sqrtf : K → K)
    (x y dx dy : K) (hne : dx ≠ 0 ∨ dy ≠ 0)
    (hnonneg : 0 ≤ sqrtf (dx * dx + dy * dy))
    (hroot : sqrtf (dx * dx + dy * dy) * sqrtf (dx * dx + dy * dy) = dx * dx + dy * dy) :
    0 < sqrtf (dx * dx + dy * dy) ∧
    (Projectile.new sqrtf x y dx dy).speed = 400 ∧
    (Projectile.new sqrtf x y dx dy).velocity.x = dx / sqrtf (dx * dx + dy * dy) * 400 ∧
    (Projectile.new sqrtf x y dx dy).velocity.y = dy / sqrtf (dx * dx + dy * dy) * 400 ∧
    (Projectile.new sqrtf x y dx dy).velocity.x = 400 / sqrtf (dx * dx + dy * dy) * dx ∧
    (Projectile.new sqrtf x y dx dy).velocity.y = 400 / sqrtf (dx * dx + dy * dy) * dy ∧
    0 < 400 / sqrtf (dx * dx + dy * dy) ∧
    (Projectile.new sqrtf x y dx dy).velocity.x ^ 2 +
      (Projectile.new sqrtf x y dx dy).velocity.y ^ 2 = 400 ^ 2 := by
  have hsq : 0 < dx * dx + dy * dy := by
    rcases hne with h | h
    · have := mul_self_pos.mpr h
      have := mul_self_nonneg dy
      linarith
    · have := mul_self_pos.mpr h
      have := mul_self_nonneg dx
      linarith
  set L := sqrtf (dx * dx + dy * dy) with hL
  have hLne : L ≠ 0 := by
    intro h0
    rw [h0, mul_zero] at hroot
    linarith
  have hLpos : 0 < L := lt_of_le_of_ne hnonneg (Ne.symm hLne)
  have hvx : (Projectile.new sqrtf x y dx dy).velocity.x = dx / L * 400 := by
    simp [Projectile.new, ← hL, hLpos]
  have hvy : (Projectile.new sqrtf x y dx dy).velocity.y = dy / L * 400 := by
    simp [Projectile.new, ← hL, hLpos]
  refine ⟨hLpos, rfl, hvx, hvy, ?_, ?_, by positivity, ?_⟩
  · rw [hvx]; field_simp; ring
  · rw [hvy]; field_simp; ring
  · rw [hvx, hvy]
    field_simp
    have : dx ^ 2 + dy ^ 2 = L ^ 2 := by
      rw [pow_two, pow_two, pow_two, hroot]
    calc (dx * 400) ^ 2 + (dy * 400) ^ 2 = (dx ^ 2 + dy ^ 2) * 400 ^ 2 := by ring
      _ = 400 ^ 2 * L ^ 2 := by rw [this]; ring

/-! ### DestructibleObject lemmas -/

theorem DestructibleObject.takeDamage_health {K : Type} [LinearOrderedField K] [FloorRing K]
    (o : DestructibleObject K) (d : K) :
    (o.takeDamage d).health = max 0 (o.health - d) := by
  unfold DestructibleObject.takeDamage
  by_cases h : o.health - d ≤ 0
  · simp [h]
  · simp [h, le_of_lt (lt_of_not_le h)]

theorem DestructibleObject.takeDamage_maxHealth {K : Type} [LinearOrderedField K] [FloorRing K]
    (o : DestructibleObject K) (d : K) : (o.takeDamage d).maxHealth = o.maxHealth := by
  unfold DestructibleObject.takeDamage
  by_cases h : o.health - d ≤ 0 <;> simp [h]

theorem DestructibleObject.takeDamage_isActive {K : Type} [LinearOrderedField K] [FloorRing K]
    (o : DestructibleObject K) (d : K) :
    (o.takeDamage d).isActive = (if o.health - d ≤ 0 then false else o.isActive) := by
  unfold DestructibleObject.takeDamage
  by_cases h : o.health - d ≤ 0 <;> simp [h]

/-- Health after a run of non-negative hits, in closed form. -/
theorem DestructibleObject.hits_health {K : Type} [LinearOrderedField K] [FloorRing K]
    (ds : List K) (o : DestructibleObject K) (hds : ∀ d ∈ ds, 0 ≤ d) (h0 : 0 ≤ o.health) :
    (o.hits ds).health = max 0 (o.health - ds.sum) := by
  induction ds generalizing o with
  | nil => simp [DestructibleObject.hits, h0]
  | cons d rest ih =>
    have hrest : ∀ e ∈ rest, 0 ≤ e := fun e he => hds e (List.mem_cons_of_mem d he)
    have hsum : 0 ≤ rest.sum := List.sum_nonneg hrest
    have hstep : o.hits (d :: rest) = (o.takeDamage d).hits rest := by
      simp [DestructibleObject.hits]
    have hh := DestructibleObject.takeDamage_health o d
    rw [hstep, ih (o.takeDamage d) hrest (by rw [hh]; exact le_max_left _ _), hh, List.sum_cons]
    rcases le_total (o.health - d) 0 with hle | hge
    · rw [max_eq_left hle, max_eq_left (by linarith), max_eq_left (by linarith)]
    · rw [max_eq_right hge, sub_sub]

theorem DestructibleObject.hits_maxHealth {K : Type} [LinearOrderedField K] [FloorRing K]
    (ds : List K) (o : DestructibleObject K) : (o.hits ds).maxHealth = o.maxHealth := by
  induction ds generalizing o with
  | nil => rfl
  | cons d rest ih =>
    have := ih (o.takeDamage d)
    rw [DestructibleObject.takeDamage_maxHealth] at this
    simpa [DestructibleObject.hits] using this

/-- An obstacle whose health is positive while it is active keeps that property, and an
obstacle with zero health reached through takeDamage is inactive. -/
theorem DestructibleObject.hits_zero_inactive {K : Type} [LinearOrderedField K] [FloorRing K]
    (ds : List K) (o : DestructibleObject K) (h : o.health ≤ 0 → o.isActive = false) :
    (o.hits ds).health ≤ 0 → (o.hits ds).isActive = false := by
  induction ds generalizing o with
  | nil => simpa [DestructibleObject.hits] using h
  | cons d rest ih =>
    have hstep : (o.takeDamage d).health ≤ 0 → (o.takeDamage d).isActive = false := by
      rw [DestructibleObject.takeDamage_health, DestructibleObject.takeDamage_isActive]
      intro hle
      have : o.health - d ≤ 0 := (max_le_iff.mp hle).2
      simp [this]
    simpa [DestructibleObject.hits] using ih (o.takeDamage d) hstep

/-! ### DestructibleObject claims -/

/-- Health in exact arithmetic, with no float operation rounded: for an obstacle constructed
with maxHealth hp > 0 and any sequence of takeDamage calls with non-negative amounts, the
health is never below 0, the next call with a non-negative amount never raises it, and once
the amounts sum to hp or more the health is exactly 0 and the active flag is false. -/
theorem DestructibleObject.health_exact {K : Type} [LinearOrderedField K]
    [FloorRing K] (x y w h hp : K) (ds : List K) (hhp : 0 < hp) (hds : ∀ d ∈ ds, 0 ≤ d) :
    ((DestructibleObject.new x y w h hp).hits ds).maxHealth = hp ∧
    0 ≤ ((DestructibleObject.new x y w h hp).hits ds).health ∧
    (∀ d, 0 ≤ d →
      (((DestructibleObject.new x y w h hp).hits ds).takeDamage d).health ≤
        ((DestructibleObject.new x y w h hp).hits ds).health ∧
      0 ≤ (((DestructibleObject.new x y w h hp).hits ds).takeDamage d).health) ∧
    (hp ≤ ds.sum →
      ((DestructibleObject.new x y w h hp).hits ds).health = 0 ∧
      ((DestructibleObject.new x y w h hp).hits ds).isActive = false) := by
  have hnew : (DestructibleObject.new x y w h hp).health = hp := rfl
  have hval := DestructibleObject.hits_health ds (DestructibleObject.new x y w h hp) hds
    (by rw [hnew]; exact le_of_lt hhp)
  rw [hnew] at hval
  have hge : 0 ≤ ((DestructibleObject.new x y w h hp).hits ds).health := by
    rw [hval]; exact le_max_left _ _
  refine ⟨?_, hge, ?_, ?_⟩
  · rw [DestructibleObject.hits_maxHealth]; rfl
  · intro d hd
    rw [DestructibleObject.takeDamage_health]
    exact ⟨max_le hge (by linarith), le_max_left _ _⟩
  · intro hsum
    have hz : ((DestructibleObject.new x y w h hp).hits ds).health = 0 := by
      rw [hval]; exact max_eq_left (by linarith)
    refine ⟨hz, ?_⟩
    apply DestructibleObject.hits_zero_inactive ds (DestructibleObject.new x y w h hp)
    · intro hle
      rw [hnew] at hle
      exact absurd hhp (not_lt.mpr hle)
    · rw [hz]

theorem toUint8_floor {K : Type} [LinearOrderedField K] [FloorRing K] (v : K)
    (h0 : 0 ≤ v) (h1 : v < 256) : (toUint8 v : ℤ) = ⌊v⌋ := by
  have hf0 : 0 ≤ ⌊v⌋ := Int.floor_nonneg.mpr h0
  have hf1 : ⌊v⌋ < 256 := Int.floor_lt.mpr (by exact_mod_cast h1)
  unfold toUint8
  rw [if_pos h0, Int.emod_eq_of_lt hf0 hf1, Int.toNat_of_nonneg hf0]

theorem toUint8_eq {K : Type} [LinearOrderedField K] [FloorRing K] (v : K) (n : ℕ)
    (hn : n < 256) (h1 : (n : K) ≤ v) (h2 : v < n + 1) : toUint8 v = n := by
  have h0 : 0 ≤ v := le_trans (Nat.cast_nonneg n) h1
  have hfl : ⌊v⌋ = (n : ℤ) := by
    rw [Int.floor_eq_iff]
    exact ⟨by exact_mod_cast h1, by exact_mod_cast h2⟩
  have h256 : v < 256 := by
    have : (n : K) + 1 ≤ 256 := by exact_mod_cast hn
    linarith
  have := toUint8_floor v h0 h256
  rw [hfl] at this
  exact_mod_cast this

theorem DestructibleObject.takeDamage_color_eq {K : Type} [LinearOrderedField K] [FloorRing K]
    (o : DestructibleObject K) (d : K) :
    (o.takeDamage d).color =
      ⟨toUint8 (139 * ((o.takeDamage d).health / (o.takeDamage d).maxHealth)),
        toUint8 (69 * ((o.takeDamage d).health / (o.takeDamage d).maxHealth)),
        toUint8 (19 * ((o.takeDamage d).health / (o.takeDamage d).maxHealth))⟩ := by
  unfold DestructibleObject.takeDamage
  by_cases h : o.health - d ≤ 0 <;> simp [h]

/-- Colour in exact arithmetic, with no float operation rounded: after a takeDamage call on
an obstacle with maxHealth > 0 that leaves the health at no more than maxHealth, each colour
channel is the base channel (139, 69, 19) times health / maxHealth with the fractional part
discarded; an obstacle with maxHealth 100 hit twice for 25 has health 50, is active and has
the colour (69, 34, 9). -/
theorem DestructibleObject.takeDamage_color_floor_exact {K : Type} [LinearOrderedField K]
    [FloorRing K] (o : DestructibleObject K) (d : K) (hm : 0 < o.maxHealth)
    (hle : o.health - d ≤ o.maxHealth) :
    ((o.takeDamage d).color.r : ℤ) = ⌊139 * ((o.takeDamage d).health / o.maxHealth)⌋ ∧
    ((o.takeDamage d).color.g : ℤ) = ⌊69 * ((o.takeDamage d).health / o.maxHealth)⌋ ∧
    ((o.takeDamage d).color.b : ℤ) = ⌊19 * ((o.takeDamage d).health / o.maxHealth)⌋ ∧
    (∀ x y w h : K,
      (((DestructibleObject.new x y w h 100).takeDamage 25).takeDamage 25).health = 50 ∧
      (((DestructibleObject.new x y w h 100).takeDamage 25).takeDamage 25).isActive = true ∧
      (((DestructibleObject.new x y w h 100).takeDamage 25).takeDamage 25).color
        = ⟨69, 34, 9⟩) := by
  have hh := DestructibleObject.takeDamage_health o d
  have hmax := DestructibleObject.takeDamage_maxHealth o d
  have h0 : 0 ≤ (o.takeDamage d).health := by rw [hh]; exact le_max_left _ _
  have h1 : (o.takeDamage d).health ≤ o.maxHealth := by
    rw [hh]; exact max_le (le_of_lt hm) hle
  have hr0 : 0 ≤ (o.takeDamage d).health / o.maxHealth := div_nonneg h0 (le_of_lt hm)
  have hr1 : (o.takeDamage d).health / o.maxHealth ≤ 1 := (div_le_one hm).mpr h1
  have hc := DestructibleObject.takeDamage_color_eq o d
  rw [hmax] at hc
  refine ⟨?_, ?_, ?_, ?_⟩
  · rw [hc]
    exact toUint8_floor _ (by positivity) (by linarith)
  · rw [hc]
    exact toUint8_floor _ (by positivity) (by linarith)
  · rw [hc]
    exact toUint8_floor _ (by positivity) (by linarith)
  · intro x y w h
    have e1 : (((DestructibleObject.new x y w h 100).takeDamage 25).takeDamage 25).health
        = 50 := by
      rw [DestructibleObject.takeDamage_health, DestructibleObject.takeDamage_health]
      norm_num [DestructibleObject.new]
    have e2 : (((DestructibleObject.new x y w h 100).takeDamage 25).takeDamage 25).maxHealth
        = 100 := by
      rw [DestructibleObject.takeDamage_maxHealth, DestructibleObject.takeDamage_maxHealth]
      rfl
    have e3 : (((DestructibleObject.new x y w h 100).takeDamage 25).takeDamage 25).isActive
        = true := by
      rw [DestructibleObject.takeDamage_isActive, DestructibleObject.takeDamage_isActive,
        DestructibleObject.takeDamage_health]
      norm_num [DestructibleObject.new, StaticObject.new, GameObject.new]
    refine ⟨e1, e3, ?_⟩
    rw [DestructibleObject.takeDamage_color_eq, e1, e2]
    rw [toUint8_eq (139 * (50 / 100) : K) 69 (by norm_num) (by norm_num) (by norm_num),
      toUint8_eq (69 * (50 / 100) : K) 34 (by norm_num) (by norm_num) (by norm_num),
      toUint8_eq (19 * (50 / 100) : K) 9 (by norm_num) (by norm_num) (by norm_num)]

/-! ### Binary32 rounding -/

theorem roundHalfEven_eq (y : ℚ) (m : ℤ) (h1 : (m : ℚ) - 1 / 2 < y) (h2 : y < m + 1 / 2) :
    roundHalfEven y = m := by
  unfold roundHalfEven
  by_cases hm : (m : ℚ) ≤ y
  · have hf : ⌊y⌋ = m := Int.floor_eq_iff.mpr ⟨hm, by linarith⟩
    rw [hf, if_pos (by linarith)]
  · have hf : ⌊y⌋ = m - 1 :=
      Int.floor_eq_iff.mpr ⟨by push_cast; linarith, by push_cast; linarith⟩
    rw [hf]
    push_cast
    rw [if_neg (by linarith), if_pos (by linarith)]
    ring

theorem roundHalfEven_intCast (n : ℤ) : roundHalfEven (n : ℚ) = n :=
  roundHalfEven_eq _ n (by linarith) (by linarith)

theorem roundHalfEven_bounds (y : ℚ) :
    (roundHalfEven y : ℚ) - 1 / 2 ≤ y ∧ y ≤ roundHalfEven y + 1 / 2 := by
  have h1 := Int.floor_le y
  have h2 := Int.lt_floor_add_one y
  unfold roundHalfEven
  split_ifs <;> push_cast <;> constructor <;> linarith

theorem roundHalfEven_mono {x y : ℚ} (h : x ≤ y) : roundHalfEven x ≤ roundHalfEven y := by
  by_contra hc
  push_neg at hc
  have hc1 : roundHalfEven y + 1 ≤ roundHalfEven x := hc
  have hc2 : (roundHalfEven y : ℚ) + 1 ≤ roundHalfEven x := by exact_mod_cast hc1
  have bx := roundHalfEven_bounds x
  have bY := roundHalfEven_bounds y
  have hxy : x = y := le_antisymm h (by linarith)
  subst hxy
  exact lt_irrefl _ hc

theorem two_zpow_pos (k : ℤ) : (0 : ℚ) < 2 ^ k := by positivity

theorem two_zpow_le {i j : ℤ} (h : i ≤ j) : (2 : ℚ) ^ i ≤ 2 ^ j :=
  zpow_le_zpow_right₀ (by norm_num) h

theorem ulpExponent_ge (a : ℚ) : -149 ≤ ulpExponent a := by
  unfold ulpExponent
  have := le_max_right (Int.log 2 a) (-126)
  omega

theorem log_le_ulpExponent (a : ℚ) : Int.log 2 a ≤ ulpExponent a + 23 := by
  unfold ulpExponent
  have := le_max_left (Int.log 2 a) (-126)
  omega

theorem lt_two_zpow_ulpExponent (a : ℚ) : a < 2 ^ (ulpExponent a + 24) := by
  have h := Int.lt_zpow_succ_log_self (R := ℚ) (b := 2) (by norm_num) a
  have hle : Int.log 2 a + 1 ≤ ulpExponent a + 24 := by
    have := log_le_ulpExponent a
    omega
  calc a < ((2 : ℕ) : ℚ) ^ (Int.log 2 a + 1) := h
    _ = (2 : ℚ) ^ (Int.log 2 a + 1) := by norm_num
    _ ≤ 2 ^ (ulpExponent a + 24) := two_zpow_le hle

theorem two_zpow_log_le {a : ℚ} (ha : 0 < a) : (2 : ℚ) ^ Int.log 2 a ≤ a := by
  have h := Int.zpow_log_le_self (R := ℚ) (b := 2) (by norm_num) ha
  calc (2 : ℚ) ^ Int.log 2 a = ((2 : ℕ) : ℚ) ^ Int.log 2 a := by norm_num
    _ ≤ a := h

theorem log_two_zpow (z : ℤ) : Int.log 2 ((2 : ℚ) ^ z) = z := by
  have h := Int.log_zpow (R := ℚ) (b := 2) (by norm_num) z
  simpa using h

theorem log_lt_of_lt_two_zpow {a : ℚ} {z : ℤ} (ha : 0 < a) (h : a < 2 ^ z) : Int.log 2 a < z := by
  have h2 : a < ((2 : ℕ) : ℚ) ^ z := by simpa using h
  exact (Int.lt_zpow_iff_log_lt (R := ℚ) (b := 2) (by norm_num) ha).mp h2

theorem le_log_of_two_zpow_le {a : ℚ} {z : ℤ} (ha : 0 < a) (h : 2 ^ z ≤ a) : z ≤ Int.log 2 a := by
  have h2 : ((2 : ℕ) : ℚ) ^ z ≤ a := by simpa using h
  exact (Int.zpow_le_iff_le_log (R := ℚ) (b := 2) (by norm_num) ha).mp h2

theorem roundMag_zero : roundMag 0 = 0 := by
  unfold roundMag
  rw [zero_div]
  have h : roundHalfEven (0 : ℚ) = 0 := by simpa using roundHalfEven_intCast 0
  rw [h]
  simp

theorem roundHalfEven_nonneg {y : ℚ} (h : 0 ≤ y) : 0 ≤ roundHalfEven y := by
  have h0 : roundHalfEven (0 : ℚ) = 0 := by simpa using roundHalfEven_intCast 0
  have := roundHalfEven_mono h
  rwa [h0] at this

theorem roundMag_nonneg {a : ℚ} (h : 0 ≤ a) : 0 ≤ roundMag a := by
  unfold roundMag
  have h1 : 0 ≤ a / 2 ^ ulpExponent a := div_nonneg h (two_zpow_pos _).le
  have h2 : (0 : ℚ) ≤ roundHalfEven (a / 2 ^ ulpExponent a) := by
    exact_mod_cast roundHalfEven_nonneg h1
  exact mul_nonneg h2 (two_zpow_pos _).le

theorem roundMag_le_two_zpow (a : ℚ) : roundMag a ≤ 2 ^ (ulpExponent a + 24) := by
  unfold roundMag
  have hk := two_zpow_pos (ulpExponent a)
  have h1 : a / 2 ^ ulpExponent a ≤ ((2 ^ 24 : ℤ) : ℚ) := by
    rw [div_le_iff₀ hk]
    have := lt_two_zpow_ulpExponent a
    rw [zpow_add₀ (by norm_num : (2 : ℚ) ≠ 0)] at this
    push_cast
    have e : (2 : ℚ) ^ (24 : ℤ) = 2 ^ 24 := by norm_num
    rw [e] at this
    linarith
  have h2 := roundHalfEven_mono h1
  rw [roundHalfEven_intCast] at h2
  have h3 : (roundHalfEven (a / 2 ^ ulpExponent a) : ℚ) ≤ 2 ^ 24 := by exact_mod_cast h2
  rw [zpow_add₀ (by norm_num : (2 : ℚ) ≠ 0)]
  have e : (2 : ℚ) ^ (24 : ℤ) = 2 ^ 24 := by norm_num
  rw [e]
  nlinarith

theorem two_zpow_le_roundMag {a : ℚ} (ha : 0 < a) (hn : -126 ≤ Int.log 2 a) :
    (2 : ℚ) ^ (ulpExponent a + 23) ≤ roundMag a := by
  have hk := two_zpow_pos (ulpExponent a)
  have hu : ulpExponent a + 23 = Int.log 2 a := by
    unfold ulpExponent
    rw [max_eq_left hn]
    omega
  have hlo : (2 : ℚ) ^ (ulpExponent a + 23) ≤ a := by
    rw [hu]
    exact two_zpow_log_le ha
  unfold roundMag
  have e : (2 : ℚ) ^ (23 : ℤ) = 2 ^ 23 := by norm_num
  rw [zpow_add₀ (by norm_num : (2 : ℚ) ≠ 0), e] at hlo
  have h1 : ((2 ^ 23 : ℤ) : ℚ) ≤ a / 2 ^ ulpExponent a := by
    rw [le_div_iff₀ hk]
    push_cast
    linarith
  have h2 := roundHalfEven_mono h1
  rw [roundHalfEven_intCast] at h2
  have h3 : (2 : ℚ) ^ 23 ≤ roundHalfEven (a / 2 ^ ulpExponent a) := by exact_mod_cast h2
  rw [zpow_add₀ (by norm_num : (2 : ℚ) ≠ 0), e]
  nlinarith

theorem roundMag_mono {a b : ℚ} (ha : 0 ≤ a) (h : a ≤ b) : roundMag a ≤ roundMag b := by
  rcases ha.eq_or_lt with h0 | hpos
  · rw [← h0, roundMag_zero]
    exact roundMag_nonneg (ha.trans h)
  · have hb : 0 < b := hpos.trans_le h
    have hlog : Int.log 2 a ≤ Int.log 2 b := Int.log_mono_right hpos h
    have hk : ulpExponent a ≤ ulpExponent b := by
      unfold ulpExponent
      have := max_le_max hlog (le_refl (-126 : ℤ))
      omega
    rcases hk.eq_or_lt with he | hlt
    · unfold roundMag
      rw [he]
      have h1 : a / 2 ^ ulpExponent b ≤ b / 2 ^ ulpExponent b :=
        div_le_div_of_nonneg_right h (two_zpow_pos _).le
      have h2 : (roundHalfEven (a / 2 ^ ulpExponent b) : ℚ) ≤ roundHalfEven (b / 2 ^ ulpExponent b) := by
        exact_mod_cast roundHalfEven_mono h1
      exact mul_le_mul_of_nonneg_right h2 (two_zpow_pos _).le
    · have hn : -126 ≤ Int.log 2 b := by
        by_contra hc
        push_neg at hc
        have h1 : ulpExponent b = -149 := by
          unfold ulpExponent
          rw [max_eq_right hc.le]
          norm_num
        have := ulpExponent_ge a
        omega
      calc roundMag a ≤ 2 ^ (ulpExponent a + 24) := roundMag_le_two_zpow a
        _ ≤ 2 ^ (ulpExponent b + 23) := two_zpow_le (by omega)
        _ ≤ roundMag b := two_zpow_le_roundMag hb hn

theorem roundMag_of_scaled (r : ℚ) (j : ℤ) (h : r = j * 2 ^ ulpExponent r) : roundMag r = r := by
  have hk := two_zpow_pos (ulpExponent r)
  have hq : r / 2 ^ ulpExponent r = j := by
    rw [div_eq_iff hk.ne']
    exact h
  unfold roundMag
  rw [hq, roundHalfEven_intCast]
  exact h.symm

theorem roundMag_idem {a : ℚ} (ha : 0 ≤ a) : roundMag (roundMag a) = roundMag a := by
  have hr0 := roundMag_nonneg ha
  rcases hr0.eq_or_lt with h0 | hpos
  · rw [← h0, roundMag_zero]
  · have hk := two_zpow_pos (ulpExponent a)
    have hle := roundMag_le_two_zpow a
    rcases hle.eq_or_lt with heq | hlt
    · -- the rounded value is the next power of two
      have hlog : Int.log 2 (roundMag a) = ulpExponent a + 24 := by
        rw [heq]
        exact log_two_zpow _
      have hka := ulpExponent_ge a
      have hu : ulpExponent (roundMag a) = ulpExponent a + 1 := by
        unfold ulpExponent at hlog ⊢
        rw [hlog]
        rw [max_eq_left (by
          have := le_max_right (Int.log 2 a) (-126)
          omega)]
        omega
      apply roundMag_of_scaled _ (2 ^ 23)
      rw [hu, heq]
      have e : ulpExponent a + 24 = 23 + (ulpExponent a + 1) := by ring
      rw [e, zpow_add₀ (by norm_num : (2 : ℚ) ≠ 0)]
      norm_num
    · have hlog : Int.log 2 (roundMag a) < ulpExponent a + 24 := log_lt_of_lt_two_zpow hpos hlt
      have hka := ulpExponent_ge a
      have hu : ulpExponent (roundMag a) ≤ ulpExponent a := by
        have h1 : max (Int.log 2 (roundMag a)) (-126) ≤ ulpExponent a + 23 :=
          max_le (by omega) (by omega)
        unfold ulpExponent at h1 ⊢
        omega
      obtain ⟨d, hd⟩ := Int.eq_ofNat_of_zero_le (sub_nonneg.mpr hu)
      apply roundMag_of_scaled _ (roundHalfEven (a / 2 ^ ulpExponent a) * 2 ^ d)
      have e : ulpExponent a = (d : ℤ) + ulpExponent (roundMag a) := by omega
      have e2 : (2 : ℚ) ^ ulpExponent a = 2 ^ d * 2 ^ ulpExponent (roundMag a) := by
        conv_lhs => rw [e]
        rw [zpow_add₀ (by norm_num : (2 : ℚ) ≠ 0), zpow_natCast]
      conv_lhs => unfold roundMag
      rw [e2]
      push_cast
      ring

theorem round32_of_nonneg {x : ℚ} (h : 0 ≤ x) : round32 x = roundMag x := if_pos h

theorem round32_zero : round32 0 = 0 := by
  rw [round32_of_nonneg le_rfl, roundMag_zero]

theorem round32_nonneg {x : ℚ} (h : 0 ≤ x) : 0 ≤ round32 x := by
  rw [round32_of_nonneg h]
  exact roundMag_nonneg h

theorem round32_nonpos {x : ℚ} (h : x ≤ 0) : round32 x ≤ 0 := by
  rcases h.eq_or_lt with h0 | hneg
  · rw [h0, round32_zero]
  · unfold round32
    rw [if_neg (not_le.mpr hneg)]
    have := roundMag_nonneg (neg_nonneg.mpr h)
    linarith

theorem round32_mono {a b : ℚ} (h : a ≤ b) : round32 a ≤ round32 b := by
  rcases le_or_lt 0 a with ha | ha
  · rw [round32_of_nonneg ha, round32_of_nonneg (ha.trans h)]
    exact roundMag_mono ha h
  · rcases le_or_lt 0 b with hb | hb
    · exact (round32_nonpos ha.le).trans (round32_nonneg hb)
    · unfold round32
      rw [if_neg (not_le.mpr ha), if_neg (not_le.mpr hb)]
      have := roundMag_mono (neg_nonneg.mpr hb.le) (neg_le_neg h)
      linarith

theorem round32_idem (a : ℚ) : round32 (round32 a) = round32 a := by
  rcases le_or_lt 0 a with ha | ha
  · rw [round32_of_nonneg ha, round32_of_nonneg (roundMag_nonneg ha), roundMag_idem ha]
  · have hn : 0 ≤ -a := neg_nonneg.mpr ha.le
    have hr : round32 a = -roundMag (-a) := by
      unfold round32
      rw [if_neg (not_le.mpr ha)]
    rw [hr]
    rcases (roundMag_nonneg hn).eq_or_lt with h0 | hpos
    · rw [← h0]
      simp [round32_zero]
    · unfold round32
      rw [if_neg (not_le.mpr (neg_lt_zero.mpr hpos)), neg_neg, roundMag_idem hn]

theorem round32_isRounding : IsRounding round32 :=
  ⟨fun _ _ h => round32_mono h, round32_idem, round32_zero⟩

theorem round32_eq_of_normal (x : ℚ) (e m : ℤ) (he : -126 ≤ e) (hlo : 2 ^ e ≤ x)
    (hhi : x < 2 ^ (e + 1)) (h1 : (m : ℚ) - 1 / 2 < x / 2 ^ (e - 23))
    (h2 : x / 2 ^ (e - 23) < m + 1 / 2) : round32 x = m * 2 ^ (e - 23) := by
  have hx : 0 < x := (two_zpow_pos e).trans_le hlo
  have hlog : Int.log 2 x = e :=
    le_antisymm (by have := log_lt_of_lt_two_zpow hx hhi; omega) (le_log_of_two_zpow_le hx hlo)
  have hu : ulpExponent x = e - 23 := by
    unfold ulpExponent
    rw [hlog, max_eq_left he]
  rw [round32_of_nonneg hx.le]
  unfold roundMag
  rw [hu, roundHalfEven_eq _ m h1 h2]

theorem round32_eq_of_tiny (x : ℚ) (m : ℤ) (hx : 0 < x) (hhi : x < 2 ^ (-126 : ℤ))
    (h1 : (m : ℚ) - 1 / 2 < x / 2 ^ (-149 : ℤ))
    (h2 : x / 2 ^ (-149 : ℤ) < m + 1 / 2) : round32 x = m * 2 ^ (-149 : ℤ) := by
  have hlog : Int.log 2 x < -126 := log_lt_of_lt_two_zpow hx hhi
  have hu : ulpExponent x = -149 := by
    unfold ulpExponent
    rw [max_eq_right hlog.le]
    norm_num
  rw [round32_of_nonneg hx.le]
  unfold roundMag
  rw [hu, roundHalfEven_eq _ m h1 h2]

/-! ### Running sums with rounding -/

theorem accumulate_cons {K : Type} [LinearOrderedField K] (fl : K → K) (t d : K) (l : List K) :
    accumulate fl t (d :: l) = accumulate fl (fl (t + d)) l := rfl

/-- A rounded running sum that starts at a value the rounding leaves alone never falls
under non-negative steps. -/
theorem le_accumulate {K : Type} [LinearOrderedField K] (fl : K → K) (hfl : IsRounding fl)
    (dts : List K) (t : K) (ht : fl t = t) (h : ∀ d ∈ dts, 0 ≤ d) :
    t ≤ accumulate fl t dts := by
  induction dts generalizing t with
  | nil => exact le_refl t
  | cons d rest ih =>
    have hd : 0 ≤ d := h d (List.mem_cons_self d rest)
    have h1 : t ≤ fl (t + d) := by
      have := hfl.1 t (t + d) (by linarith)
      rwa [ht] at this
    rw [accumulate_cons]
    exact h1.trans (ih (fl (t + d)) (hfl.2.1 _)
      (fun e he => h e (List.mem_cons_of_mem d he)))

theorem accumulate_take_le {K : Type} [LinearOrderedField K] (fl : K → K) (hfl : IsRounding fl)
    (dts : List K) (t : K) (ht : fl t = t) (h : ∀ d ∈ dts, 0 ≤ d) (k : ℕ) :
    accumulate fl t (dts.take k) ≤ accumulate fl t dts := by
  induction dts generalizing t k with
  | nil => simp
  | cons d rest ih =>
    cases k with
    | zero => exact le_accumulate fl hfl (d :: rest) t ht h
    | succ k =>
      rw [List.take_succ_cons, accumulate_cons, accumulate_cons]
      exact ih (fl (t + d)) (hfl.2.1 _) (fun e he => h e (List.mem_cons_of_mem d he)) k

theorem accumulate_exact {K : Type} [LinearOrderedField K] (fl : K → K) (hid : ∀ a, fl a = a)
    (dts : List K) (t : K) : accumulate fl t dts = t + dts.sum := by
  induction dts generalizing t with
  | nil => simp [accumulate]
  | cons d rest ih =>
    rw [accumulate_cons, ih, hid, List.sum_cons, add_assoc]

theorem isRounding_of_exact {K : Type} [LinearOrderedField K] (fl : K → K)
    (hid : ∀ a, fl a = a) : IsRounding fl :=
  ⟨fun a b h => by rw [hid, hid]; exact h, fun a => by rw [hid], hid 0⟩

theorem sum_updateDts {K : Type} [LinearOrderedField K] (acts : List (Action K)) :
    (updateDts acts).sum = elapsed acts := by
  induction acts with
  | nil => simp [updateDts, elapsed]
  | cons a rest ih =>
    have hsum : elapsed (a :: rest) = a.dt + elapsed rest := by simp [elapsed]
    cases a with
    | update dt => rw [hsum, ← ih]; simp [updateDts, Action.dt]
    | tryShoot => rw [hsum, ← ih]; simp [updateDts, Action.dt]

theorem updateDts_nonneg {K : Type} [LinearOrderedField K] (acts : List (Action K))
    (h : ∀ a ∈ acts, 0 ≤ a.dt) : ∀ d ∈ updateDts acts, 0 ≤ d := by
  induction acts with
  | nil => intro d hd; simp [updateDts] at hd
  | cons a rest ih =>
    have hrest : ∀ b ∈ rest, 0 ≤ b.dt := fun b hb => h b (List.mem_cons_of_mem a hb)
    cases a with
    | update dt =>
      intro d hd
      simp only [updateDts, List.mem_cons] at hd
      rcases hd with rfl | hd
      · exact h (Action.update d) (List.mem_cons_self _ _)
      · exact ih hrest d hd
    | tryShoot =>
      intro d hd
      simp only [updateDts] at hd
      exact ih hrest d hd

/-! ### Rounded cooldown lemmas -/

theorem Player.tryShoot_fst {K : Type} (p : Player K) : (p.tryShoot).1 = p.canShoot := by
  unfold Player.tryShoot
  by_cases h : p.canShoot = true <;> simp [h]

theorem Player.updateFl_canShoot_timer {K : Type} [LinearOrderedField K] (fl : K → K)
    (p : Player K) (dt : K) (h : p.canShoot = true → p.cooldownTimer = 0) :
    (p.updateFl fl dt).canShoot = true → (p.updateFl fl dt).cooldownTimer = 0 := by
  unfold Player.updateFl
  by_cases hc : p.canShoot = true
  · simp [hc, h hc]
  · by_cases ht : p.shootCooldown ≤ fl (p.cooldownTimer + dt) <;> simp [hc, ht]

theorem Player.runFl_canShoot_timer {K : Type} [LinearOrderedField K] (fl : K → K)
    (acts : List (Action K)) (p : Player K) (h : p.canShoot = true → p.cooldownTimer = 0) :
    (p.runFl fl acts).canShoot = true → (p.runFl fl acts).cooldownTimer = 0 := by
  induction acts generalizing p with
  | nil => simpa [Player.runFl] using h
  | cons a rest ih =>
    have hstep : (p.stepFl fl a).canShoot = true → (p.stepFl fl a).cooldownTimer = 0 := by
      cases a with
      | update dt => exact Player.updateFl_canShoot_timer fl p dt h
      | tryShoot => exact Player.tryShoot_canShoot_timer p
    simpa [Player.runFl] using ih (p.stepFl fl a) hstep

theorem Player.updateFl_shootCooldown {K : Type} [LinearOrderedField K] (fl : K → K)
    (p : Player K) (dt : K) : (p.updateFl fl dt).shootCooldown = p.shootCooldown := by
  unfold Player.updateFl
  by_cases hc : p.canShoot = true
  · simp [hc]
  · by_cases ht : p.shootCooldown ≤ fl (p.cooldownTimer + dt) <;> simp [hc, ht]

theorem Player.runFl_shootCooldown {K : Type} [LinearOrderedField K] (fl : K → K)
    (acts : List (Action K)) (p : Player K) :
    (p.runFl fl acts).shootCooldown = p.shootCooldown := by
  induction acts generalizing p with
  | nil => rfl
  | cons a rest ih =>
    have hstep : (p.stepFl fl a).shootCooldown = p.shootCooldown := by
      cases a with
      | update dt => exact Player.updateFl_shootCooldown fl p dt
      | tryShoot =>
        unfold Player.stepFl Player.tryShoot
        by_cases hc : p.canShoot = true <;> simp [hc]
    have := ih (p.stepFl fl a)
    simpa [Player.runFl, hstep] using this

/-- While the player cannot shoot, an update whose rounded timer stays below the cooldown
leaves the player waiting with that timer. -/
theorem Player.updateFl_waiting {K : Type} [LinearOrderedField K] (fl : K → K) (p : Player K)
    (dt : K) (hc : p.canShoot = false) (hlt : fl (p.cooldownTimer + dt) < p.shootCooldown) :
    (p.updateFl fl dt).canShoot = false ∧
    (p.updateFl fl dt).cooldownTimer = fl (p.cooldownTimer + dt) ∧
    (p.updateFl fl dt).shootCooldown = p.shootCooldown := by
  have ht : ¬ p.shootCooldown ≤ fl (p.cooldownTimer + dt) := not_le.mpr hlt
  simp [Player.updateFl, hc, ht]

/-- While the player cannot shoot, an update whose rounded timer reaches the cooldown
re-arms the player. -/
theorem Player.updateFl_rearmed {K : Type} [LinearOrderedField K] (fl : K → K) (p : Player K)
    (dt : K) (hc : p.canShoot = false) (hge : p.shootCooldown ≤ fl (p.cooldownTimer + dt)) :
    (p.updateFl fl dt).canShoot = true := by
  simp [Player.updateFl, hc, hge]

/-- While the player cannot shoot, being able to shoot after a run of calls means that the
rounded timer, run over the update steps of some prefix, reached the cooldown. -/
theorem Player.runFl_rearm {K : Type} [LinearOrderedField K] (fl : K → K)
    (acts : List (Action K)) (p : Player K) (hc : p.canShoot = false)
    (hr : (p.runFl fl acts).canShoot = true) :
    ∃ k, p.shootCooldown ≤ accumulate fl p.cooldownTimer ((updateDts acts).take k) := by
  induction acts generalizing p with
  | nil => simp [Player.runFl, hc] at hr
  | cons a rest ih =>
    have hr2 : ((p.stepFl fl a).runFl fl rest).canShoot = true := by
      simpa [Player.runFl] using hr
    cases a with
    | tryShoot =>
      have hp : p.stepFl fl Action.tryShoot = p := by
        simp [Player.stepFl, Player.tryShoot, hc]
      rw [hp] at hr2
      obtain ⟨k, hk⟩ := ih p hc hr2
      exact ⟨k, by simpa [updateDts] using hk⟩
    | update dt =>
      by_cases ht : p.shootCooldown ≤ fl (p.cooldownTimer + dt)
      · exact ⟨1, by simpa [updateDts, accumulate] using ht⟩
      · obtain ⟨hc2, ht2, hs2⟩ := Player.updateFl_waiting fl p dt hc (lt_of_not_le ht)
        obtain ⟨k, hk⟩ := ih (p.updateFl fl dt) hc2 hr2
        rw [ht2, hs2] at hk
        exact ⟨k + 1, by simpa [updateDts, accumulate_cons] using hk⟩

/-- The binary32 values that the cooldown timer takes in the sample run: 0.2f, and the
running sums of 0.05f, 0.05f, 0.05f and the float just below 0.05f. -/
theorem round32_cooldown_samples :
    round32 (2 / 10) = 13421773 / 67108864 ∧
    round32 (0 + 13421773 / 268435456) = 13421773 / 268435456 ∧
    round32 (13421773 / 268435456 + 13421773 / 268435456) = 13421773 / 134217728 ∧
    round32 (13421773 / 134217728 + 13421773 / 268435456) = 5033165 / 33554432 ∧
    round32 (5033165 / 33554432 + 3355443 / 67108864) = 13421773 / 67108864 ∧
    round32 (3355443 / 67108864) = 3355443 / 67108864 := by
  refine ⟨?_, ?_, ?_, ?_, ?_, ?_⟩
  · rw [round32_eq_of_normal _ (-3) 13421773] <;> norm_num
  · rw [round32_eq_of_normal _ (-5) 13421773] <;> norm_num
  · rw [round32_eq_of_normal _ (-4) 13421773] <;> norm_num
  · rw [round32_eq_of_normal _ (-3) 10066330] <;> norm_num
  · rw [round32_eq_of_normal _ (-3) 13421773] <;> norm_num
  · rw [round32_eq_of_normal _ (-5) 13421772] <;> norm_num

theorem Player.newFl_shootCooldown {K : Type} [LinearOrderedField K] (fl : K → K) (x y : K) :
    (Player.newFl fl x y).shootCooldown = fl (2 / 10) := rfl

/-- State of a fresh player right after its first shot. -/
theorem Player.newFl_shot {K : Type} [LinearOrderedField K] (fl : K → K) (x y : K) :
    (((Player.newFl fl x y).runFl fl []).tryShoot).1 = true ∧
    (((Player.newFl fl x y).runFl fl []).tryShoot).2.canShoot = false ∧
    (((Player.newFl fl x y).runFl fl []).tryShoot).2.cooldownTimer = 0 ∧
    (((Player.newFl fl x y).runFl fl []).tryShoot).2.shootCooldown = fl (2 / 10) := by
  simp [Player.runFl, Player.tryShoot, Player.newFl]

/-- Four updates of a waiting player: when the rounded timer stays below the cooldown for
three steps and reaches it at the fourth, the player is re-armed. -/
theorem Player.runFl_four_updates {K : Type} [LinearOrderedField K] (fl : K → K)
    (p : Player K) (d1 d2 d3 d4 : K) (hc : p.canShoot = false)
    (h1 : fl (p.cooldownTimer + d1) < p.shootCooldown)
    (h2 : fl (fl (p.cooldownTimer + d1) + d2) < p.shootCooldown)
    (h3 : fl (fl (fl (p.cooldownTimer + d1) + d2) + d3) < p.shootCooldown)
    (h4 : p.shootCooldown ≤ fl (fl (fl (fl (p.cooldownTimer + d1) + d2) + d3) + d4)) :
    (p.runFl fl [Action.update d1, Action.update d2, Action.update d3,
      Action.update d4]).canShoot = true := by
  obtain ⟨c1, t1, s1⟩ := Player.updateFl_waiting fl p d1 hc h1
  obtain ⟨c2, t2, s2⟩ := Player.updateFl_waiting fl _ d2 c1 (by rw [t1, s1]; exact h2)
  rw [t1] at t2
  rw [s1] at s2
  obtain ⟨c3, t3, s3⟩ := Player.updateFl_waiting fl _ d3 c2 (by rw [t2, s2]; exact h3)
  rw [t2] at t3
  rw [s2] at s3
  have c4 := Player.updateFl_rearmed fl _ d4 c3 (by rw [t3, s3]; exact h4)
  simpa [Player.runFl, Player.stepFl] using c4

/-- The sample run in binary32: after a shot, three updates of 0.05f leave the player
waiting and a fourth update of 3355443 / 67108864 (the float just below 0.05f) re-arms the
player. -/
theorem Player.runFl_sample_rearms :
    ((((Player.newFl round32 (0 : ℚ) 0).runFl round32 []).tryShoot).2.runFl round32
      [Action.update (13421773 / 268435456), Action.update (13421773 / 268435456),
        Action.update (13421773 / 268435456), Action.update (3355443 / 67108864)]).canShoot
      = true := by
  obtain ⟨ec, e1, e2, e3, e4, _⟩ := round32_cooldown_samples
  obtain ⟨_, c0, t0, s0⟩ := Player.newFl_shot round32 (0 : ℚ) 0
  apply Player.runFl_four_updates round32 _ _ _ _ _ c0
  · rw [t0, s0, ec, e1]; norm_num
  · rw [t0, s0, ec, e1, e2]; norm_num
  · rw [t0, s0, ec, e1, e2, e3]; norm_num
  · rw [t0, s0, ec, e1, e2, e3, e4]

/-! ### Cooldown claim -/

/-- C2 (as stated, refuted): in binary32 a player shoots, is updated with dt = 0.05f three
times and with dt = 3355443 / 67108864 (the float just below 0.05f) once, and shoots again:
the second tryShoot returns true although the four dt values, all non-negative floats, sum
to less than 0.2 and less than shootCooldown = 0.2f. -/
theorem Player.rate_limit_refuted_by_rounding :
    (((Player.newFl round32 (0 : ℚ) 0).runFl round32 []).tryShoot).1 = true ∧
    ((((Player.newFl round32 (0 : ℚ) 0).runFl round32 []).tryShoot).2.runFl round32
      [Action.update (13421773 / 268435456), Action.update (13421773 / 268435456),
        Action.update (13421773 / 268435456),
        Action.update (3355443 / 67108864)]).tryShoot.1 = true ∧
    (∀ a ∈ [Action.update (13421773 / 268435456 : ℚ), Action.update (13421773 / 268435456),
        Action.update (13421773 / 268435456), Action.update (3355443 / 67108864)],
      0 ≤ a.dt ∧ round32 a.dt = a.dt) ∧
    elapsed [Action.update (13421773 / 268435456 : ℚ), Action.update (13421773 / 268435456),
        Action.update (13421773 / 268435456), Action.update (3355443 / 67108864)] < 2 / 10 ∧
    elapsed [Action.update (13421773 / 268435456 : ℚ), Action.update (13421773 / 268435456),
        Action.update (13421773 / 268435456), Action.update (3355443 / 67108864)] <
      (Player.newFl round32 (0 : ℚ) 0).shootCooldown := by
  obtain ⟨ec, e1, _, _, _, e5⟩ := round32_cooldown_samples
  have e1b : round32 (13421773 / 268435456) = 13421773 / 268435456 := by
    have := e1
    rwa [zero_add] at this
  refine ⟨(Player.newFl_shot round32 (0 : ℚ) 0).1, ?_, ?_, ?_, ?_⟩
  · exact (Player.tryShoot_fst _).trans Player.runFl_sample_rearms
  · intro a ha
    simp only [List.mem_cons, List.mem_singleton, List.not_mem_nil, or_false] at ha
    rcases ha with rfl | rfl | rfl | rfl
    · exact ⟨by norm_num [Action.dt], by simpa [Action.dt] using e1b⟩
    · exact ⟨by norm_num [Action.dt], by simpa [Action.dt] using e1b⟩
    · exact ⟨by norm_num [Action.dt], by simpa [Action.dt] using e1b⟩
    · exact ⟨by norm_num [Action.dt], by simpa [Action.dt] using e5⟩
  · norm_num [elapsed, Action.dt]
  · have hs := Player.newFl_shootCooldown round32 (0 : ℚ) 0
    rw [hs, ec]
    norm_num [elapsed, Action.dt]

/-- C2 (amended): starting from a freshly constructed Player, take any calls `pre`, then a
tryShoot that returns true, then any calls `mid` whose update steps have dt >= 0, then a
tryShoot that returns true again.  Then the running sum of the dt values of the update
calls in `mid`, started at 0 and with every addition rounded as in the cooldown timer of the
code, is at least shootCooldown, the float nearest to 0.2; when nothing is rounded this says
that the dt values sum to at least 0.2. -/
theorem Player.tryShoot_rate_limit_rounded {K : Type} [LinearOrderedField K] (fl : K → K)
    (x y : K) (pre mid : List (Action K)) (hfl : IsRounding fl) (hdt : ∀ a ∈ mid, 0 ≤ a.dt)
    (h1 : (((Player.newFl fl x y).runFl fl pre).tryShoot).1 = true)
    (h2 : ((((Player.newFl fl x y).runFl fl pre).tryShoot).2.runFl fl mid).tryShoot.1 = true) :
    (Player.newFl fl x y).shootCooldown = fl (2 / 10) ∧
    fl (2 / 10) ≤ accumulate fl 0 (updateDts mid) ∧
    ((∀ a, fl a = a) → (2 / 10 : K) ≤ elapsed mid) := by
  set q := (Player.newFl fl x y).runFl fl pre with hq
  have hinv : q.canShoot = true → q.cooldownTimer = 0 :=
    Player.runFl_canShoot_timer fl pre (Player.newFl fl x y) (fun _ => rfl)
  have hcd : q.shootCooldown = fl (2 / 10) := by
    rw [hq, Player.runFl_shootCooldown]; rfl
  have hqc : q.canShoot = true := by
    by_contra hn
    simp [Player.tryShoot, hn] at h1
  have hshot : (q.tryShoot).2 = { q with canShoot := false } := by
    simp [Player.tryShoot, hqc]
  rw [hshot] at h2
  have hfin : (({ q with canShoot := false } : Player K).runFl fl mid).canShoot = true := by
    by_contra hn
    simp [Player.tryShoot, hn] at h2
  obtain ⟨k, hk⟩ := Player.runFl_rearm fl mid { q with canShoot := false } rfl hfin
  simp only [hcd, hinv hqc] at hk
  have hfull : fl (2 / 10) ≤ accumulate fl 0 (updateDts mid) :=
    hk.trans (accumulate_take_le fl hfl (updateDts mid) 0 hfl.2.2
      (updateDts_nonneg mid hdt) k)
  refine ⟨rfl, hfull, ?_⟩
  intro hid
  have := hfull
  rwa [hid, accumulate_exact fl hid, zero_add, sum_updateDts] at this

/-- C2 witness: the binary32 run of a shot, three updates of 0.05f and one of the float just
below 0.05f, after which the player shoots again. -/
theorem Player.tryShoot_rate_limit_rounded_witness :
    round32 (2 / 10) ≤ accumulate round32 0
      (updateDts [Action.update (13421773 / 268435456 : ℚ),
        Action.update (13421773 / 268435456), Action.update (13421773 / 268435456),
        Action.update (3355443 / 67108864)]) :=
  (Player.tryShoot_rate_limit_rounded round32 (0 : ℚ) 0 []
    [Action.update (13421773 / 268435456), Action.update (13421773 / 268435456),
      Action.update (13421773 / 268435456), Action.update (3355443 / 67108864)]
    round32_isRounding
    (by intro a ha
        simp only [List.mem_cons, List.mem_singleton, List.not_mem_nil, or_false] at ha
        rcases ha with rfl | rfl | rfl | rfl <;> norm_num [Action.dt])
    (Player.newFl_shot round32 (0 : ℚ) 0).1
    ((Player.tryShoot_fst _).trans Player.runFl_sample_rearms)).2.1

/-! ### Rounded projectile lemmas -/

theorem Projectile.updateFl_age {K : Type} [LinearOrderedField K] (fl : K → K)
    (q : Projectile K) (dt : K) : (q.updateFl fl dt).age = fl (q.age + dt) := by
  unfold Projectile.updateFl
  by_cases ht : q.lifetime ≤ fl (q.age + dt) <;> simp [ht]

theorem Projectile.updateFl_lifetime {K : Type} [LinearOrderedField K] (fl : K → K)
    (q : Projectile K) (dt : K) : (q.updateFl fl dt).lifetime = q.lifetime := by
  unfold Projectile.updateFl
  by_cases ht : q.lifetime ≤ fl (q.age + dt) <;> simp [ht]

theorem Projectile.updateFl_isActive {K : Type} [LinearOrderedField K] (fl : K → K)
    (q : Projectile K) (dt : K) :
    (q.updateFl fl dt).isActive = (if q.lifetime ≤ fl (q.age + dt) then false else q.isActive) := by
  unfold Projectile.updateFl
  by_cases ht : q.lifetime ≤ fl (q.age + dt) <;> simp [ht]

theorem Projectile.updatesFl_cons {K : Type} [LinearOrderedField K] (fl : K → K)
    (q : Projectile K) (dt : K) (rest : List K) :
    q.updatesFl fl (dt :: rest) = (q.updateFl fl dt).updatesFl fl rest := rfl

theorem Projectile.updatesFl_age {K : Type} [LinearOrderedField K] (fl : K → K)
    (dts : List K) (q : Projectile K) : (q.updatesFl fl dts).age = accumulate fl q.age dts := by
  induction dts generalizing q with
  | nil => rfl
  | cons dt rest ih =>
    rw [Projectile.updatesFl_cons, ih, Projectile.updateFl_age, accumulate_cons]

theorem Projectile.updatesFl_inactive {K : Type} [LinearOrderedField K] (fl : K → K)
    (dts : List K) (q : Projectile K) (h : q.isActive = false) :
    (q.updatesFl fl dts).isActive = false := by
  induction dts generalizing q with
  | nil => exact h
  | cons dt rest ih =>
    rw [Projectile.updatesFl_cons]
    apply ih
    rw [Projectile.updateFl_isActive, h]
    simp

/-- An active projectile younger than its lifetime is inactive after a run of non-negative
steps exactly when its rounded age has reached the lifetime. -/
theorem Projectile.updatesFl_expired_iff {K : Type} [LinearOrderedField K] (fl : K → K)
    (hfl : IsRounding fl) (dts : List K) (q : Projectile K) (hdt : ∀ dt ∈ dts, 0 ≤ dt)
    (ha : q.isActive = true) (hage : q.age < q.lifetime) (hfix : fl q.age = q.age) :
    (q.updatesFl fl dts).isActive = false ↔ q.lifetime ≤ accumulate fl q.age dts := by
  induction dts generalizing q with
  | nil =>
    constructor
    · intro h
      rw [show q.updatesFl fl [] = q from rfl, ha] at h
      exact absurd h (by simp)
    · intro h
      exact absurd h (not_le.mpr hage)
  | cons dt rest ih =>
    have hrest : ∀ d ∈ rest, 0 ≤ d := fun d hd => hdt d (List.mem_cons_of_mem dt hd)
    rw [Projectile.updatesFl_cons, accumulate_cons]
    by_cases ht : q.lifetime ≤ fl (q.age + dt)
    · have hin : (q.updateFl fl dt).isActive = false := by
        rw [Projectile.updateFl_isActive, if_pos ht]
      constructor
      · intro _
        exact ht.trans (le_accumulate fl hfl rest _ (hfl.2.1 _) hrest)
      · intro _
        exact Projectile.updatesFl_inactive fl rest _ hin
    · have hact : (q.updateFl fl dt).isActive = true := by
        rw [Projectile.updateFl_isActive, if_neg ht, ha]
      have := ih (q.updateFl fl dt) hrest hact
        (by rw [Projectile.updateFl_age, Projectile.updateFl_lifetime]; exact lt_of_not_le ht)
        (by rw [Projectile.updateFl_age]; exact hfl.2.1 _)
      rw [this, Projectile.updateFl_age, Projectile.updateFl_lifetime]

theorem Projectile.newFl_fresh {K : Type} [LinearOrderedField K] (fl sqrtf : K → K)
    (x y dx dy : K) :
    (Projectile.newFl fl sqrtf x y dx dy).isActive = true ∧
    (Projectile.newFl fl sqrtf x y dx dy).age = 0 ∧
    (Projectile.newFl fl sqrtf x y dx dy).lifetime = 3 :=
  ⟨rfl, rfl, rfl⟩

/-- Expiry of a fresh projectile under a rounding operator, in terms of the rounded age. -/
theorem Projectile.newFl_expired_iff {K : Type} [LinearOrderedField K] (fl sqrtf : K → K)
    (hfl : IsRounding fl) (x y dx dy : K) (dts : List K) (hdt : ∀ dt ∈ dts, 0 ≤ dt) :
    ((Projectile.newFl fl sqrtf x y dx dy).updatesFl fl dts).isActive = false ↔
      3 ≤ accumulate fl 0 dts := by
  obtain ⟨ha, hage, hlife⟩ := Projectile.newFl_fresh fl sqrtf x y dx dy
  have := Projectile.updatesFl_expired_iff fl hfl dts (Projectile.newFl fl sqrtf x y dx dy) hdt
    ha (by rw [hage, hlife]; norm_num) (by rw [hage]; exact hfl.2.2)
  rw [hage, hlife] at this
  exact this

/-- The binary32 ages of the two sample runs: 2.5 + (0.5 - 2^-25) rounds up to 3, and
2 + d + d + (1 - 3 * 2^-24) with d = 2^-23 - 2^-47 stays at 3 - 2^-22 because both additions
of d are absorbed. -/
theorem round32_age_samples :
    accumulate round32 0 [5 / 2, 16777215 / 33554432] = 3 ∧
    accumulate round32 0
      [2, 16777215 / 140737488355328, 16777215 / 140737488355328, 16777213 / 16777216] =
      12582911 / 4194304 := by
  have a1 : round32 (0 + 5 / 2) = 5 / 2 := by
    rw [round32_eq_of_normal _ 1 10485760] <;> norm_num
  have a2 : round32 (5 / 2 + 16777215 / 33554432) = 3 := by
    rw [round32_eq_of_normal _ 1 12582912] <;> norm_num
  have b1 : round32 (0 + 2) = 2 := by
    rw [round32_eq_of_normal _ 1 8388608] <;> norm_num
  have b2 : round32 (2 + 16777215 / 140737488355328) = 2 := by
    rw [round32_eq_of_normal _ 1 8388608] <;> norm_num
  have b3 : round32 (2 + 16777213 / 16777216) = 12582911 / 4194304 := by
    rw [round32_eq_of_normal _ 1 12582911] <;> norm_num
  constructor
  · simp only [accumulate, List.foldl_cons, List.foldl_nil]
    rw [a1, a2]
  · simp only [accumulate, List.foldl_cons, List.foldl_nil]
    rw [b1, b2, b2, b3]

/-! ### Projectile expiry claim -/

/-- C6 (as stated, refuted): in binary32 a fresh projectile updated with dt = 2.5 and then
dt = 0.5 - 2^-25 is inactive although the two values sum to less than 3, and a fresh
projectile updated with dt = 2, twice dt = 2^-23 - 2^-47 and then dt = 1 - 3 * 2^-24 is
still active although the four values sum to more than 3.  All the dt values are
non-negative floats. -/
theorem Projectile.expiry_refuted_by_rounding :
    ((Projectile.newFl round32 Rat.sqrt (0 : ℚ) 0 1 0).updatesFl round32
      [5 / 2, 16777215 / 33554432]).isActive = false ∧
    ([5 / 2, 16777215 / 33554432] : List ℚ).sum < 3 ∧
    (∀ dt ∈ ([5 / 2, 16777215 / 33554432] : List ℚ), 0 ≤ dt ∧ round32 dt = dt) ∧
    ((Projectile.newFl round32 Rat.sqrt (0 : ℚ) 0 1 0).updatesFl round32
      [2, 16777215 / 140737488355328, 16777215 / 140737488355328,
        16777213 / 16777216]).isActive = true ∧
    3 ≤ ([2, 16777215 / 140737488355328, 16777215 / 140737488355328,
        16777213 / 16777216] : List ℚ).sum ∧
    (∀ dt ∈ ([2, 16777215 / 140737488355328, 16777215 / 140737488355328,
        16777213 / 16777216] : List ℚ), 0 ≤ dt ∧ round32 dt = dt) := by
  obtain ⟨ea, eb⟩ := round32_age_samples
  have r1 : round32 (5 / 2) = 5 / 2 := by
    rw [round32_eq_of_normal _ 1 10485760] <;> norm_num
  have r2 : round32 (16777215 / 33554432) = 16777215 / 33554432 := by
    rw [round32_eq_of_normal _ (-2) 16777215] <;> norm_num
  have r3 : round32 2 = 2 := by
    rw [round32_eq_of_normal _ 1 8388608] <;> norm_num
  have r4 : round32 (16777215 / 140737488355328) = 16777215 / 140737488355328 := by
    rw [round32_eq_of_normal _ (-24) 16777215] <;> norm_num
  have r5 : round32 (16777213 / 16777216) = 16777213 / 16777216 := by
    rw [round32_eq_of_normal _ (-1) 16777213] <;> norm_num
  refine ⟨?_, by norm_num, ?_, ?_, by norm_num, ?_⟩
  · rw [Projectile.newFl_expired_iff round32 Rat.sqrt round32_isRounding, ea]
    intro dt hdt
    simp only [List.mem_cons, List.mem_singleton, List.not_mem_nil, or_false] at hdt
    rcases hdt with rfl | rfl <;> norm_num
  · intro dt hdt
    simp only [List.mem_cons, List.mem_singleton, List.not_mem_nil, or_false] at hdt
    rcases hdt with rfl | rfl
    · exact ⟨by norm_num, r1⟩
    · exact ⟨by norm_num, r2⟩
  · have hiff := Projectile.newFl_expired_iff round32 Rat.sqrt round32_isRounding (0 : ℚ) 0 1 0
      [2, 16777215 / 140737488355328, 16777215 / 140737488355328, 16777213 / 16777216]
      (by intro dt hdt
          simp only [List.mem_cons, List.mem_singleton, List.not_mem_nil, or_false] at hdt
          rcases hdt with rfl | rfl | rfl | rfl <;> norm_num)
    rw [eb] at hiff
    have hnot : ¬ ((3 : ℚ) ≤ 12582911 / 4194304) := by norm_num
    have := hiff.not.mpr hnot
    simpa using this
  · intro dt hdt
    simp only [List.mem_cons, List.mem_singleton, List.not_mem_nil, or_false] at hdt
    rcases hdt with rfl | rfl | rfl | rfl
    · exact ⟨by norm_num, r3⟩
    · exact ⟨by norm_num, r4⟩
    · exact ⟨by norm_num, r4⟩
    · exact ⟨by norm_num, r5⟩

/-- C6 (amended): for a freshly constructed projectile and update steps dt_1, ..., dt_n that
are all >= 0, the age field after the n steps is the running sum of the steps with every
addition rounded, and the active flag is false exactly when that rounded age is >= 3 (the
lifetime); so when the rounded age of the whole run is below 3 the projectile is active
after every prefix of it, and an inactive projectile stays inactive under any further
steps.  When nothing is rounded the age is dt_1 + ... + dt_n. -/
theorem Projectile.expiry_rounded {K : Type} [LinearOrderedField K] (fl sqrtf : K → K)
    (x y dx dy : K) (dts : List K) (hfl : IsRounding fl) (hdt : ∀ dt ∈ dts, 0 ≤ dt) :
    (Projectile.newFl fl sqrtf x y dx dy).lifetime = 3 ∧
    ((Projectile.newFl fl sqrtf x y dx dy).updatesFl fl dts).age = accumulate fl 0 dts ∧
    (((Projectile.newFl fl sqrtf x y dx dy).updatesFl fl dts).isActive = false ↔
      3 ≤ accumulate fl 0 dts) ∧
    (accumulate fl 0 dts < 3 →
      ∀ n, ((Projectile.newFl fl sqrtf x y dx dy).updatesFl fl (dts.take n)).isActive = true) ∧
    (∀ (q : Projectile K) (more : List K),
      q.isActive = false → (q.updatesFl fl more).isActive = false) ∧
    ((∀ a, fl a = a) → accumulate fl 0 dts = dts.sum) := by
  refine ⟨rfl, ?_, Projectile.newFl_expired_iff fl sqrtf hfl x y dx dy dts hdt, ?_,
    fun q more h => Projectile.updatesFl_inactive fl more q h, ?_⟩
  · rw [Projectile.updatesFl_age]
    rfl
  · intro hlt n
    have htake : ∀ dt ∈ dts.take n, 0 ≤ dt := fun d hd => hdt d (List.mem_of_mem_take hd)
    have hle := accumulate_take_le fl hfl dts 0 hfl.2.2 hdt n
    have hnot : ¬ (3 : K) ≤ accumulate fl 0 (dts.take n) := by
      intro h3
      exact absurd (h3.trans hle) (not_le.mpr hlt)
    have := (Projectile.newFl_expired_iff fl sqrtf hfl x y dx dy (dts.take n) htake).not.mpr hnot
    simpa using this
  · intro hid
    rw [accumulate_exact fl hid, zero_add]

/-- C6 witness: the binary32 run with dt = 2.5 and dt = 0.5 - 2^-25. -/
theorem Projectile.expiry_rounded_witness :
    ((Projectile.newFl round32 Rat.sqrt (0 : ℚ) 0 1 0).updatesFl round32
      [5 / 2, 16777215 / 33554432]).isActive = false ↔
      3 ≤ accumulate round32 0 [5 / 2, 16777215 / 33554432] :=
  (Projectile.expiry_rounded round32 Rat.sqrt (0 : ℚ) 0 1 0 [5 / 2, 16777215 / 33554432]
    round32_isRounding
    (by intro dt hdt
        simp only [List.mem_cons, List.mem_singleton, List.not_mem_nil, or_false] at hdt
        rcases hdt with rfl | rfl <;> norm_num)).2.2.1

/-! ### Launch velocity claim -/

theorem Projectile.newFl_velocity_of_pos {K : Type} [LinearOrderedField K] (fl sqrtf : K → K)
    (x y dx dy : K) (h : 0 < sqrtf (fl (fl (dx * dx) + fl (dy * dy)))) :
    (Projectile.newFl fl sqrtf x y dx dy).velocity.x =
      fl (fl (dx / sqrtf (fl (fl (dx * dx) + fl (dy * dy)))) * 400) ∧
    (Projectile.newFl fl sqrtf x y dx dy).velocity.y =
      fl (fl (dy / sqrtf (fl (fl (dx * dx) + fl (dy * dy)))) * 400) := by
  simp [Projectile.newFl, h]

theorem Projectile.newFl_velocity_of_not_pos {K : Type} [LinearOrderedField K]
    (fl sqrtf : K → K) (x y dx dy : K) (h : ¬ 0 < sqrtf (fl (fl (dx * dx) + fl (dy * dy)))) :
    (Projectile.newFl fl sqrtf x y dx dy).velocity.x = 0 ∧
    (Projectile.newFl fl sqrtf x y dx dy).velocity.y = 0 := by
  simp [Projectile.newFl, h]

theorem Projectile.newFl_speed {K : Type} [LinearOrderedField K] (fl sqrtf : K → K)
    (x y dx dy : K) : (Projectile.newFl fl sqrtf x y dx dy).speed = 400 := rfl

/-- With nothing rounded, the rounded constructor is the exact one. -/
theorem Projectile.newFl_exact {K : Type} [LinearOrderedField K] (fl sqrtf : K → K)
    (hid : ∀ a, fl a = a) (x y dx dy : K) :
    Projectile.newFl fl sqrtf x y dx dy = Projectile.new sqrtf x y dx dy := by
  have hfl : fl = id := funext hid
  subst hfl
  rfl

/-- A rounded quotient times 400, rounded, has the sign of the numerator when the
denominator is positive. -/
theorem rounded_component_sign {K : Type} [LinearOrderedField K] (fl : K → K)
    (hfl : IsRounding fl) (c len : K) (hlen : 0 < len) :
    (0 ≤ c → 0 ≤ fl (fl (c / len) * 400)) ∧ (c ≤ 0 → fl (fl (c / len) * 400) ≤ 0) := by
  constructor
  · intro hc
    have h1 : 0 ≤ fl (c / len) := by
      have := hfl.1 0 (c / len) (div_nonneg hc hlen.le)
      rwa [hfl.2.2] at this
    have := hfl.1 0 (fl (c / len) * 400) (by positivity)
    rwa [hfl.2.2] at this
  · intro hc
    have h1 : fl (c / len) ≤ 0 := by
      have := hfl.1 (c / len) 0 (div_nonpos_of_nonpos_of_nonneg hc hlen.le)
      rwa [hfl.2.2] at this
    have := hfl.1 (fl (c / len) * 400) 0 (by nlinarith)
    rwa [hfl.2.2] at this

/-- When one of the rounded squares is positive and the root of a positive number is
positive, the computed length is positive. -/
theorem rounded_length_pos {K : Type} [LinearOrderedField K] (fl sqrtf : K → K)
    (hfl : IsRounding fl) (hsqrt : ∀ a, 0 < a → 0 < sqrtf a) (dx dy : K)
    (h : 0 < fl (dx * dx) ∨ 0 < fl (dy * dy)) :
    0 < sqrtf (fl (fl (dx * dx) + fl (dy * dy))) := by
  have hx : 0 ≤ fl (dx * dx) := by
    have := hfl.1 0 (dx * dx) (mul_self_nonneg dx)
    rwa [hfl.2.2] at this
  have hy : 0 ≤ fl (dy * dy) := by
    have := hfl.1 0 (dy * dy) (mul_self_nonneg dy)
    rwa [hfl.2.2] at this
  apply hsqrt
  rcases h with h | h
  · have := hfl.1 (fl (dx * dx)) (fl (dx * dx) + fl (dy * dy)) (by linarith)
    rw [hfl.2.1] at this
    exact lt_of_lt_of_le h this
  · have := hfl.1 (fl (dy * dy)) (fl (dx * dx) + fl (dy * dy)) (by linarith)
    rw [hfl.2.1] at this
    exact lt_of_lt_of_le h this

/-- The binary32 square of 2^-80 is 0: the product 2^-160 is below half of the smallest
positive float 2^-149. -/
theorem round32_underflow_sample :
    round32 (1 / 1208925819614629174706176 * (1 / 1208925819614629174706176)) = 0 ∧
    round32 (1 / 1208925819614629174706176) = 1 / 1208925819614629174706176 ∧
    (1208925819614629174706176 : ℚ) = 2 ^ 80 := by
  refine ⟨?_, ?_, by norm_num⟩
  · rw [round32_eq_of_tiny _ 0] <;> norm_num
  · rw [round32_eq_of_normal _ (-80) 8388608] <;> norm_num

/-- C8 (as stated, refuted): in binary32 the heading (2^-80, 0) is not (0, 0), and both of
its components are floats, yet the constructor sets the velocity (0, 0): the square of
2^-80 underflows to 0, so the computed length is 0 and the else branch is taken. -/
theorem Projectile.velocity_refuted_by_underflow :
    (1208925819614629174706176 : ℚ) = 2 ^ 80 ∧
    (1 / 1208925819614629174706176 : ℚ) ≠ 0 ∧
    round32 (1 / 1208925819614629174706176) = 1 / 1208925819614629174706176 ∧
    (Projectile.newFl round32 Rat.sqrt (0 : ℚ) 0 (1 / 1208925819614629174706176) 0).velocity.x
      = 0 ∧
    (Projectile.newFl round32 Rat.sqrt (0 : ℚ) 0 (1 / 1208925819614629174706176) 0).velocity.y
      = 0 ∧
    (Projectile.newFl round32 Rat.sqrt (0 : ℚ) 0 (1 / 1208925819614629174706176) 0).speed
      = 400 := by
  obtain ⟨esq, erep, epow⟩ := round32_underflow_sample
  have hlen : Rat.sqrt (round32 (round32 (1 / 1208925819614629174706176 *
      (1 / 1208925819614629174706176)) + round32 (0 * 0))) = 0 := by
    rw [esq, mul_zero, round32_zero, add_zero, round32_zero]
    have h0 := Rat.sqrt_eq 0
    rw [mul_zero, abs_zero] at h0
    exact h0
  have hnot : ¬ 0 < Rat.sqrt (round32 (round32 (1 / 1208925819614629174706176 *
      (1 / 1208925819614629174706176)) + round32 (0 * 0))) := by
    rw [hlen]
    exact lt_irrefl 0
  obtain ⟨hx, hy⟩ := Projectile.newFl_velocity_of_not_pos round32 Rat.sqrt (0 : ℚ) 0
    (1 / 1208925819614629174706176) 0 hnot
  exact ⟨epow, by norm_num, erep, hx, hy, Projectile.newFl_speed round32 Rat.sqrt _ _ _ _⟩

/-- C8 (amended): for every heading (dx, dy) the constructor computes the length
L = sqrt(dx * dx + dy * dy) in float arithmetic and sets the speed 400.  When L > 0 the
velocity is (dx / L * 400, dy / L * 400) in float arithmetic, and no component points
against the heading; otherwise, as for the heading (0, 0) and for headings whose squares
underflow, the velocity is (0, 0).  L > 0 holds whenever one of the float squares dx * dx,
dy * dy is positive and std::sqrt is positive on positive numbers.  When nothing is rounded
and std::sqrt returns the exact non-negative root, every heading other than (0, 0) has
L > 0, a velocity that is the heading times the positive factor 400 / L, and squared
magnitude exactly 400^2. -/
theorem Projectile.new_velocity_rounded {K : Type} [LinearOrderedField K] (fl sqrtf : K → K)
    (x y dx dy : K) :
    (Projectile.newFl fl sqrtf x y dx dy).speed = 400 ∧
    (0 < sqrtf (fl (fl (dx * dx) + fl (dy * dy))) →
      (Projectile.newFl fl sqrtf x y dx dy).velocity.x =
        fl (fl (dx / sqrtf (fl (fl (dx * dx) + fl (dy * dy)))) * 400) ∧
      (Projectile.newFl fl sqrtf x y dx dy).velocity.y =
        fl (fl (dy / sqrtf (fl (fl (dx * dx) + fl (dy * dy)))) * 400)) ∧
    (¬ 0 < sqrtf (fl (fl (dx * dx) + fl (dy * dy))) →
      (Projectile.newFl fl sqrtf x y dx dy).velocity.x = 0 ∧
      (Projectile.newFl fl sqrtf x y dx dy).velocity.y = 0) ∧
    (IsRounding fl →
      (0 ≤ dx → 0 ≤ (Projectile.newFl fl sqrtf x y dx dy).velocity.x) ∧
      (dx ≤ 0 → (Projectile.newFl fl sqrtf x y dx dy).velocity.x ≤ 0) ∧
      (0 ≤ dy → 0 ≤ (Projectile.newFl fl sqrtf x y dx dy).velocity.y) ∧
      (dy ≤ 0 → (Projectile.newFl fl sqrtf x y dx dy).velocity.y ≤ 0)) ∧
    (IsRounding fl → (∀ a, 0 < a → 0 < sqrtf a) → (0 < fl (dx * dx) ∨ 0 < fl (dy * dy)) →
      0 < sqrtf (fl (fl (dx * dx) + fl (dy * dy)))) ∧
    ((∀ a, fl a = a) → (dx ≠ 0 ∨ dy ≠ 0) → 0 ≤ sqrtf (dx * dx + dy * dy) →
      sqrtf (dx * dx + dy * dy) * sqrtf (dx * dx + dy * dy) = dx * dx + dy * dy →
      0 < sqrtf (dx * dx + dy * dy) ∧
      (Projectile.newFl fl sqrtf x y dx dy).velocity.x =
        400 / sqrtf (dx * dx + dy * dy) * dx ∧
      (Projectile.newFl fl sqrtf x y dx dy).velocity.y =
        400 / sqrtf (dx * dx + dy * dy) * dy ∧
      (Projectile.newFl fl sqrtf x y dx dy).velocity.x *
          (Projectile.newFl fl sqrtf x y dx dy).velocity.x +
        (Projectile.newFl fl sqrtf x y dx dy).velocity.y *
          (Projectile.newFl fl sqrtf x y dx dy).velocity.y = 400 * 400) := by
  refine ⟨rfl, Projectile.newFl_velocity_of_pos fl sqrtf x y dx dy,
    Projectile.newFl_velocity_of_not_pos fl sqrtf x y dx dy, ?_,
    fun hfl hsqrt h => rounded_length_pos fl sqrtf hfl hsqrt dx dy h, ?_⟩
  · intro hfl
    by_cases hpos : 0 < sqrtf (fl (fl (dx * dx) + fl (dy * dy)))
    · obtain ⟨hx, hy⟩ := Projectile.newFl_velocity_of_pos fl sqrtf x y dx dy hpos
      rw [hx, hy]
      exact ⟨(rounded_component_sign fl hfl dx _ hpos).1,
        (rounded_component_sign fl hfl dx _ hpos).2,
        (rounded_component_sign fl hfl dy _ hpos).1,
        (rounded_component_sign fl hfl dy _ hpos).2⟩
    · obtain ⟨hx, hy⟩ := Projectile.newFl_velocity_of_not_pos fl sqrtf x y dx dy hpos
      rw [hx, hy]
      exact ⟨fun _ => le_refl 0, fun _ => le_refl 0, fun _ => le_refl 0, fun _ => le_refl 0⟩
  · intro hid hne hnonneg hroot
    rw [Projectile.newFl_exact fl sqrtf hid]
    obtain ⟨hL, _, _, _, hx, hy, _, hmag⟩ :=
      Projectile.new_velocity_exact sqrtf x y dx dy hne hnonneg hroot
    refine ⟨hL, hx, hy, ?_⟩
    rw [← pow_two, ← pow_two, hmag]
    norm_num

/-! ### Rounded obstacle lemmas -/

theorem DestructibleObject.takeDamageFl_health {K : Type} [LinearOrderedField K] [FloorRing K]
    (fl : K → K) (o : DestructibleObject K) (d : K) :
    (o.takeDamageFl fl d).health = max 0 (fl (o.health - d)) := by
  unfold DestructibleObject.takeDamageFl
  by_cases h : fl (o.health - d) ≤ 0
  · simp [h]
  · simp [h, le_of_lt (lt_of_not_le h)]

theorem DestructibleObject.takeDamageFl_maxHealth {K : Type} [LinearOrderedField K]
    [FloorRing K] (fl : K → K) (o : DestructibleObject K) (d : K) :
    (o.takeDamageFl fl d).maxHealth = o.maxHealth := by
  unfold DestructibleObject.takeDamageFl
  by_cases h : fl (o.health - d) ≤ 0 <;> simp [h]

theorem DestructibleObject.takeDamageFl_isActive {K : Type} [LinearOrderedField K]
    [FloorRing K] (fl : K → K) (o : DestructibleObject K) (d : K) :
    (o.takeDamageFl fl d).isActive = (if fl (o.health - d) ≤ 0 then false else o.isActive) := by
  unfold DestructibleObject.takeDamageFl
  by_cases h : fl (o.health - d) ≤ 0 <;> simp [h]

theorem DestructibleObject.takeDamageFl_color_eq {K : Type} [LinearOrderedField K]
    [FloorRing K] (fl : K → K) (o : DestructibleObject K) (d : K) :
    (o.takeDamageFl fl d).color =
      ⟨toUint8 (fl (139 * fl ((o.takeDamageFl fl d).health / (o.takeDamageFl fl d).maxHealth))),
        toUint8 (fl (69 * fl ((o.takeDamageFl fl d).health / (o.takeDamageFl fl d).maxHealth))),
        toUint8
          (fl (19 * fl ((o.takeDamageFl fl d).health / (o.takeDamageFl fl d).maxHealth)))⟩ := by
  unfold DestructibleObject.takeDamageFl
  by_cases h : fl (o.health - d) ≤ 0 <;> simp [h]

theorem DestructibleObject.hitsFl_cons {K : Type} [LinearOrderedField K] [FloorRing K]
    (fl : K → K) (o : DestructibleObject K) (d : K) (rest : List K) :
    o.hitsFl fl (d :: rest) = (o.takeDamageFl fl d).hitsFl fl rest := rfl

theorem DestructibleObject.hitsFl_maxHealth {K : Type} [LinearOrderedField K] [FloorRing K]
    (fl : K → K) (ds : List K) (o : DestructibleObject K) :
    (o.hitsFl fl ds).maxHealth = o.maxHealth := by
  induction ds generalizing o with
  | nil => rfl
  | cons d rest ih =>
    rw [DestructibleObject.hitsFl_cons, ih, DestructibleObject.takeDamageFl_maxHealth]

/-- With nothing rounded, the rounded run of hits is the exact one. -/
theorem DestructibleObject.hitsFl_exact {K : Type} [LinearOrderedField K] [FloorRing K]
    (fl : K → K) (hid : ∀ a, fl a = a) (ds : List K) (o : DestructibleObject K) :
    o.hitsFl fl ds = o.hits ds := by
  have hfl : fl = id := funext hid
  subst hfl
  rfl

/-- What every run of non-negative hits keeps true of an obstacle: the health is between 0
and the health at construction, is a value that the rounding leaves alone, and is 0 exactly
when the obstacle is inactive. -/
theorem DestructibleObject.hitsFl_invariant {K : Type} [LinearOrderedField K] [FloorRing K]
    (fl : K → K) (hfl : IsRounding fl) (ds : List K) (o : DestructibleObject K) (bound : K)
    (hds : ∀ d ∈ ds, 0 ≤ d) (h0 : 0 ≤ o.health) (hb : o.health ≤ bound)
    (hfix : fl o.health = o.health) (hz : o.health = 0 ↔ o.isActive = false) :
    0 ≤ (o.hitsFl fl ds).health ∧ (o.hitsFl fl ds).health ≤ bound ∧
    fl (o.hitsFl fl ds).health = (o.hitsFl fl ds).health ∧
    ((o.hitsFl fl ds).health = 0 ↔ (o.hitsFl fl ds).isActive = false) := by
  induction ds generalizing o with
  | nil => exact ⟨h0, hb, hfix, hz⟩
  | cons d rest ih =>
    have hd : 0 ≤ d := hds d (List.mem_cons_self d rest)
    have hrest : ∀ e ∈ rest, 0 ≤ e := fun e he => hds e (List.mem_cons_of_mem d he)
    have hh := DestructibleObject.takeDamageFl_health fl o d
    have ha := DestructibleObject.takeDamageFl_isActive fl o d
    have hle : fl (o.health - d) ≤ o.health := by
      have := hfl.1 (o.health - d) o.health (by linarith)
      rwa [hfix] at this
    rw [DestructibleObject.hitsFl_cons]
    apply ih (o.takeDamageFl fl d) hrest
    · rw [hh]; exact le_max_left _ _
    · rw [hh]; exact max_le (h0.trans hb) (hle.trans hb)
    · rw [hh]
      rcases le_total (fl (o.health - d)) 0 with hneg | hpos
      · rw [max_eq_left hneg]; exact hfl.2.2
      · rw [max_eq_right hpos]; exact hfl.2.1 _
    · rw [hh, ha]
      by_cases hneg : fl (o.health - d) ≤ 0
      · rw [max_eq_left hneg, if_pos hneg]
        simp
      · rw [max_eq_right (le_of_lt (lt_of_not_le hneg)), if_neg hneg]
        have hpos : 0 < fl (o.health - d) := lt_of_not_le hneg
        have hne : o.health ≠ 0 := by
          intro h00
          exact absurd (hle.trans (le_of_eq h00)) (not_le.mpr hpos)
        constructor
        · intro h00
          exact absurd h00 hpos.ne'
        · intro hin
          exact absurd (hz.mpr hin) hne

/-- A destroyed obstacle stays at health 0 and inactive under further non-negative hits. -/
theorem DestructibleObject.hitsFl_stays_destroyed {K : Type} [LinearOrderedField K]
    [FloorRing K] (fl : K → K) (hfl : IsRounding fl) (more : List K)
    (o : DestructibleObject K) (hmore : ∀ d ∈ more, 0 ≤ d) (hz : o.health = 0)
    (hin : o.isActive = false) :
    (o.hitsFl fl more).health = 0 ∧ (o.hitsFl fl more).isActive = false := by
  induction more generalizing o with
  | nil => exact ⟨hz, hin⟩
  | cons d rest ih =>
    have hd : 0 ≤ d := hmore d (List.mem_cons_self d rest)
    have hneg : fl (o.health - d) ≤ 0 := by
      have := hfl.1 (o.health - d) 0 (by rw [hz]; linarith)
      rwa [hfl.2.2] at this
    rw [DestructibleObject.hitsFl_cons]
    apply ih (o.takeDamageFl fl d) (fun e he => hmore e (List.mem_cons_of_mem d he))
    · rw [DestructibleObject.takeDamageFl_health, max_eq_left hneg]
    · rw [DestructibleObject.takeDamageFl_isActive, if_pos hneg]

/-- The binary32 health values of the sample run on an obstacle of 100 health points: a hit
of 3 * 2^-20 is absorbed, and 100 - (100 - 2^-17) is 2^-17. -/
theorem round32_health_samples :
    round32 100 = 100 ∧
    round32 (3 / 1048576) = 3 / 1048576 ∧
    round32 (13107199 / 131072) = 13107199 / 131072 ∧
    round32 (100 - 3 / 1048576) = 100 ∧
    round32 (100 - 13107199 / 131072) = 1 / 131072 := by
  refine ⟨?_, ?_, ?_, ?_, ?_⟩
  · rw [round32_eq_of_normal _ 6 13107200] <;> norm_num
  · rw [round32_eq_of_normal _ (-19) 12582912] <;> norm_num
  · rw [round32_eq_of_normal _ 6 13107199] <;> norm_num
  · rw [round32_eq_of_normal _ 6 13107200] <;> norm_num
  · rw [round32_eq_of_normal _ (-17) 8388608] <;> norm_num

/-- One hit that leaves the rounded health positive: the health becomes the rounded
difference and the active flag is kept. -/
theorem DestructibleObject.takeDamageFl_survives {K : Type} [LinearOrderedField K]
    [FloorRing K] (fl : K → K) (o : DestructibleObject K) (d v : K)
    (hv : fl (o.health - d) = v) (hpos : 0 < v) :
    (o.takeDamageFl fl d).health = v ∧ (o.takeDamageFl fl d).isActive = o.isActive := by
  have hneg : ¬ fl (o.health - d) ≤ 0 := by rw [hv]; exact not_le.mpr hpos
  rw [DestructibleObject.takeDamageFl_health, DestructibleObject.takeDamageFl_isActive,
    if_neg hneg, hv, max_eq_right hpos.le]
  exact ⟨rfl, rfl⟩

/-- Four hits that each leave the rounded health positive. -/
theorem DestructibleObject.hitsFl_four_survived {K : Type} [LinearOrderedField K]
    [FloorRing K] (fl : K → K) (o : DestructibleObject K) (d1 d2 d3 d4 v1 v2 v3 v4 : K)
    (h1 : fl (o.health - d1) = v1) (p1 : 0 < v1) (h2 : fl (v1 - d2) = v2) (p2 : 0 < v2)
    (h3 : fl (v2 - d3) = v3) (p3 : 0 < v3) (h4 : fl (v3 - d4) = v4) (p4 : 0 < v4) :
    (o.hitsFl fl [d1, d2, d3, d4]).health = v4 ∧
    (o.hitsFl fl [d1, d2, d3, d4]).isActive = o.isActive := by
  obtain ⟨a1, b1⟩ := DestructibleObject.takeDamageFl_survives fl o d1 v1 h1 p1
  obtain ⟨a2, b2⟩ := DestructibleObject.takeDamageFl_survives fl (o.takeDamageFl fl d1) d2 v2
    (by rw [a1]; exact h2) p2
  obtain ⟨a3, b3⟩ := DestructibleObject.takeDamageFl_survives fl
    ((o.takeDamageFl fl d1).takeDamageFl fl d2) d3 v3 (by rw [a2]; exact h3) p3
  obtain ⟨a4, b4⟩ := DestructibleObject.takeDamageFl_survives fl
    (((o.takeDamageFl fl d1).takeDamageFl fl d2).takeDamageFl fl d3) d4 v4
    (by rw [a3]; exact h4) p4
  exact ⟨a4, by rw [← b1, ← b2, ← b3, ← b4]; rfl⟩

theorem DestructibleObject.new_fresh {K : Type} [LinearOrderedField K] (x y w h hp : K) :
    (DestructibleObject.new x y w h hp).health = hp ∧
    (DestructibleObject.new x y w h hp).maxHealth = hp ∧
    (DestructibleObject.new x y w h hp).isActive = true :=
  ⟨rfl, rfl, rfl⟩

/-! ### Obstacle health claim -/

/-- C9 (as stated, refuted): in binary32 an obstacle with maxHealth 100 takes three hits of
3 * 2^-20, each absorbed by the rounding of 100 - 3 * 2^-20 to 100, and then a hit of
100 - 2^-17.  The four amounts are non-negative floats that sum to more than 100, yet the
health is 2^-17 > 0 and the obstacle is still active. -/
theorem DestructibleObject.clamp_refuted_by_rounding :
    ((DestructibleObject.new (300 : ℚ) 300 40 40 100).hitsFl round32
      [3 / 1048576, 3 / 1048576, 3 / 1048576, 13107199 / 131072]).health = 1 / 131072 ∧
    ((DestructibleObject.new (300 : ℚ) 300 40 40 100).hitsFl round32
      [3 / 1048576, 3 / 1048576, 3 / 1048576, 13107199 / 131072]).isActive = true ∧
    (100 : ℚ) ≤ ([3 / 1048576, 3 / 1048576, 3 / 1048576, 13107199 / 131072] : List ℚ).sum ∧
    (∀ d ∈ ([3 / 1048576, 3 / 1048576, 3 / 1048576, 13107199 / 131072] : List ℚ),
      0 ≤ d ∧ round32 d = d) ∧
    round32 100 = 100 := by
  obtain ⟨e100, ea, eb, e1, e2⟩ := round32_health_samples
  obtain ⟨hh, _, hact⟩ := DestructibleObject.new_fresh (300 : ℚ) 300 40 40 100
  obtain ⟨r1, r2⟩ := DestructibleObject.hitsFl_four_survived round32
    (DestructibleObject.new (300 : ℚ) 300 40 40 100) (3 / 1048576) (3 / 1048576) (3 / 1048576)
    (13107199 / 131072) 100 100 100 (1 / 131072) (by rw [hh]; exact e1) (by norm_num) e1
    (by norm_num) e1 (by norm_num) e2 (by norm_num)
  refine ⟨r1, r2.trans hact, by norm_num, ?_, e100⟩
  intro d hd
  simp only [List.mem_cons, List.mem_singleton, List.not_mem_nil, or_false] at hd
  rcases hd with rfl | rfl | rfl | rfl
  · exact ⟨by norm_num, ea⟩
  · exact ⟨by norm_num, ea⟩
  · exact ⟨by norm_num, ea⟩
  · exact ⟨by norm_num, eb⟩

/-- C9 (amended): for an obstacle constructed with a float maxHealth hp > 0 and any sequence
of takeDamage calls with non-negative amounts, the health is never below 0 and never above
hp, the next call with a non-negative amount never raises it, the obstacle is inactive
exactly when its health is 0, a call with an amount that is at least the current health
leaves the health at exactly 0 and the active flag false, and a destroyed obstacle stays at
health 0 and inactive under further non-negative damage.  When nothing is rounded the
obstacle is destroyed as soon as the amounts sum to hp or more. -/
theorem DestructibleObject.health_rounded {K : Type} [LinearOrderedField K] [FloorRing K]
    (fl : K → K) (x y w h hp : K) (ds : List K) (hfl : IsRounding fl) (hhp : 0 < hp)
    (hrep : fl hp = hp) (hds : ∀ d ∈ ds, 0 ≤ d) :
    ((DestructibleObject.new x y w h hp).hitsFl fl ds).maxHealth = hp ∧
    0 ≤ ((DestructibleObject.new x y w h hp).hitsFl fl ds).health ∧
    ((DestructibleObject.new x y w h hp).hitsFl fl ds).health ≤ hp ∧
    (((DestructibleObject.new x y w h hp).hitsFl fl ds).health = 0 ↔
      ((DestructibleObject.new x y w h hp).hitsFl fl ds).isActive = false) ∧
    (∀ d, 0 ≤ d →
      (((DestructibleObject.new x y w h hp).hitsFl fl ds).takeDamageFl fl d).health ≤
        ((DestructibleObject.new x y w h hp).hitsFl fl ds).health ∧
      0 ≤ (((DestructibleObject.new x y w h hp).hitsFl fl ds).takeDamageFl fl d).health) ∧
    (∀ d, ((DestructibleObject.new x y w h hp).hitsFl fl ds).health ≤ d →
      (((DestructibleObject.new x y w h hp).hitsFl fl ds).takeDamageFl fl d).health = 0 ∧
      (((DestructibleObject.new x y w h hp).hitsFl fl ds).takeDamageFl fl d).isActive = false) ∧
    (((DestructibleObject.new x y w h hp).hitsFl fl ds).health = 0 →
      ∀ more : List K, (∀ d ∈ more, 0 ≤ d) →
        (((DestructibleObject.new x y w h hp).hitsFl fl ds).hitsFl fl more).health = 0 ∧
        (((DestructibleObject.new x y w h hp).hitsFl fl ds).hitsFl fl more).isActive = false) ∧
    ((∀ a, fl a = a) → hp ≤ ds.sum →
      ((DestructibleObject.new x y w h hp).hitsFl fl ds).health = 0 ∧
      ((DestructibleObject.new x y w h hp).hitsFl fl ds).isActive = false) := by
  obtain ⟨hnh, hnm, hna⟩ := DestructibleObject.new_fresh x y w h hp
  obtain ⟨i0, ib, ifix, iz⟩ := DestructibleObject.hitsFl_invariant fl hfl ds
    (DestructibleObject.new x y w h hp) hp hds (by rw [hnh]; exact hhp.le) (by rw [hnh])
    (by rw [hnh]; exact hrep)
    (by rw [hnh, hna]
        constructor
        · intro h00; exact absurd h00 hhp.ne'
        · intro hf; exact absurd hf (by simp))
  refine ⟨?_, i0, ib, iz, ?_, ?_, ?_, ?_⟩
  · rw [DestructibleObject.hitsFl_maxHealth, hnm]
  · intro d hd
    rw [DestructibleObject.takeDamageFl_health]
    have hle : fl (((DestructibleObject.new x y w h hp).hitsFl fl ds).health - d) ≤
        ((DestructibleObject.new x y w h hp).hitsFl fl ds).health := by
      have := hfl.1 (((DestructibleObject.new x y w h hp).hitsFl fl ds).health - d)
        ((DestructibleObject.new x y w h hp).hitsFl fl ds).health (by linarith)
      rwa [ifix] at this
    exact ⟨max_le i0 hle, le_max_left _ _⟩
  · intro d hd
    have hneg : fl (((DestructibleObject.new x y w h hp).hitsFl fl ds).health - d) ≤ 0 := by
      have := hfl.1 (((DestructibleObject.new x y w h hp).hitsFl fl ds).health - d) 0
        (by linarith)
      rwa [hfl.2.2] at this
    rw [DestructibleObject.takeDamageFl_health, DestructibleObject.takeDamageFl_isActive,
      if_pos hneg, max_eq_left hneg]
    exact ⟨rfl, rfl⟩
  · intro hz more hmore
    exact DestructibleObject.hitsFl_stays_destroyed fl hfl more _ hmore hz (iz.mp hz)
  · intro hid hsum
    have hz : ((DestructibleObject.new x y w h hp).hitsFl fl ds).health = 0 := by
      rw [DestructibleObject.hitsFl_exact fl hid,
        DestructibleObject.hits_health ds _ hds (by rw [hnh]; exact hhp.le), hnh]
      exact max_eq_left (by linarith)
    exact ⟨hz, iz.mp hz⟩

/-- C9 witness: the binary32 run of three absorbed hits of 3 * 2^-20 and a hit of
100 - 2^-17 on an obstacle of 100 health points. -/
theorem DestructibleObject.health_rounded_witness :
    ((DestructibleObject.new (300 : ℚ) 300 40 40 100).hitsFl round32
      [3 / 1048576, 3 / 1048576, 3 / 1048576, 13107199 / 131072]).health = 0 ↔
    ((DestructibleObject.new (300 : ℚ) 300 40 40 100).hitsFl round32
      [3 / 1048576, 3 / 1048576, 3 / 1048576, 13107199 / 131072]).isActive = false :=
  (DestructibleObject.health_rounded round32 (300 : ℚ) 300 40 40 100
    [3 / 1048576, 3 / 1048576, 3 / 1048576, 13107199 / 131072] round32_isRounding
    (by norm_num) round32_health_samples.1
    (by intro d hd
        simp only [List.mem_cons, List.mem_singleton, List.not_mem_nil, or_false] at hd
        rcases hd with rfl | rfl | rfl | rfl <;> norm_num)).2.2.2.1

/-! ### Obstacle colour claim -/

/-- The binary32 values of the two colour samples: 100 hit twice for 25, and 23 hit for 18,
where 5 / 23 rounds to 14588883 / 67108864 and 69 times that rounds to a value below 15. -/
theorem round32_colour_samples :
    round32 1 = 1 ∧ round32 255 = 255 ∧
    round32 (100 - 25) = 75 ∧ round32 (75 - 25) = 50 ∧ round32 (50 / 100) = 1 / 2 ∧
    round32 (139 * (1 / 2)) = 139 / 2 ∧ round32 (69 * (1 / 2)) = 69 / 2 ∧
    round32 (19 * (1 / 2)) = 19 / 2 ∧
    round32 (23 - 18) = 5 ∧ round32 (5 / 23) = 14588883 / 67108864 ∧
    round32 (69 * (14588883 / 67108864)) = 15728639 / 1048576 := by
  refine ⟨?_, ?_, ?_, ?_, ?_, ?_, ?_, ?_, ?_, ?_, ?_⟩
  · rw [round32_eq_of_normal _ 0 8388608] <;> norm_num
  · rw [round32_eq_of_normal _ 7 16711680] <;> norm_num
  · rw [round32_eq_of_normal _ 6 9830400] <;> norm_num
  · rw [round32_eq_of_normal _ 5 13107200] <;> norm_num
  · rw [round32_eq_of_normal _ (-1) 8388608] <;> norm_num
  · rw [round32_eq_of_normal _ 6 9109504] <;> norm_num
  · rw [round32_eq_of_normal _ 5 9043968] <;> norm_num
  · rw [round32_eq_of_normal _ 3 9961472] <;> norm_num
  · rw [round32_eq_of_normal _ 2 10485760] <;> norm_num
  · rw [round32_eq_of_normal _ (-3) 14588883] <;> norm_num
  · rw [round32_eq_of_normal _ 3 15728639] <;> norm_num

/-- The binary32 run of two hits of 25 on an obstacle of 100 health points. -/
theorem DestructibleObject.two_hits_of_25 (x y w h : ℚ) :
    ((DestructibleObject.new x y w h 100).takeDamageFl round32 25).health = 75 ∧
    ((DestructibleObject.new x y w h 100).takeDamageFl round32 25).maxHealth = 100 ∧
    (((DestructibleObject.new x y w h 100).takeDamageFl round32 25).takeDamageFl round32
      25).health = 50 ∧
    (((DestructibleObject.new x y w h 100).takeDamageFl round32 25).takeDamageFl round32
      25).maxHealth = 100 ∧
    (((DestructibleObject.new x y w h 100).takeDamageFl round32 25).takeDamageFl round32
      25).isActive = true ∧
    (((DestructibleObject.new x y w h 100).takeDamageFl round32 25).takeDamageFl round32
      25).color = ⟨69, 34, 9⟩ := by
  obtain ⟨_, _, e75, e50, ehalf, er, eg, eb, _, _, _⟩ := round32_colour_samples
  obtain ⟨hh, hm, hact⟩ := DestructibleObject.new_fresh x y w h 100
  obtain ⟨a1, b1⟩ := DestructibleObject.takeDamageFl_survives round32
    (DestructibleObject.new x y w h 100) 25 75 (by rw [hh]; exact e75) (by norm_num)
  obtain ⟨a2, b2⟩ := DestructibleObject.takeDamageFl_survives round32
    ((DestructibleObject.new x y w h 100).takeDamageFl round32 25) 25 50
    (by rw [a1]; exact e50) (by norm_num)
  have m1 : ((DestructibleObject.new x y w h 100).takeDamageFl round32 25).maxHealth = 100 := by
    rw [DestructibleObject.takeDamageFl_maxHealth, hm]
  have m2 : (((DestructibleObject.new x y w h 100).takeDamageFl round32 25).takeDamageFl round32
      25).maxHealth = 100 := by
    rw [DestructibleObject.takeDamageFl_maxHealth, m1]
  refine ⟨a1, m1, a2, m2, by rw [b2, b1, hact], ?_⟩
  rw [DestructibleObject.takeDamageFl_color_eq, a2, m2, ehalf, er, eg, eb]
  rw [toUint8_eq (139 / 2 : ℚ) 69 (by norm_num) (by norm_num) (by norm_num),
    toUint8_eq (69 / 2 : ℚ) 34 (by norm_num) (by norm_num) (by norm_num),
    toUint8_eq (19 / 2 : ℚ) 9 (by norm_num) (by norm_num) (by norm_num)]

/-- C10 (as stated, refuted): in binary32 an obstacle with maxHealth 100 hit twice for 25
has health 50 and is active, but its colour is (69, 34, 9): no channel equals its base value
times health / maxHealth (69.5, 34.5 and 9.5).  Nor is the channel always the integer part
of that exact product: an obstacle with maxHealth 23 hit for 18 has health 5 and green
channel 14, while 69 * (5 / 23) = 15, because 5 / 23 is rounded down when it is stored in
the float `ratio`. -/
theorem DestructibleObject.colour_refuted_by_truncation :
    (((DestructibleObject.new (300 : ℚ) 300 40 40 100).takeDamageFl round32 25).takeDamageFl
      round32 25).health = 50 ∧
    (((DestructibleObject.new (300 : ℚ) 300 40 40 100).takeDamageFl round32 25).takeDamageFl
      round32 25).maxHealth = 100 ∧
    (((DestructibleObject.new (300 : ℚ) 300 40 40 100).takeDamageFl round32 25).takeDamageFl
      round32 25).isActive = true ∧
    (((DestructibleObject.new (300 : ℚ) 300 40 40 100).takeDamageFl round32 25).takeDamageFl
      round32 25).color = ⟨69, 34, 9⟩ ∧
    ((((DestructibleObject.new (300 : ℚ) 300 40 40 100).takeDamageFl round32 25).takeDamageFl
      round32 25).color.r : ℚ) ≠
      139 * ((((DestructibleObject.new (300 : ℚ) 300 40 40 100).takeDamageFl round32
        25).takeDamageFl round32 25).health /
        (((DestructibleObject.new (300 : ℚ) 300 40 40 100).takeDamageFl round32
          25).takeDamageFl round32 25).maxHealth) ∧
    ((((DestructibleObject.new (300 : ℚ) 300 40 40 100).takeDamageFl round32 25).takeDamageFl
      round32 25).color.g : ℚ) ≠
      69 * ((((DestructibleObject.new (300 : ℚ) 300 40 40 100).takeDamageFl round32
        25).takeDamageFl round32 25).health /
        (((DestructibleObject.new (300 : ℚ) 300 40 40 100).takeDamageFl round32
          25).takeDamageFl round32 25).maxHealth) ∧
    ((((DestructibleObject.new (300 : ℚ) 300 40 40 100).takeDamageFl round32 25).takeDamageFl
      round32 25).color.b : ℚ) ≠
      19 * ((((DestructibleObject.new (300 : ℚ) 300 40 40 100).takeDamageFl round32
        25).takeDamageFl round32 25).health /
        (((DestructibleObject.new (300 : ℚ) 300 40 40 100).takeDamageFl round32
          25).takeDamageFl round32 25).maxHealth) ∧
    ((DestructibleObject.new (300 : ℚ) 300 40 40 23).takeDamageFl round32 18).health = 5 ∧
    ((DestructibleObject.new (300 : ℚ) 300 40 40 23).takeDamageFl round32 18).maxHealth = 23 ∧
    ((DestructibleObject.new (300 : ℚ) 300 40 40 23).takeDamageFl round32 18).color.g = 14 ∧
    ⌊(69 : ℚ) * (5 / 23)⌋ = 15 := by
  obtain ⟨_, _, _, _, _, _, _, _, e5, eratio, egreen⟩ := round32_colour_samples
  obtain ⟨_, _, a2, m2, act2, c2⟩ := DestructibleObject.two_hits_of_25 (300 : ℚ) 300 40 40
  obtain ⟨hh, hm, _⟩ := DestructibleObject.new_fresh (300 : ℚ) 300 40 40 23
  obtain ⟨a1, _⟩ := DestructibleObject.takeDamageFl_survives round32
    (DestructibleObject.new (300 : ℚ) 300 40 40 23) 18 5 (by rw [hh]; exact e5) (by norm_num)
  have m1 : ((DestructibleObject.new (300 : ℚ) 300 40 40 23).takeDamageFl round32
      18).maxHealth = 23 := by
    rw [DestructibleObject.takeDamageFl_maxHealth, hm]
  refine ⟨a2, m2, act2, c2, by rw [c2, a2, m2]; norm_num, by rw [c2, a2, m2]; norm_num,
    by rw [c2, a2, m2]; norm_num, a1, m1, ?_, ?_⟩
  · rw [DestructibleObject.takeDamageFl_color_eq, a1, m1, eratio, egreen]
    exact toUint8_eq (15728639 / 1048576 : ℚ) 14 (by norm_num) (by norm_num) (by norm_num)
  · rw [Int.floor_eq_iff]
    constructor <;> norm_num

/-- C10 (amended): after a takeDamage call on an obstacle with maxHealth > 0 that leaves the
health at no more than maxHealth, each colour channel is the integer part of the float
product of the base channel (139, 69, 19) and the float quotient health / maxHealth, for
any monotone rounding that leaves 0, 1 and 255 alone; in binary32 an obstacle with
maxHealth 100 hit twice for 25 has health 50, is active and has the colour (69, 34, 9). -/
theorem DestructibleObject.takeDamage_colour_truncated {K : Type} [LinearOrderedField K]
    [FloorRing K] (fl : K → K) (o : DestructibleObject K) (d : K) (hfl : IsRounding fl)
    (hone : fl 1 = 1) (hmaxc : fl 255 = 255) (hm : 0 < o.maxHealth)
    (hle : fl (o.health - d) ≤ o.maxHealth) :
    ((o.takeDamageFl fl d).color.r : ℤ) =
      ⌊fl (139 * fl ((o.takeDamageFl fl d).health / o.maxHealth))⌋ ∧
    ((o.takeDamageFl fl d).color.g : ℤ) =
      ⌊fl (69 * fl ((o.takeDamageFl fl d).health / o.maxHealth))⌋ ∧
    ((o.takeDamageFl fl d).color.b : ℤ) =
      ⌊fl (19 * fl ((o.takeDamageFl fl d).health / o.maxHealth))⌋ ∧
    (∀ x y w h : ℚ,
      (((DestructibleObject.new x y w h 100).takeDamageFl round32 25).takeDamageFl round32
        25).health = 50 ∧
      (((DestructibleObject.new x y w h 100).takeDamageFl round32 25).takeDamageFl round32
        25).isActive = true ∧
      (((DestructibleObject.new x y w h 100).takeDamageFl round32 25).takeDamageFl round32
        25).color = ⟨69, 34, 9⟩) := by
  have hh := DestructibleObject.takeDamageFl_health fl o d
  have hmax := DestructibleObject.takeDamageFl_maxHealth fl o d
  have h0 : 0 ≤ (o.takeDamageFl fl d).health := by rw [hh]; exact le_max_left _ _
  have h1 : (o.takeDamageFl fl d).health ≤ o.maxHealth := by
    rw [hh]; exact max_le (le_of_lt hm) hle
  have hq0 : 0 ≤ (o.takeDamageFl fl d).health / o.maxHealth := div_nonneg h0 (le_of_lt hm)
  have hq1 : (o.takeDamageFl fl d).health / o.maxHealth ≤ 1 := (div_le_one hm).mpr h1
  have hr0 : 0 ≤ fl ((o.takeDamageFl fl d).health / o.maxHealth) := by
    have := hfl.1 _ _ hq0
    rwa [hfl.2.2] at this
  have hr1 : fl ((o.takeDamageFl fl d).health / o.maxHealth) ≤ 1 := by
    have := hfl.1 _ _ hq1
    rwa [hone] at this
  have key : ∀ c : K, 0 ≤ c → c ≤ 255 →
      0 ≤ fl (c * fl ((o.takeDamageFl fl d).health / o.maxHealth)) ∧
      fl (c * fl ((o.takeDamageFl fl d).health / o.maxHealth)) < 256 := by
    intro c hc0 hc1
    constructor
    · have := hfl.1 0 (c * fl ((o.takeDamageFl fl d).health / o.maxHealth))
        (mul_nonneg hc0 hr0)
      rwa [hfl.2.2] at this
    · have hle2 : c * fl ((o.takeDamageFl fl d).health / o.maxHealth) ≤ 255 := by
        have : c * fl ((o.takeDamageFl fl d).health / o.maxHealth) ≤ c * 1 :=
          mul_le_mul_of_nonneg_left hr1 hc0
        linarith
      have := hfl.1 _ _ hle2
      rw [hmaxc] at this
      linarith
  have hc := DestructibleObject.takeDamageFl_color_eq fl o d
  rw [hmax] at hc
  refine ⟨?_, ?_, ?_, ?_⟩
  · rw [hc]
    exact toUint8_floor _ (key 139 (by norm_num) (by norm_num)).1
      (key 139 (by norm_num) (by norm_num)).2
  · rw [hc]
    exact toUint8_floor _ (key 69 (by norm_num) (by norm_num)).1
      (key 69 (by norm_num) (by norm_num)).2
  · rw [hc]
    exact toUint8_floor _ (key 19 (by norm_num) (by norm_num)).1
      (key 19 (by norm_num) (by norm_num)).2
  · intro x y w h
    obtain ⟨_, _, a2, _, act2, c2⟩ := DestructibleObject.two_hits_of_25 x y w h
    exact ⟨a2, act2, c2⟩

/-- C10 witness: the second hit of 25 on an obstacle of 100 health points, in binary32. -/
theorem DestructibleObject.takeDamage_colour_truncated_witness :
    (((((DestructibleObject.new (300 : ℚ) 300 40 40 100).takeDamageFl round32 25).takeDamageFl
      round32 25).color.r : ℕ) : ℤ) =
      ⌊round32 (139 * round32
        ((((DestructibleObject.new (300 : ℚ) 300 40 40 100).takeDamageFl round32
          25).takeDamageFl round32 25).health /
          ((DestructibleObject.new (300 : ℚ) 300 40 40 100).takeDamageFl round32
            25).maxHealth))⌋ :=
  (DestructibleObject.takeDamage_colour_truncated round32
    ((DestructibleObject.new (300 : ℚ) 300 40 40 100).takeDamageFl round32 25) 25
    round32_isRounding round32_colour_samples.1 round32_colour_samples.2.1
    (by rw [(DestructibleObject.two_hits_of_25 (300 : ℚ) 300 40 40).2.1]; norm_num)
    (by rw [(DestructibleObject.two_hits_of_25 (300 : ℚ) 300 40 40).1,
          (DestructibleObject.two_hits_of_25 (300 : ℚ) 300 40 40).2.1,
          round32_colour_samples.2.2.2.1]
        norm_num)).1

/-! ### Enemy claims -/

/-- An active target whose distance, as returned by std::sqrt, is not below the detection
range makes Enemy::update stop the pursuer: zero velocity and an unchanged position. -/
theorem Enemy.update_out_of_range {K : Type} [LinearOrderedField K] (sqrtf : K → K)
    (e : Enemy K) (player : Player K) (dt : K) (ha : player.isActive = true)
    (hfar : e.detectionRange ≤ sqrtf ((player.position.x - e.position.x) *
      (player.position.x - e.position.x) + (player.position.y - e.position.y) *
      (player.position.y - e.position.y))) :
    (Enemy.update sqrtf e (some player) dt).position = e.position ∧
    (Enemy.update sqrtf e (some player) dt).velocity = ⟨0, 0⟩ := by
  have hnot : ¬ (sqrtf ((player.position.x - e.position.x) *
      (player.position.x - e.position.x) + (player.position.y - e.position.y) *
      (player.position.y - e.position.y)) < e.detectionRange) := not_lt.mpr hfar
  simp [Enemy.update, ha, hnot, Entity.move, Entity.update]

/-- C11 (the code at the failing input): a pursuer at (0, 0) that still has the velocity
(100, 0) from an earlier chase, updated with dt = 1/10, ends at (10, 0) with its velocity
still (100, 0), both when the target pointer is null and when the target is inactive. -/
theorem Enemy.update_no_target_drifts :
    (Enemy.update Rat.sqrt
      ({ Enemy.new (0 : ℚ) 0 with velocity := ⟨100, 0⟩ } : Enemy ℚ) none (1 / 10)).position.x
      = 10 ∧
    (Enemy.update Rat.sqrt
      ({ Enemy.new (0 : ℚ) 0 with velocity := ⟨100, 0⟩ } : Enemy ℚ) none (1 / 10)).velocity.x
      = 100 ∧
    (Enemy.update Rat.sqrt ({ Enemy.new (0 : ℚ) 0 with velocity := ⟨100, 0⟩ } : Enemy ℚ)
      (some { Player.new (50 : ℚ) 0 with isActive := false }) (1 / 10)).position.x = 10 ∧
    (Enemy.update Rat.sqrt ({ Enemy.new (0 : ℚ) 0 with velocity := ⟨100, 0⟩ } : Enemy ℚ)
      (some { Player.new (50 : ℚ) 0 with isActive := false }) (1 / 10)).velocity.x = 100 := by
  norm_num [Enemy.update, Enemy.new, Entity.new, Entity.update, GameObject.new, Player.new]

/-- C12: for a pursuer of speed 100 and detection range 300 whose target is present and
active at a distance d (the exact non-negative root returned by std::sqrt) with
0 < d < 300, Enemy::update(dt) sets the velocity to (target - own position) / d * 100,
whose squared magnitude is 100^2, and moves the position by that velocity times dt. -/
theorem Enemy.update_chase {K : Type} [LinearOrderedField K] (sqrtf : K → K) (e : Enemy K)
    (player : Player K) (dt d : K) (hs : e.speed = 100) (hr : e.detectionRange = 300)
    (ha : player.isActive = true)
    (hd : d = sqrtf ((player.position.x - e.position.x) * (player.position.x - e.position.x)
      + (player.position.y - e.position.y) * (player.position.y - e.position.y)))
    (hroot : d * d = (player.position.x - e.position.x) * (player.position.x - e.position.x)
      + (player.position.y - e.position.y) * (player.position.y - e.position.y))
    (hpos : 0 < d) (hnear : d < 300) :
    (Enemy.update sqrtf e (some player) dt).velocity.x
      = (player.position.x - e.position.x) / d * 100 ∧
    (Enemy.update sqrtf e (some player) dt).velocity.y
      = (player.position.y - e.position.y) / d * 100 ∧
    (Enemy.update sqrtf e (some player) dt).velocity.x ^ 2 +
      (Enemy.update sqrtf e (some player) dt).velocity.y ^ 2 = 100 ^ 2 ∧
    (Enemy.update sqrtf e (some player) dt).position.x
      = e.position.x + (Enemy.update sqrtf e (some player) dt).velocity.x * dt ∧
    (Enemy.update sqrtf e (some player) dt).position.y
      = e.position.y + (Enemy.update sqrtf e (some player) dt).velocity.y * dt := by
  have hdne : d ≠ 0 := ne_of_gt hpos
  have hlt2 : d < e.detectionRange := by rw [hr]; exact hnear
  have hvx : (Enemy.update sqrtf e (some player) dt).velocity.x
      = (player.position.x - e.position.x) / d * 100 := by
    simp [Enemy.update, ha, hlt2, hpos, Entity.move, Entity.update, hs, ← hd]
  have hvy : (Enemy.update sqrtf e (some player) dt).velocity.y
      = (player.position.y - e.position.y) / d * 100 := by
    simp [Enemy.update, ha, hlt2, hpos, Entity.move, Entity.update, hs, ← hd]
  refine ⟨hvx, hvy, ?_, ?_, ?_⟩
  · rw [hvx, hvy]
    field_simp
    have h2 : (player.position.x - e.position.x) ^ 2 + (player.position.y - e.position.y) ^ 2
        = d ^ 2 := by
      rw [pow_two, pow_two, pow_two, hroot]
    calc ((player.position.x - e.position.x) * 100) ^ 2 +
          ((player.position.y - e.position.y) * 100) ^ 2
        = ((player.position.x - e.position.x) ^ 2 + (player.position.y - e.position.y) ^ 2)
            * 100 ^ 2 := by ring
      _ = 100 ^ 2 * d ^ 2 := by rw [h2]; ring
  · simp [Enemy.update, ha, hlt2, hpos, Entity.move, Entity.update, hs, ← hd]
  · simp [Enemy.update, ha, hlt2, hpos, Entity.move, Entity.update, hs, ← hd]

/-- C12 witness: a fresh pursuer at (0, 0) and a fresh avatar at (30, 40), distance 50. -/
theorem Enemy.update_chase_witness :
    (Enemy.update Rat.sqrt (Enemy.new (0 : ℚ) 0) (some (Player.new 30 40)) (1 / 10)).velocity.x
      = ((Player.new (30 : ℚ) 40).position.x - (Enemy.new (0 : ℚ) 0).position.x) / 50 * 100 :=
  have h50 : Rat.sqrt (((30 : ℚ) - 0) * (30 - 0) + (40 - 0) * (40 - 0)) = 50 := by
    rw [show ((30 : ℚ) - 0) * (30 - 0) + (40 - 0) * (40 - 0) = 50 * 50 by norm_num,
      Rat.sqrt_eq]
    norm_num
  (Enemy.update_chase Rat.sqrt (Enemy.new (0 : ℚ) 0) (Player.new 30 40) (1 / 10) 50
    rfl rfl rfl h50.symm (by norm_num [Player.new, Entity.new, GameObject.new, Enemy.new])
    (by norm_num) (by norm_num)).1

/-! ### Bounding-box lemmas -/

/-- For boxes with positive sizes the min/max normalisation of findIntersection is the
identity: the overlap is [max of the left edges, min of the right edges] on each axis. -/
theorem Rect.findIntersection_pos {K : Type} [LinearOrderedField K] (r1 r2 : Rect K)
    (h1x : 0 < r1.size.x) (h1y : 0 < r1.size.y) (h2x : 0 < r2.size.x) (h2y : 0 < r2.size.y) :
    r1.findIntersection r2 =
      if max r1.position.x r2.position.x
            < min (r1.position.x + r1.size.x) (r2.position.x + r2.size.x) ∧
          max r1.position.y r2.position.y
            < min (r1.position.y + r1.size.y) (r2.position.y + r2.size.y) then
        some ⟨⟨max r1.position.x r2.position.x, max r1.position.y r2.position.y⟩,
          ⟨min (r1.position.x + r1.size.x) (r2.position.x + r2.size.x)
              - max r1.position.x r2.position.x,
            min (r1.position.y + r1.size.y) (r2.position.y + r2.size.y)
              - max r1.position.y r2.position.y⟩⟩
      else none := by
  unfold Rect.findIntersection
  simp only [min_eq_left (le_of_lt (lt_add_of_pos_right r1.position.x h1x)),
    max_eq_right (le_of_lt (lt_add_of_pos_right r1.position.x h1x)),
    min_eq_left (le_of_lt (lt_add_of_pos_right r1.position.y h1y)),
    max_eq_right (le_of_lt (lt_add_of_pos_right r1.position.y h1y)),
    min_eq_left (le_of_lt (lt_add_of_pos_right r2.position.x h2x)),
    max_eq_right (le_of_lt (lt_add_of_pos_right r2.position.x h2x)),
    min_eq_left (le_of_lt (lt_add_of_pos_right r2.position.y h2y)),
    max_eq_right (le_of_lt (lt_add_of_pos_right r2.position.y h2y))]

/-- Whenever findIntersection returns a rectangle, its width and height are positive. -/
theorem Rect.findIntersection_size_pos {K : Type} [LinearOrderedField K] (r1 r2 inter : Rect K)
    (h : r1.findIntersection r2 = some inter) : 0 < inter.size.x ∧ 0 < inter.size.y := by
  unfold Rect.findIntersection at h
  simp only at h
  split_ifs at h with hc
  simp only [Option.some.injEq] at h
  subst h
  exact ⟨sub_pos.mpr hc.1, sub_pos.mpr hc.2⟩

/-- Boxes with positive sizes intersect exactly when they overlap strictly on both axes. -/
theorem Rect.intersects_pos_iff {K : Type} [LinearOrderedField K] (r1 r2 : Rect K)
    (h1x : 0 < r1.size.x) (h1y : 0 < r1.size.y) (h2x : 0 < r2.size.x) (h2y : 0 < r2.size.y) :
    r1.intersects r2 = true ↔
      (max r1.position.x r2.position.x
          < min (r1.position.x + r1.size.x) (r2.position.x + r2.size.x) ∧
        max r1.position.y r2.position.y
          < min (r1.position.y + r1.size.y) (r2.position.y + r2.size.y)) := by
  unfold Rect.intersects
  rw [Rect.findIntersection_pos r1 r2 h1x h1y h2x h2y]
  split_ifs with hc
  · exact ⟨fun _ => hc, fun _ => rfl⟩
  · exact ⟨fun h => by simp at h, fun h => absurd h hc⟩

/-- Position written by the push-back for one wall, as a function of the intersection. -/
theorem Game.pushBack_some {K : Type} [LinearOrderedField K] (player : Player K) (wall : Wall K)
    (inter : Rect K) (hw : wall.isActive = true)
    (hi : player.getBounds.findIntersection wall.getBounds = some inter) :
    Game.pushBack player wall =
      { player with
        position :=
          if inter.size.x < inter.size.y then
            if player.position.x < wall.position.x then
              ⟨player.position.x - inter.size.x, player.position.y⟩
            else ⟨player.position.x + inter.size.x, player.position.y⟩
          else
            if player.position.y < wall.position.y then
              ⟨player.position.x, player.position.y - inter.size.y⟩
            else ⟨player.position.x, player.position.y + inter.size.y⟩ } := by
  unfold Game.pushBack
  simp only [hw, if_true, hi]
  rfl

theorem Game.pushBack_none {K : Type} [LinearOrderedField K] (player : Player K) (wall : Wall K)
    (hi : player.getBounds.findIntersection wall.getBounds = none) :
    Game.pushBack player wall = player := by
  unfold Game.pushBack
  by_cases hw : wall.isActive = true
  · simp only [hw, if_true, hi]
  · simp only [hw, if_false]; rfl

theorem Game.pushBack_inactive {K : Type} [LinearOrderedField K] (player : Player K)
    (wall : Wall K) (hw : wall.isActive = false) : Game.pushBack player wall = player := by
  unfold Game.pushBack
  simp [hw]

/-- A wall that lies entirely to one side of the avatar (touching allowed) leaves the
avatar where it is. -/
theorem Game.pushBack_separated {K : Type} [LinearOrderedField K] (player : Player K)
    (wall : Wall K) (hpx : 0 < player.size.x) (hpy : 0 < player.size.y)
    (hwx : 0 < wall.size.x) (hwy : 0 < wall.size.y)
    (hsep : player.position.x + player.size.x ≤ wall.position.x ∨
      wall.position.x + wall.size.x ≤ player.position.x ∨
      player.position.y + player.size.y ≤ wall.position.y ∨
      wall.position.y + wall.size.y ≤ player.position.y) :
    Game.pushBack player wall = player := by
  apply Game.pushBack_none
  rw [Rect.findIntersection_pos _ _ hpx hpy hwx hwy]
  have hno : ¬ (max player.getBounds.position.x wall.getBounds.position.x
        < min (player.getBounds.position.x + player.getBounds.size.x)
            (wall.getBounds.position.x + wall.getBounds.size.x) ∧
      max player.getBounds.position.y wall.getBounds.position.y
        < min (player.getBounds.position.y + player.getBounds.size.y)
            (wall.getBounds.position.y + wall.getBounds.size.y)) := by
    simp only [GameObject.getBounds, max_lt_iff, lt_min_iff]
    rintro ⟨⟨⟨_, h1⟩, ⟨h2, _⟩⟩, ⟨⟨_, h3⟩, ⟨h4, _⟩⟩⟩
    rcases hsep with h | h | h | h <;> linarith
  rw [if_neg hno]

/-- C13: in a world with the walls built by Game::Game, an avatar of size 30x30 at (400, y)
with 0 <= y < 20 is left by Game::handleCollisions at exactly (400, 20). -/
theorem Game.handleCollisions_top_wall {K : Type} [LinearOrderedField K] [FloorRing K]
    (g : Game K) (y : K) (hwalls : g.walls = (Game.new : Game K).walls)
    (hpos : g.player.position = ⟨400, y⟩) (hsize : g.player.size = ⟨30, 30⟩)
    (hy0 : 0 ≤ y) (hy1 : y < 20) :
    (g.handleCollisions).player.position = ⟨400, 20⟩ := by
  have hinter : g.player.getBounds.findIntersection (Wall.new (0 : K) 0 800 20).getBounds
      = some ⟨⟨400, y⟩, ⟨30, 20 - y⟩⟩ := by
    rw [Rect.findIntersection_pos _ _
      (by simp [GameObject.getBounds, hsize]) (by simp [GameObject.getBounds, hsize])
      (by simp [GameObject.getBounds, Wall.new, StaticObject.new, GameObject.new])
      (by simp [GameObject.getBounds, Wall.new, StaticObject.new, GameObject.new])]
    simp only [GameObject.getBounds, hpos, hsize, Wall.new, StaticObject.new, GameObject.new]
    have e1 : max (400 : K) 0 = 400 := max_eq_left (by norm_num)
    have e2 : min ((400 : K) + 30) (0 + 800) = 430 := by
      rw [min_eq_left (by norm_num)]; norm_num
    have e3 : max y 0 = y := max_eq_left hy0
    have e4 : min (y + 30) (0 + 20) = 20 := by
      rw [min_eq_right (by linarith)]; norm_num
    rw [e1, e2, e3, e4, if_pos ⟨by norm_num, hy1⟩]
    norm_num
  have h1 : Game.pushBack g.player (Wall.new 0 0 800 20) =
      { g.player with position := ⟨400, 20⟩ } := by
    rw [Game.pushBack_some g.player _ _ rfl hinter]
    have hno : ¬ ((30 : K) < 20 - y) := by linarith
    have hny : ¬ (y < (Wall.new (0 : K) 0 800 20).position.y) := not_lt.mpr hy0
    simp only [hpos, hno, hny, if_false]
    norm_num
  have hstep : ∀ (x0 y0 w0 h0 : K), 0 < w0 → 0 < h0 →
      ((400 : K) + 30 ≤ x0 ∨ x0 + w0 ≤ 400 ∨ (20 : K) + 30 ≤ y0 ∨ y0 + h0 ≤ 20) →
      Game.pushBack ({ g.player with position := ⟨400, 20⟩ } : Player K) (Wall.new x0 y0 w0 h0)
        = { g.player with position := ⟨400, 20⟩ } := by
    intro x0 y0 w0 h0 hw0 hh0 hsep
    apply Game.pushBack_separated
    · simp [hsize]
    · simp [hsize]
    · simpa [Wall.new, StaticObject.new, GameObject.new] using hw0
    · simpa [Wall.new, StaticObject.new, GameObject.new] using hh0
    · simpa [hsize, Wall.new, StaticObject.new, GameObject.new] using hsep
  simp only [Game.handleCollisions, hwalls, Game.new, List.foldl, h1]
  rw [hstep 0 580 800 20 (by norm_num) (by norm_num) (by norm_num),
    hstep 0 0 20 600 (by norm_num) (by norm_num) (by norm_num),
    hstep 780 0 20 600 (by norm_num) (by norm_num) (by norm_num),
    hstep 200 200 100 20 (by norm_num) (by norm_num) (by norm_num),
    hstep 500 400 20 150 (by norm_num) (by norm_num) (by norm_num)]

/-- C13 witness: the world of Game::Game with the avatar moved to (400, 5). -/
theorem Game.handleCollisions_top_wall_witness :
    (({ (Game.new : Game ℚ) with
        player := { Player.new (400 : ℚ) 300 with position := ⟨400, 5⟩ } }
      : Game ℚ).handleCollisions).player.position = ⟨400, 20⟩ :=
  Game.handleCollisions_top_wall
    ({ (Game.new : Game ℚ) with
        player := { Player.new (400 : ℚ) 300 with position := ⟨400, 5⟩ } } : Game ℚ)
    5 rfl rfl rfl (by norm_num) (by norm_num)

/-- One axis of the push-back: the interval [a, a + w] overlaps [c, c + v]; after it is
moved by the overlap length, away from c when a < c and the other way otherwise, the two
intervals still overlap exactly when the moved interval reached past the far end. -/
theorem overlap_after_push {K : Type} [LinearOrderedField K] (a w c v : K)
    (hov : max a c < min (a + w) (c + v)) :
    (a < c →
      (max (a - (min (a + w) (c + v) - max a c)) c
          < min (a - (min (a + w) (c + v) - max a c) + w) (c + v) ↔ c + v < a + w)) ∧
    (¬ a < c →
      (max (a + (min (a + w) (c + v) - max a c)) c
          < min (a + (min (a + w) (c + v) - max a c) + w) (c + v) ↔ a + w < c + v)) := by
  obtain ⟨⟨h1, h3⟩, ⟨h2, h4⟩⟩ :
      (a < a + w ∧ c < a + w) ∧ (a < c + v ∧ c < c + v) := by
    simpa only [max_lt_iff, lt_min_iff] using hov
  constructor
  · intro hac
    rw [max_eq_right (le_of_lt hac)]
    rcases le_or_lt (a + w) (c + v) with h | h
    · rw [min_eq_left h]
      simp only [max_lt_iff, lt_min_iff]
      constructor
      · rintro ⟨⟨h5, h6⟩, ⟨h7, h8⟩⟩; linarith
      · intro h6; linarith
    · rw [min_eq_right (le_of_lt h)]
      simp only [max_lt_iff, lt_min_iff]
      constructor
      · intro _; exact h
      · intro _; exact ⟨⟨by linarith, by linarith⟩, ⟨by linarith, by linarith⟩⟩
  · intro hac
    have hca : c ≤ a := not_lt.mp hac
    rw [max_eq_left hca]
    rcases le_or_lt (c + v) (a + w) with h | h
    · rw [min_eq_right h]
      simp only [max_lt_iff, lt_min_iff]
      constructor
      · rintro ⟨⟨h5, h6⟩, ⟨h7, h8⟩⟩; linarith
      · intro h6; linarith
    · rw [min_eq_left (le_of_lt h)]
      simp only [max_lt_iff, lt_min_iff]
      constructor
      · intro _; exact h
      · intro _; exact ⟨⟨by linarith, by linarith⟩, ⟨by linarith, by linarith⟩⟩

/-- C19: for an active wall, when the boxes intersect in a rectangle of width overlapX and
height overlapY (both positive), Game::handleCollisions changes only the avatar position
and only one coordinate of it: x by -overlapX (avatar x < wall x) or +overlapX (otherwise)
when overlapX < overlapY, and y by -overlapY (avatar y < wall y) or +overlapY (otherwise)
when overlapX >= overlapY; when the boxes do not intersect the avatar is unchanged, and
boxes of positive size that are apart or merely touch do not intersect. -/
theorem Game.pushBack_correction {K : Type} [LinearOrderedField K] (player : Player K)
    (wall : Wall K) (hw : wall.isActive = true) :
    Game.pushBack player wall = { player with position := (Game.pushBack player wall).position } ∧
    (∀ inter : Rect K, player.getBounds.findIntersection wall.getBounds = some inter →
      0 < inter.size.x ∧ 0 < inter.size.y ∧
      (inter.size.x < inter.size.y → player.position.x < wall.position.x →
        (Game.pushBack player wall).position
          = ⟨player.position.x - inter.size.x, player.position.y⟩) ∧
      (inter.size.x < inter.size.y → ¬ player.position.x < wall.position.x →
        (Game.pushBack player wall).position
          = ⟨player.position.x + inter.size.x, player.position.y⟩) ∧
      (¬ inter.size.x < inter.size.y → player.position.y < wall.position.y →
        (Game.pushBack player wall).position
          = ⟨player.position.x, player.position.y - inter.size.y⟩) ∧
      (¬ inter.size.x < inter.size.y → ¬ player.position.y < wall.position.y →
        (Game.pushBack player wall).position
          = ⟨player.position.x, player.position.y + inter.size.y⟩)) ∧
    (player.getBounds.findIntersection wall.getBounds = none →
      Game.pushBack player wall = player) ∧
    (0 < player.size.x → 0 < player.size.y → 0 < wall.size.x → 0 < wall.size.y →
      (∀ inter : Rect K, player.getBounds.findIntersection wall.getBounds = some inter →
        inter.size.x = min (player.position.x + player.size.x) (wall.position.x + wall.size.x)
          - max player.position.x wall.position.x ∧
        inter.size.y = min (player.position.y + player.size.y) (wall.position.y + wall.size.y)
          - max player.position.y wall.position.y) ∧
      ((player.position.x + player.size.x ≤ wall.position.x ∨
          wall.position.x + wall.size.x ≤ player.position.x ∨
          player.position.y + player.size.y ≤ wall.position.y ∨
          wall.position.y + wall.size.y ≤ player.position.y) →
        player.getBounds.findIntersection wall.getBounds = none ∧
        Game.pushBack player wall = player)) := by
  refine ⟨?_, ?_, Game.pushBack_none player wall, ?_⟩
  · cases hi : player.getBounds.findIntersection wall.getBounds with
    | none => rw [Game.pushBack_none player wall hi]
    | some inter => rw [Game.pushBack_some player wall inter hw hi]
  · intro inter hi
    obtain ⟨hx, hy⟩ := Rect.findIntersection_size_pos _ _ _ hi
    rw [Game.pushBack_some player wall inter hw hi]
    refine ⟨hx, hy, ?_, ?_, ?_, ?_⟩
    · intro h1 h2; simp only [h1, h2, if_true]
    · intro h1 h2; simp only [h1, h2, if_true, if_false]
    · intro h1 h2; simp only [h1, h2, if_true, if_false]
    · intro h1 h2; simp only [h1, h2, if_false]
  · intro hpx hpy hwx hwy
    have hform := Rect.findIntersection_pos player.getBounds wall.getBounds hpx hpy hwx hwy
    constructor
    · intro inter hi
      rw [hform] at hi
      split_ifs at hi with hc
      simp only [Option.some.injEq] at hi
      subst hi
      exact ⟨rfl, rfl⟩
    · intro hsep
      have hsame := Game.pushBack_separated player wall hpx hpy hwx hwy hsep
      refine ⟨?_, hsame⟩
      rw [hform]
      have hno : ¬ (max player.getBounds.position.x wall.getBounds.position.x
            < min (player.getBounds.position.x + player.getBounds.size.x)
                (wall.getBounds.position.x + wall.getBounds.size.x) ∧
          max player.getBounds.position.y wall.getBounds.position.y
            < min (player.getBounds.position.y + player.getBounds.size.y)
                (wall.getBounds.position.y + wall.getBounds.size.y)) := by
        simp only [GameObject.getBounds, max_lt_iff, lt_min_iff]
        rintro ⟨⟨⟨_, h1⟩, ⟨h2, _⟩⟩, ⟨⟨_, h3⟩, ⟨h4, _⟩⟩⟩
        rcases hsep with h | h | h | h <;> linarith
      rw [if_neg hno]

/-- C19 witness: an avatar standing at (400, 20), just below the top wall, is not moved. -/
theorem Game.pushBack_correction_witness :
    Game.pushBack (Player.new (400 : ℚ) 20) (Wall.new 0 0 800 20) = Player.new (400 : ℚ) 20 :=
  ((Game.pushBack_correction (Player.new (400 : ℚ) 20) (Wall.new 0 0 800 20) rfl).2.2.2
    (by norm_num [Player.new, Entity.new, GameObject.new])
    (by norm_num [Player.new, Entity.new, GameObject.new])
    (by norm_num [Wall.new, StaticObject.new, GameObject.new])
    (by norm_num [Wall.new, StaticObject.new, GameObject.new])).2
    (Or.inr (Or.inr (Or.inr
      (by norm_num [Player.new, Entity.new, Wall.new, StaticObject.new, GameObject.new])))) |>.2

/-- Intersection test of the avatar box after its position was overwritten. -/
theorem Game.moved_intersects_iff {K : Type} [LinearOrderedField K] (player : Player K)
    (wall : Wall K) (pos : Vector2 K) (hpx : 0 < player.size.x) (hpy : 0 < player.size.y)
    (hwx : 0 < wall.size.x) (hwy : 0 < wall.size.y) :
    (({ player with position := pos } : Player K).getBounds.intersects wall.getBounds = true) ↔
      (max pos.x wall.position.x < min (pos.x + player.size.x) (wall.position.x + wall.size.x) ∧
        max pos.y wall.position.y
          < min (pos.y + player.size.y) (wall.position.y + wall.size.y)) :=
  Rect.intersects_pos_iff ({ player with position := pos } : Player K).getBounds
    wall.getBounds hpx hpy hwx hwy

/-- C18 (as stated, refuted): the avatar of Game::Game (30x30) at (495, 450) intersects the
active wall (500, 400, 20, 150) of Game::Game; the push-back moves it to (475, 450), where
its box [475, 505] x [450, 480] still intersects the wall. -/
theorem Game.pushBack_still_intersects :
    (Wall.new (500 : ℚ) 400 20 150).isActive = true ∧
    (Player.new (495 : ℚ) 450).getBounds.intersects (Wall.new (500 : ℚ) 400 20 150).getBounds
      = true ∧
    (Game.pushBack (Player.new (495 : ℚ) 450) (Wall.new 500 400 20 150)).position
      = ⟨475, 450⟩ ∧
    (Game.pushBack (Player.new (495 : ℚ) 450) (Wall.new 500 400 20 150)).getBounds.intersects
      (Wall.new (500 : ℚ) 400 20 150).getBounds = true := by
  have hinter : (Player.new (495 : ℚ) 450).getBounds.findIntersection
      (Wall.new (500 : ℚ) 400 20 150).getBounds = some ⟨⟨500, 450⟩, ⟨20, 30⟩⟩ := by
    rw [Rect.findIntersection_pos _ _
      (by norm_num [GameObject.getBounds, Player.new, Entity.new, GameObject.new])
      (by norm_num [GameObject.getBounds, Player.new, Entity.new, GameObject.new])
      (by norm_num [GameObject.getBounds, Wall.new, StaticObject.new, GameObject.new])
      (by norm_num [GameObject.getBounds, Wall.new, StaticObject.new, GameObject.new])]
    simp only [GameObject.getBounds, Player.new, Entity.new, Wall.new, StaticObject.new,
      GameObject.new]
    have e1 : max (495 : ℚ) 500 = 500 := max_eq_right (by norm_num)
    have e2 : min ((495 : ℚ) + 30) (500 + 20) = 520 := by
      rw [min_eq_right (by norm_num)]; norm_num
    have e3 : max (450 : ℚ) 400 = 450 := max_eq_left (by norm_num)
    have e4 : min ((450 : ℚ) + 30) (400 + 150) = 480 := by
      rw [min_eq_left (by norm_num)]; norm_num
    rw [e1, e2, e3, e4, if_pos (by norm_num)]
    norm_num
  have hpush : Game.pushBack (Player.new (495 : ℚ) 450) (Wall.new 500 400 20 150) =
      { Player.new (495 : ℚ) 450 with position := ⟨475, 450⟩ } := by
    rw [Game.pushBack_some _ _ _ rfl hinter]
    simp only [Player.new, Entity.new, Wall.new, StaticObject.new, GameObject.new]
    norm_num
  refine ⟨rfl, ?_, ?_, ?_⟩
  · unfold Rect.intersects
    rw [hinter]
    rfl
  · rw [hpush]
  · rw [hpush, Game.moved_intersects_iff _ _ _
      (by norm_num [Player.new, Entity.new, GameObject.new])
      (by norm_num [Player.new, Entity.new, GameObject.new])
      (by norm_num [Wall.new, StaticObject.new, GameObject.new])
      (by norm_num [Wall.new, StaticObject.new, GameObject.new])]
    simp only [Player.new, Entity.new, Wall.new, StaticObject.new, GameObject.new,
      max_lt_iff, lt_min_iff]
    norm_num

/-- C18 (amended): for an active wall and an avatar box intersecting it (all extents
positive), the avatar box no longer intersects the wall after the push-back exactly when,
on the axis chosen for resolution, the avatar does not reach past the far edge of the wall
in the push direction: pushed toward smaller coordinates (avatar coordinate < wall
coordinate) its far edge is not beyond the wall's far edge, pushed toward larger
coordinates the wall's far edge is not beyond the avatar's far edge. -/
theorem Game.pushBack_separates_iff {K : Type} [LinearOrderedField K] (player : Player K)
    (wall : Wall K) (inter : Rect K) (hw : wall.isActive = true)
    (hpx : 0 < player.size.x) (hpy : 0 < player.size.y)
    (hwx : 0 < wall.size.x) (hwy : 0 < wall.size.y)
    (hi : player.getBounds.findIntersection wall.getBounds = some inter) :
    (inter.size.x < inter.size.y →
      ((Game.pushBack player wall).getBounds.intersects wall.getBounds = false ↔
        (player.position.x < wall.position.x ∧
            player.position.x + player.size.x ≤ wall.position.x + wall.size.x) ∨
          (wall.position.x ≤ player.position.x ∧
            wall.position.x + wall.size.x ≤ player.position.x + player.size.x))) ∧
    (¬ inter.size.x < inter.size.y →
      ((Game.pushBack player wall).getBounds.intersects wall.getBounds = false ↔
        (player.position.y < wall.position.y ∧
            player.position.y + player.size.y ≤ wall.position.y + wall.size.y) ∨
          (wall.position.y ≤ player.position.y ∧
            wall.position.y + wall.size.y ≤ player.position.y + player.size.y))) := by
  have hpush := Game.pushBack_some player wall inter hw hi
  rw [Rect.findIntersection_pos player.getBounds wall.getBounds hpx hpy hwx hwy] at hi
  split_ifs at hi with hc
  simp only [Option.some.injEq] at hi
  have hsx : inter.size.x =
      min (player.position.x + player.size.x) (wall.position.x + wall.size.x)
        - max player.position.x wall.position.x := by rw [← hi]; rfl
  have hsy : inter.size.y =
      min (player.position.y + player.size.y) (wall.position.y + wall.size.y)
        - max player.position.y wall.position.y := by rw [← hi]; rfl
  have hcx : max player.position.x wall.position.x
      < min (player.position.x + player.size.x) (wall.position.x + wall.size.x) := hc.1
  have hcy : max player.position.y wall.position.y
      < min (player.position.y + player.size.y) (wall.position.y + wall.size.y) := hc.2
  have hX := overlap_after_push player.position.x player.size.x wall.position.x wall.size.x hcx
  have hY := overlap_after_push player.position.y player.size.y wall.position.y wall.size.y hcy
  constructor
  · intro hlt
    rw [hpush, if_pos hlt, ← Bool.not_eq_true]
    by_cases hside : player.position.x < wall.position.x
    · rw [if_pos hside, Game.moved_intersects_iff _ _ _ hpx hpy hwx hwy, hsx]
      simp only [hX.1 hside, hcy, and_true, not_lt]
      constructor
      · intro h; exact Or.inl ⟨hside, h⟩
      · rintro (⟨_, h⟩ | ⟨h, _⟩)
        · exact h
        · exact absurd hside (not_lt.mpr h)
    · rw [if_neg hside, Game.moved_intersects_iff _ _ _ hpx hpy hwx hwy, hsx]
      simp only [hX.2 hside, hcy, and_true, not_lt]
      constructor
      · intro h; exact Or.inr ⟨not_lt.mp hside, h⟩
      · rintro (⟨h, _⟩ | ⟨_, h⟩)
        · exact absurd h hside
        · exact h
  · intro hlt
    rw [hpush, if_neg hlt, ← Bool.not_eq_true]
    by_cases hside : player.position.y < wall.position.y
    · rw [if_pos hside, Game.moved_intersects_iff _ _ _ hpx hpy hwx hwy, hsy]
      simp only [hY.1 hside, hcx, true_and, not_lt]
      constructor
      · intro h; exact Or.inl ⟨hside, h⟩
      · rintro (⟨_, h⟩ | ⟨h, _⟩)
        · exact h
        · exact absurd hside (not_lt.mpr h)
    · rw [if_neg hside, Game.moved_intersects_iff _ _ _ hpx hpy hwx hwy, hsy]
      simp only [hY.2 hside, hcx, true_and, not_lt]
      constructor
      · intro h; exact Or.inr ⟨not_lt.mp hside, h⟩
      · rintro (⟨h, _⟩ | ⟨_, h⟩)
        · exact absurd h hside
        · exact h

/-- C18 witness: the avatar at (400, 5) under the top wall (0, 0, 800, 20) is pushed out. -/
theorem Game.pushBack_separates_iff_witness :
    (Game.pushBack (Player.new (400 : ℚ) 5) (Wall.new 0 0 800 20)).getBounds.intersects
      (Wall.new (0 : ℚ) 0 800 20).getBounds = false :=
  have hinter : (Player.new (400 : ℚ) 5).getBounds.findIntersection
      (Wall.new (0 : ℚ) 0 800 20).getBounds = some ⟨⟨400, 5⟩, ⟨30, 15⟩⟩ := by
    rw [Rect.findIntersection_pos _ _
      (by norm_num [GameObject.getBounds, Player.new, Entity.new, GameObject.new])
      (by norm_num [GameObject.getBounds, Player.new, Entity.new, GameObject.new])
      (by norm_num [GameObject.getBounds, Wall.new, StaticObject.new, GameObject.new])
      (by norm_num [GameObject.getBounds, Wall.new, StaticObject.new, GameObject.new])]
    simp only [GameObject.getBounds, Player.new, Entity.new, Wall.new, StaticObject.new,
      GameObject.new]
    have e1 : max (400 : ℚ) 0 = 400 := max_eq_left (by norm_num)
    have e2 : min ((400 : ℚ) + 30) (0 + 800) = 430 := by
      rw [min_eq_left (by norm_num)]; norm_num
    have e3 : max (5 : ℚ) 0 = 5 := max_eq_left (by norm_num)
    have e4 : min ((5 : ℚ) + 30) (0 + 20) = 20 := by
      rw [min_eq_right (by norm_num)]; norm_num
    rw [e1, e2, e3, e4, if_pos (by norm_num)]
    norm_num
  ((Game.pushBack_separates_iff (Player.new (400 : ℚ) 5) (Wall.new 0 0 800 20)
    ⟨⟨400, 5⟩, ⟨30, 15⟩⟩ rfl
    (by norm_num [Player.new, Entity.new, GameObject.new])
    (by norm_num [Player.new, Entity.new, GameObject.new])
    (by norm_num [Wall.new, StaticObject.new, GameObject.new])
    (by norm_num [Wall.new, StaticObject.new, GameObject.new])
    hinter).2 (by norm_num)).mpr
    (Or.inr ⟨by norm_num [Player.new, Entity.new, Wall.new, StaticObject.new, GameObject.new],
      by norm_num [Player.new, Entity.new, Wall.new, StaticObject.new, GameObject.new]⟩)

/-! ### The first-match loop -/

theorem forFirst_none {α : Type} (cond : α → Bool) (act : α → α) (xs : List α)
    (h : ∀ x ∈ xs, cond x = false) : forFirst cond act xs = (false, xs) := by
  induction xs with
  | nil => rfl
  | cons x rest ih =>
    have hx : cond x = false := h x (List.mem_cons_self x rest)
    have hrest := ih (fun y hy => h y (List.mem_cons_of_mem x hy))
    simp [forFirst, hx, hrest]

theorem forFirst_hit {α : Type} (cond : α → Bool) (act : α → α) (pre : List α) (x : α)
    (post : List α) (hpre : ∀ y ∈ pre, cond y = false) (hx : cond x = true) :
    forFirst cond act (pre ++ x :: post) = (true, pre ++ act x :: post) := by
  induction pre with
  | nil => simp [forFirst, hx]
  | cons y rest ih =>
    have hy : cond y = false := hpre y (List.mem_cons_self y rest)
    have hrest := ih (fun z hz => hpre z (List.mem_cons_of_mem y hz))
    simp [forFirst, hy, hrest]

/-- A collection with an element satisfying the condition splits at the first such
element. -/
theorem exists_first_split {α : Type} (cond : α → Bool) (xs : List α)
    (h : ∃ x ∈ xs, cond x = true) :
    ∃ pre x post, xs = pre ++ x :: post ∧ (∀ y ∈ pre, cond y = false) ∧ cond x = true := by
  induction xs with
  | nil => obtain ⟨x, hx, _⟩ := h; cases hx
  | cons a rest ih =>
    by_cases ha : cond a = true
    · exact ⟨[], a, rest, rfl, fun y hy => absurd hy (List.not_mem_nil y), ha⟩
    · have hrest : ∃ x ∈ rest, cond x = true := by
        obtain ⟨x, hx, hc⟩ := h
        rcases List.mem_cons.mp hx with rfl | hx
        · exact absurd hc ha
        · exact ⟨x, hx, hc⟩
      obtain ⟨pre, x, post, hsplit, hpre, hx⟩ := ih hrest
      refine ⟨a :: pre, x, post, by rw [hsplit]; rfl, ?_, hx⟩
      intro y hy
      rcases List.mem_cons.mp hy with rfl | hy
      · simpa using ha
      · exact hpre y hy

/-! ### Projectile collision claims -/

/-- The pass of Game::handleCollisions for one active projectile, by cases on whether the
pursuer loop and the obstacle loop found a hit. -/
theorem Game.collideProjectile_active {K : Type} [LinearOrderedField K] [FloorRing K]
    (proj : Projectile K) (enemies : List (Enemy K))
    (destructibles : List (DestructibleObject K)) (hp : proj.isActive = true) :
    Game.collideProjectile proj enemies destructibles =
      if (forFirst
          (fun enemy : Enemy K => enemy.isActive && proj.getBounds.intersects enemy.getBounds)
          (fun enemy => { enemy with isActive := false }) enemies).1 = true then
        ({ proj with isActive := false },
          (forFirst
            (fun enemy : Enemy K =>
              enemy.isActive && proj.getBounds.intersects enemy.getBounds)
            (fun enemy => { enemy with isActive := false }) enemies).2, destructibles)
      else
        (if (forFirst
            (fun dest : DestructibleObject K =>
              dest.isActive && proj.getBounds.intersects dest.getBounds)
            (fun dest => dest.takeDamage 25) destructibles).1 = true then
            { proj with isActive := false }
          else proj,
          (forFirst
            (fun enemy : Enemy K =>
              enemy.isActive && proj.getBounds.intersects enemy.getBounds)
            (fun enemy => { enemy with isActive := false }) enemies).2,
          (forFirst
            (fun dest : DestructibleObject K =>
              dest.isActive && proj.getBounds.intersects dest.getBounds)
            (fun dest => dest.takeDamage 25) destructibles).2) := by
  unfold Game.collideProjectile
  by_cases h1 : (forFirst
      (fun enemy : Enemy K => enemy.isActive && proj.getBounds.intersects enemy.getBounds)
      (fun enemy => { enemy with isActive := false }) enemies).1 = true
  · simp [hp, h1]
  · simp [hp, h1]

/-- C14: for an active projectile whose box intersects at least one active pursuer, the
pursuers split as pre ++ e :: post with e the first active pursuer that the projectile
intersects; the pass for this projectile deactivates the projectile and e, and leaves
every pursuer in pre and post as it was. -/
theorem Game.collideProjectile_first_enemy {K : Type} [LinearOrderedField K] [FloorRing K]
    (proj : Projectile K) (enemies : List (Enemy K))
    (destructibles : List (DestructibleObject K)) (hp : proj.isActive = true)
    (hex : ∃ e ∈ enemies, e.isActive = true ∧ proj.getBounds.intersects e.getBounds = true) :
    ∃ pre e post, enemies = pre ++ e :: post ∧
      (∀ y ∈ pre, ¬ (y.isActive = true ∧ proj.getBounds.intersects y.getBounds = true)) ∧
      e.isActive = true ∧ proj.getBounds.intersects e.getBounds = true ∧
      (Game.collideProjectile proj enemies destructibles).1 = { proj with isActive := false } ∧
      (Game.collideProjectile proj enemies destructibles).2.1
        = pre ++ { e with isActive := false } :: post := by
  have hex2 : ∃ e ∈ enemies,
      (fun enemy : Enemy K => enemy.isActive && proj.getBounds.intersects enemy.getBounds) e
        = true := by
    obtain ⟨e, he, h1, h2⟩ := hex
    exact ⟨e, he, by simp [h1, h2]⟩
  obtain ⟨pre, e, post, hsplit, hpre, he⟩ := exists_first_split _ enemies hex2
  have hfirst := forFirst_hit _ (fun enemy : Enemy K => { enemy with isActive := false })
    pre e post hpre he
  simp only [Bool.and_eq_true] at he
  refine ⟨pre, e, post, hsplit, ?_, he.1, he.2, ?_, ?_⟩
  · intro y hy hboth
    have := hpre y hy
    simp [hboth.1, hboth.2] at this
  · rw [Game.collideProjectile_active proj enemies destructibles hp, hsplit, hfirst]
    rfl
  · rw [Game.collideProjectile_active proj enemies destructibles hp, hsplit, hfirst]
    rfl

/-- C15 (amended): when an active projectile hits a pursuer, the pass for this projectile
deactivates it and leaves the collection of breakable obstacles exactly as it was, whether
or not the projectile also intersects an active breakable obstacle. -/
theorem Game.collideProjectile_enemy_hit_spares_destructibles {K : Type}
    [LinearOrderedField K] [FloorRing K] (proj : Projectile K) (enemies : List (Enemy K))
    (destructibles : List (DestructibleObject K)) (hp : proj.isActive = true)
    (hex : ∃ e ∈ enemies, e.isActive = true ∧ proj.getBounds.intersects e.getBounds = true) :
    (Game.collideProjectile proj enemies destructibles).1.isActive = false ∧
    (Game.collideProjectile proj enemies destructibles).2.2 = destructibles := by
  have hex2 : ∃ e ∈ enemies,
      (fun enemy : Enemy K => enemy.isActive && proj.getBounds.intersects enemy.getBounds) e
        = true := by
    obtain ⟨e, he, h1, h2⟩ := hex
    exact ⟨e, he, by simp [h1, h2]⟩
  obtain ⟨pre, e, post, hsplit, hpre, he⟩ := exists_first_split _ enemies hex2
  have hfirst := forFirst_hit _ (fun enemy : Enemy K => { enemy with isActive := false })
    pre e post hpre he
  constructor
  · rw [Game.collideProjectile_active proj enemies destructibles hp, hsplit, hfirst]
    rfl
  · rw [Game.collideProjectile_active proj enemies destructibles hp, hsplit, hfirst]
    rfl

/-- C16: for an active projectile that intersects no active pursuer but at least one active
breakable obstacle, the obstacles split as pre ++ d :: post with d the first active
obstacle that the projectile intersects; the pass for this projectile deactivates the
projectile, replaces d by d after one takeDamage(25), and leaves the obstacles in pre and
post and all pursuers as they were. -/
theorem Game.collideProjectile_first_destructible {K : Type} [LinearOrderedField K]
    [FloorRing K] (proj : Projectile K) (enemies : List (Enemy K))
    (destructibles : List (DestructibleObject K)) (hp : proj.isActive = true)
    (hno : ∀ e ∈ enemies,
      ¬ (e.isActive = true ∧ proj.getBounds.intersects e.getBounds = true))
    (hex : ∃ d ∈ destructibles,
      d.isActive = true ∧ proj.getBounds.intersects d.getBounds = true) :
    ∃ pre d post, destructibles = pre ++ d :: post ∧
      (∀ y ∈ pre, ¬ (y.isActive = true ∧ proj.getBounds.intersects y.getBounds = true)) ∧
      d.isActive = true ∧ proj.getBounds.intersects d.getBounds = true ∧
      (Game.collideProjectile proj enemies destructibles).1 = { proj with isActive := false } ∧
      (Game.collideProjectile proj enemies destructibles).2.1 = enemies ∧
      (Game.collideProjectile proj enemies destructibles).2.2
        = pre ++ d.takeDamage 25 :: post := by
  have hmiss := forFirst_none
    (fun enemy : Enemy K => enemy.isActive && proj.getBounds.intersects enemy.getBounds)
    (fun enemy : Enemy K => { enemy with isActive := false }) enemies
    (by
      intro e he
      have := hno e he
      by_cases ha : e.isActive = true
      · have hb : proj.getBounds.intersects e.getBounds = false := by
          by_contra hc
          exact this ⟨ha, by simpa using hc⟩
        simp [hb]
      · simp [ha])
  have hex2 : ∃ d ∈ destructibles,
      (fun dest : DestructibleObject K =>
        dest.isActive && proj.getBounds.intersects dest.getBounds) d = true := by
    obtain ⟨d, hd, h1, h2⟩ := hex
    exact ⟨d, hd, by simp [h1, h2]⟩
  obtain ⟨pre, d, post, hsplit, hpre, hd⟩ := exists_first_split _ destructibles hex2
  have hfirst := forFirst_hit _ (fun dest : DestructibleObject K => dest.takeDamage 25)
    pre d post hpre hd
  simp only [Bool.and_eq_true] at hd
  refine ⟨pre, d, post, hsplit, ?_, hd.1, hd.2, ?_, ?_, ?_⟩
  · intro y hy hboth
    have := hpre y hy
    simp [hboth.1, hboth.2] at this
  · rw [Game.collideProjectile_active proj enemies destructibles hp, hmiss, hsplit, hfirst]
    rfl
  · rw [Game.collideProjectile_active proj enemies destructibles hp, hmiss, hsplit, hfirst]
    rfl
  · rw [Game.collideProjectile_active proj enemies destructibles hp, hmiss, hsplit, hfirst]
    rfl

/-- Boxes of positive size that overlap strictly on both axes intersect. -/
theorem Rect.intersects_of_overlap {K : Type} [LinearOrderedField K] (r1 r2 : Rect K)
    (h1x : 0 < r1.size.x) (h1y : 0 < r1.size.y) (h2x : 0 < r2.size.x) (h2y : 0 < r2.size.y)
    (hx1 : r2.position.x < r1.position.x + r1.size.x)
    (hx2 : r1.position.x < r2.position.x + r2.size.x)
    (hy1 : r2.position.y < r1.position.y + r1.size.y)
    (hy2 : r1.position.y < r2.position.y + r2.size.y) : r1.intersects r2 = true := by
  rw [Rect.intersects_pos_iff r1 r2 h1x h1y h2x h2y]
  simp only [max_lt_iff, lt_min_iff]
  exact ⟨⟨⟨by linarith, hx1⟩, ⟨hx2, by linarith⟩⟩, ⟨⟨by linarith, hy1⟩, ⟨hy2, by linarith⟩⟩⟩

/-- An active projectile that intersects the active pursuer at the head of the collection
deactivates itself and that pursuer and touches nothing else. -/
theorem Game.collideProjectile_enemy_head {K : Type} [LinearOrderedField K] [FloorRing K]
    (proj : Projectile K) (e : Enemy K) (es : List (Enemy K))
    (ds : List (DestructibleObject K)) (hp : proj.isActive = true) (he : e.isActive = true)
    (hi : proj.getBounds.intersects e.getBounds = true) :
    Game.collideProjectile proj (e :: es) ds =
      ({ proj with isActive := false }, { e with isActive := false } :: es, ds) := by
  rw [Game.collideProjectile_active proj (e :: es) ds hp]
  simp [forFirst, he, hi]

/-- An active projectile that finds no active pursuer to hit and intersects the active
obstacle at the head of the collection deactivates itself and damages that obstacle. -/
theorem Game.collideProjectile_destructible_head {K : Type} [LinearOrderedField K]
    [FloorRing K] (proj : Projectile K) (es : List (Enemy K)) (d : DestructibleObject K)
    (ds : List (DestructibleObject K)) (hp : proj.isActive = true)
    (hes : ∀ e ∈ es, e.isActive = false) (hd : d.isActive = true)
    (hi : proj.getBounds.intersects d.getBounds = true) :
    Game.collideProjectile proj es (d :: ds) =
      ({ proj with isActive := false }, es, d.takeDamage 25 :: ds) := by
  have hmiss := forFirst_none
    (fun enemy : Enemy K => enemy.isActive && proj.getBounds.intersects enemy.getBounds)
    (fun enemy : Enemy K => { enemy with isActive := false }) es
    (fun e he => by simp [hes e he])
  rw [Game.collideProjectile_active proj es (d :: ds) hp, hmiss]
  simp [forFirst, hd, hi]

/-- The sweep std::erase_if keeps exactly the elements for which the predicate fails, in
their order. -/
theorem eraseIf_eq_filter {α : Type} (pred : α → Bool) (xs : List α) :
    eraseIf pred xs = xs.filter (fun x => !pred x) := by
  induction xs with
  | nil => rfl
  | cons x rest ih =>
    by_cases h : pred x = true
    · simp [eraseIf, h, ih]
    · simp [eraseIf, h, ih]

/-- C17: Game::cleanupInactive leaves in each of the projectile, pursuer and obstacle
collections exactly the active elements, unaltered and in their original order, and does
not touch the walls or the avatar; so after Game::handleCollisions on a world with one
active projectile intersecting one active pursuer, the sweep leaves neither of them. -/
theorem Game.cleanupInactive_sweep {K : Type} [LinearOrderedField K] [FloorRing K]
    (g : Game K) :
    (g.cleanupInactive).projectiles = g.projectiles.filter (fun p => p.isActive) ∧
    (g.cleanupInactive).enemies = g.enemies.filter (fun e => e.isActive) ∧
    (g.cleanupInactive).destructibles = g.destructibles.filter (fun d => d.isActive) ∧
    (g.cleanupInactive).projectiles.Sublist g.projectiles ∧
    (g.cleanupInactive).enemies.Sublist g.enemies ∧
    (g.cleanupInactive).destructibles.Sublist g.destructibles ∧
    (g.cleanupInactive).walls = g.walls ∧
    (g.cleanupInactive).player = g.player ∧
    (∀ (proj : Projectile K) (enemy : Enemy K),
      g.projectiles = [proj] → g.enemies = [enemy] →
      proj.isActive = true → enemy.isActive = true →
      proj.getBounds.intersects enemy.getBounds = true →
      (g.handleCollisions).projectiles = [{ proj with isActive := false }] ∧
      (g.handleCollisions).enemies = [{ enemy with isActive := false }] ∧
      (g.handleCollisions.cleanupInactive).projectiles = [] ∧
      (g.handleCollisions.cleanupInactive).enemies = []) := by
  have hp : (g.cleanupInactive).projectiles = g.projectiles.filter (fun p => p.isActive) := by
    simp [Game.cleanupInactive, eraseIf_eq_filter]
  have he : (g.cleanupInactive).enemies = g.enemies.filter (fun e => e.isActive) := by
    simp [Game.cleanupInactive, eraseIf_eq_filter]
  have hd : (g.cleanupInactive).destructibles
      = g.destructibles.filter (fun d => d.isActive) := by
    simp [Game.cleanupInactive, eraseIf_eq_filter]
  refine ⟨hp, he, hd, ?_, ?_, ?_, rfl, rfl, ?_⟩
  · rw [hp]; exact List.filter_sublist _
  · rw [he]; exact List.filter_sublist _
  · rw [hd]; exact List.filter_sublist _
  · intro proj enemy hps hes hpa hea hi
    have hstep := Game.collideProjectile_enemy_head proj enemy [] g.destructibles hpa hea hi
    have h1 : (g.handleCollisions).projectiles = [{ proj with isActive := false }] := by
      simp [Game.handleCollisions, hps, hes, Game.collideProjectiles, hstep]
    have h2 : (g.handleCollisions).enemies = [{ enemy with isActive := false }] := by
      simp [Game.handleCollisions, hps, hes, Game.collideProjectiles, hstep]
    refine ⟨h1, h2, ?_, ?_⟩
    · simp [Game.cleanupInactive, h1, eraseIf]
    · simp [Game.cleanupInactive, h2, eraseIf]

/-- C14 witness: a projectile at (104, 100) and one pursuer with the box (108, 100, 8, 8). -/
theorem Game.collideProjectile_first_enemy_witness :
    ∃ pre e post,
      [({ Enemy.new (108 : ℚ) 100 with size := ⟨8, 8⟩ } : Enemy ℚ)] = pre ++ e :: post ∧
      (∀ y ∈ pre, ¬ (y.isActive = true ∧
        (Projectile.new Rat.sqrt (104 : ℚ) 100 1 0).getBounds.intersects y.getBounds = true)) ∧
      e.isActive = true ∧
      (Projectile.new Rat.sqrt (104 : ℚ) 100 1 0).getBounds.intersects e.getBounds = true ∧
      (Game.collideProjectile (Projectile.new Rat.sqrt (104 : ℚ) 100 1 0)
        [({ Enemy.new (108 : ℚ) 100 with size := ⟨8, 8⟩ } : Enemy ℚ)]
        [DestructibleObject.new (100 : ℚ) 100 40 40 100]).1
        = { Projectile.new Rat.sqrt (104 : ℚ) 100 1 0 with isActive := false } ∧
      (Game.collideProjectile (Projectile.new Rat.sqrt (104 : ℚ) 100 1 0)
        [({ Enemy.new (108 : ℚ) 100 with size := ⟨8, 8⟩ } : Enemy ℚ)]
        [DestructibleObject.new (100 : ℚ) 100 40 40 100]).2.1
        = pre ++ { e with isActive := false } :: post :=
  Game.collideProjectile_first_enemy (Projectile.new Rat.sqrt (104 : ℚ) 100 1 0)
    [({ Enemy.new (108 : ℚ) 100 with size := ⟨8, 8⟩ } : Enemy ℚ)]
    [DestructibleObject.new (100 : ℚ) 100 40 40 100] rfl
    ⟨_, List.mem_singleton_self _, rfl, by
      apply Rect.intersects_of_overlap <;>
        norm_num [GameObject.getBounds, Projectile.new, Enemy.new, Entity.new, GameObject.new]⟩

/-- C15 (as stated, refuted): two projectiles at (104, 100), one pursuer with the box
(108, 100, 8, 8) and one breakable obstacle (100, 100, 40, 40) of 100 health points, all
active.  The first projectile hits the pursuer and leaves the obstacle alone during its
own pass, yet at the end of Game::handleCollisions the obstacle has health 75, while
without the first projectile it has health 100: the second projectile hits the pursuer in
one world and the obstacle in the other. -/
theorem Game.handleCollisions_absorbed_hit_matters :
    Game.collideProjectile (Projectile.new Rat.sqrt (104 : ℚ) 100 1 0)
        [({ Enemy.new (108 : ℚ) 100 with size := ⟨8, 8⟩ } : Enemy ℚ)]
        [DestructibleObject.new (100 : ℚ) 100 40 40 100]
      = ({ Projectile.new Rat.sqrt (104 : ℚ) 100 1 0 with isActive := false },
          [({ Enemy.new (108 : ℚ) 100 with size := ⟨8, 8⟩, isActive := false } : Enemy ℚ)],
          [DestructibleObject.new (100 : ℚ) 100 40 40 100]) ∧
    ((({ (Game.new : Game ℚ) with
          projectiles := [Projectile.new Rat.sqrt (104 : ℚ) 100 1 0,
            Projectile.new Rat.sqrt (104 : ℚ) 100 1 0]
          enemies := [({ Enemy.new (108 : ℚ) 100 with size := ⟨8, 8⟩ } : Enemy ℚ)]
          destructibles := [DestructibleObject.new (100 : ℚ) 100 40 40 100] }
        : Game ℚ).handleCollisions).destructibles.map (fun d => d.health)) = [75] ∧
    ((({ (Game.new : Game ℚ) with
          projectiles := [Projectile.new Rat.sqrt (104 : ℚ) 100 1 0]
          enemies := [({ Enemy.new (108 : ℚ) 100 with size := ⟨8, 8⟩ } : Enemy ℚ)]
          destructibles := [DestructibleObject.new (100 : ℚ) 100 40 40 100] }
        : Game ℚ).handleCollisions).destructibles.map (fun d => d.health)) = [100] := by
  have hPE : (Projectile.new Rat.sqrt (104 : ℚ) 100 1 0).getBounds.intersects
      ({ Enemy.new (108 : ℚ) 100 with size := ⟨8, 8⟩ } : Enemy ℚ).getBounds = true := by
    apply Rect.intersects_of_overlap <;>
      norm_num [GameObject.getBounds, Projectile.new, Enemy.new, Entity.new, GameObject.new]
  have hPD : (Projectile.new Rat.sqrt (104 : ℚ) 100 1 0).getBounds.intersects
      (DestructibleObject.new (100 : ℚ) 100 40 40 100).getBounds = true := by
    apply Rect.intersects_of_overlap <;>
      norm_num [GameObject.getBounds, Projectile.new, DestructibleObject.new,
        StaticObject.new, GameObject.new]
  have step1 := Game.collideProjectile_enemy_head (Projectile.new Rat.sqrt (104 : ℚ) 100 1 0)
    ({ Enemy.new (108 : ℚ) 100 with size := ⟨8, 8⟩ } : Enemy ℚ) []
    [DestructibleObject.new (100 : ℚ) 100 40 40 100] rfl rfl hPE
  have step2 := Game.collideProjectile_destructible_head
    (Projectile.new Rat.sqrt (104 : ℚ) 100 1 0)
    [({ Enemy.new (108 : ℚ) 100 with size := ⟨8, 8⟩, isActive := false } : Enemy ℚ)]
    (DestructibleObject.new (100 : ℚ) 100 40 40 100) [] rfl
    (by intro e he; rw [List.mem_singleton.mp he]) rfl hPD
  have hhealth : ((DestructibleObject.new (100 : ℚ) 100 40 40 100).takeDamage 25).health
      = 75 := by
    rw [DestructibleObject.takeDamage_health]
    norm_num [DestructibleObject.new]
  refine ⟨step1, ?_, ?_⟩
  · have hloop : Game.collideProjectiles
        [Projectile.new Rat.sqrt (104 : ℚ) 100 1 0, Projectile.new Rat.sqrt (104 : ℚ) 100 1 0]
        [({ Enemy.new (108 : ℚ) 100 with size := ⟨8, 8⟩ } : Enemy ℚ)]
        [DestructibleObject.new (100 : ℚ) 100 40 40 100]
        = ([{ Projectile.new Rat.sqrt (104 : ℚ) 100 1 0 with isActive := false },
            { Projectile.new Rat.sqrt (104 : ℚ) 100 1 0 with isActive := false }],
          [({ Enemy.new (108 : ℚ) 100 with size := ⟨8, 8⟩, isActive := false } : Enemy ℚ)],
          [(DestructibleObject.new (100 : ℚ) 100 40 40 100).takeDamage 25]) := by
      simp only [Game.collideProjectiles, step1, step2]
    simp only [Game.handleCollisions, hloop, List.map, hhealth]
  · have hloop : Game.collideProjectiles
        [Projectile.new Rat.sqrt (104 : ℚ) 100 1 0]
        [({ Enemy.new (108 : ℚ) 100 with size := ⟨8, 8⟩ } : Enemy ℚ)]
        [DestructibleObject.new (100 : ℚ) 100 40 40 100]
        = ([{ Projectile.new Rat.sqrt (104 : ℚ) 100 1 0 with isActive := false }],
          [({ Enemy.new (108 : ℚ) 100 with size := ⟨8, 8⟩, isActive := false } : Enemy ℚ)],
          [DestructibleObject.new (100 : ℚ) 100 40 40 100]) := by
      simp only [Game.collideProjectiles, step1]
    simp only [Game.handleCollisions, hloop, List.map]
    rfl

/-- C15 witness: the projectile at (104, 100) hits the pursuer (108, 100, 8, 8) although
it also intersects the obstacle (100, 100, 40, 40); the obstacle is returned as it was. -/
theorem Game.collideProjectile_enemy_hit_spares_destructibles_witness :
    (Game.collideProjectile (Projectile.new Rat.sqrt (104 : ℚ) 100 1 0)
      [({ Enemy.new (108 : ℚ) 100 with size := ⟨8, 8⟩ } : Enemy ℚ)]
      [DestructibleObject.new (100 : ℚ) 100 40 40 100]).2.2
      = [DestructibleObject.new (100 : ℚ) 100 40 40 100] :=
  (Game.collideProjectile_enemy_hit_spares_destructibles
    (Projectile.new Rat.sqrt (104 : ℚ) 100 1 0)
    [({ Enemy.new (108 : ℚ) 100 with size := ⟨8, 8⟩ } : Enemy ℚ)]
    [DestructibleObject.new (100 : ℚ) 100 40 40 100] rfl
    ⟨_, List.mem_singleton_self _, rfl, by
      apply Rect.intersects_of_overlap <;>
        norm_num [GameObject.getBounds, Projectile.new, Enemy.new, Entity.new,
          GameObject.new]⟩).2

/-- C16 witness: no pursuer, a projectile at (104, 100) and the obstacle (100, 100, 40, 40). -/
theorem Game.collideProjectile_first_destructible_witness :
    ∃ pre d post,
      [DestructibleObject.new (100 : ℚ) 100 40 40 100] = pre ++ d :: post ∧
      (∀ y ∈ pre, ¬ (y.isActive = true ∧
        (Projectile.new Rat.sqrt (104 : ℚ) 100 1 0).getBounds.intersects y.getBounds = true)) ∧
      d.isActive = true ∧
      (Projectile.new Rat.sqrt (104 : ℚ) 100 1 0).getBounds.intersects d.getBounds = true ∧
      (Game.collideProjectile (Projectile.new Rat.sqrt (104 : ℚ) 100 1 0) []
        [DestructibleObject.new (100 : ℚ) 100 40 40 100]).1
        = { Projectile.new Rat.sqrt (104 : ℚ) 100 1 0 with isActive := false } ∧
      (Game.collideProjectile (Projectile.new Rat.sqrt (104 : ℚ) 100 1 0) []
        [DestructibleObject.new (100 : ℚ) 100 40 40 100]).2.1 = [] ∧
      (Game.collideProjectile (Projectile.new Rat.sqrt (104 : ℚ) 100 1 0) []
        [DestructibleObject.new (100 : ℚ) 100 40 40 100]).2.2
        = pre ++ d.takeDamage 25 :: post :=
  Game.collideProjectile_first_destructible (Projectile.new Rat.sqrt (104 : ℚ) 100 1 0) []
    [DestructibleObject.new (100 : ℚ) 100 40 40 100] rfl
    (fun e he => absurd he (List.not_mem_nil e))
    ⟨_, List.mem_singleton_self _, rfl, by
      apply Rect.intersects_of_overlap <;>
        norm_num [GameObject.getBounds, Projectile.new, DestructibleObject.new,
          StaticObject.new, GameObject.new]⟩

/-! ### Inactive objects and the collision pass -/

theorem keptStates_cons {α : Type} (active : α → Bool) (o c : α) (os cs : List α) :
    keptStates active (o :: os) (c :: cs) =
      if active o = true then c :: keptStates active os cs else keptStates active os cs := by
  unfold keptStates
  by_cases h : active o = true <;> simp [h]

theorem keptStates_self {α : Type} (active : α → Bool) (xs : List α) :
    keptStates active xs xs = xs.filter active := by
  induction xs with
  | nil => rfl
  | cons x rest ih =>
    rw [keptStates_cons, ih]
    by_cases h : active x = true <;> simp [h]

theorem frozen_refl {α : Type} (active : α → Bool) (xs : List α) :
    List.Forall₂ (fun o c => active o = false → c = o) xs xs := by
  induction xs with
  | nil => exact List.Forall₂.nil
  | cons x rest ih => exact List.Forall₂.cons (fun _ => rfl) ih

/-- The first-match loop commutes with dropping the elements that were inactive from the
start, provided the condition only selects active elements; such elements stay as they
were. -/
theorem forFirst_keptStates {α : Type} (active : α → Bool) (cond : α → Bool) (act : α → α)
    (hcond : ∀ x, cond x = true → active x = true) (os cs : List α)
    (h : List.Forall₂ (fun o c => active o = false → c = o) os cs) :
    forFirst cond act (keptStates active os cs)
        = ((forFirst cond act cs).1, keptStates active os (forFirst cond act cs).2) ∧
      List.Forall₂ (fun o c => active o = false → c = o) os (forFirst cond act cs).2 := by
  induction h with
  | nil => exact ⟨rfl, List.Forall₂.nil⟩
  | @cons o c os cs hoc hrest ih =>
    obtain ⟨ih1, ih2⟩ := ih
    by_cases ha : active o = true
    · by_cases hc : cond c = true
      · constructor
        · simp [keptStates_cons, ha, forFirst, hc]
        · simp only [forFirst, hc, if_true]
          exact List.Forall₂.cons (fun hf => by rw [ha] at hf; cases hf) hrest
      · constructor
        · simp [keptStates_cons, ha, forFirst, hc, ih1]
        · simp only [forFirst, hc]
          exact List.Forall₂.cons (fun hf => by rw [ha] at hf; cases hf) ih2
    · have ha2 : active o = false := by simpa using ha
      have hco : c = o := hoc ha2
      have hc : ¬ cond c = true := by
        intro hc
        have := hcond c hc
        rw [hco, ha2] at this
        cases this
      constructor
      · simp [keptStates_cons, ha, forFirst, hc, ih1]
      · simp only [forFirst, hc]
        exact List.Forall₂.cons hoc ih2

theorem Game.collideProjectile_inactive {K : Type} [LinearOrderedField K] [FloorRing K]
    (proj : Projectile K) (enemies : List (Enemy K))
    (destructibles : List (DestructibleObject K)) (hp : proj.isActive = false) :
    Game.collideProjectile proj enemies destructibles = (proj, enemies, destructibles) := by
  unfold Game.collideProjectile
  simp [hp]

/-- The pass for one active projectile commutes with dropping the pursuers and obstacles
that were inactive from the start, and leaves those as they were. -/
theorem Game.collideProjectile_keptStates {K : Type} [LinearOrderedField K] [FloorRing K]
    (proj : Projectile K) (oes ces : List (Enemy K)) (ods cds : List (DestructibleObject K))
    (hp : proj.isActive = true)
    (hE : List.Forall₂ (fun o c : Enemy K => o.isActive = false → c = o) oes ces)
    (hD : List.Forall₂ (fun o c : DestructibleObject K => o.isActive = false → c = o)
      ods cds) :
    Game.collideProjectile proj (keptStates (fun e : Enemy K => e.isActive) oes ces)
        (keptStates (fun d : DestructibleObject K => d.isActive) ods cds)
      = ((Game.collideProjectile proj ces cds).1,
          keptStates (fun e : Enemy K => e.isActive) oes
            (Game.collideProjectile proj ces cds).2.1,
          keptStates (fun d : DestructibleObject K => d.isActive) ods
            (Game.collideProjectile proj ces cds).2.2) ∧
    List.Forall₂ (fun o c : Enemy K => o.isActive = false → c = o) oes
      (Game.collideProjectile proj ces cds).2.1 ∧
    List.Forall₂ (fun o c : DestructibleObject K => o.isActive = false → c = o) ods
      (Game.collideProjectile proj ces cds).2.2 := by
  obtain ⟨fE1, fE2⟩ := forFirst_keptStates (fun e : Enemy K => e.isActive)
    (fun enemy : Enemy K => enemy.isActive && proj.getBounds.intersects enemy.getBounds)
    (fun enemy => { enemy with isActive := false })
    (fun x hx => by simp only [Bool.and_eq_true] at hx; exact hx.1) oes ces hE
  obtain ⟨fD1, fD2⟩ := forFirst_keptStates (fun d : DestructibleObject K => d.isActive)
    (fun dest : DestructibleObject K =>
      dest.isActive && proj.getBounds.intersects dest.getBounds)
    (fun dest => dest.takeDamage 25)
    (fun x hx => by simp only [Bool.and_eq_true] at hx; exact hx.1) ods cds hD
  rw [Game.collideProjectile_active proj _ _ hp, Game.collideProjectile_active proj ces cds hp,
    fE1, fD1]
  by_cases h1 : (forFirst
      (fun enemy : Enemy K => enemy.isActive && proj.getBounds.intersects enemy.getBounds)
      (fun enemy => { enemy with isActive := false }) ces).1 = true
  · simp only [h1, if_true]
    exact ⟨trivial, fE2, hD⟩
  · have h1f : (forFirst
        (fun enemy : Enemy K => enemy.isActive && proj.getBounds.intersects enemy.getBounds)
        (fun enemy => { enemy with isActive := false }) ces).1 = false := by
      simpa using h1
    rw [h1f]
    simp only [Bool.false_eq_true, if_false]
    exact ⟨trivial, fE2, fD2⟩

/-- The projectile loop commutes with dropping every projectile, pursuer and obstacle that
was inactive from the start, and leaves those as they were. -/
theorem Game.collideProjectiles_keptStates {K : Type} [LinearOrderedField K] [FloorRing K]
    (ps : List (Projectile K)) :
    ∀ (oes ces : List (Enemy K)) (ods cds : List (DestructibleObject K)),
    List.Forall₂ (fun o c : Enemy K => o.isActive = false → c = o) oes ces →
    List.Forall₂ (fun o c : DestructibleObject K => o.isActive = false → c = o) ods cds →
    Game.collideProjectiles (ps.filter (fun p => p.isActive))
        (keptStates (fun e : Enemy K => e.isActive) oes ces)
        (keptStates (fun d : DestructibleObject K => d.isActive) ods cds)
      = (keptStates (fun p : Projectile K => p.isActive) ps
            (Game.collideProjectiles ps ces cds).1,
          keptStates (fun e : Enemy K => e.isActive) oes
            (Game.collideProjectiles ps ces cds).2.1,
          keptStates (fun d : DestructibleObject K => d.isActive) ods
            (Game.collideProjectiles ps ces cds).2.2) ∧
    List.Forall₂ (fun o c : Projectile K => o.isActive = false → c = o) ps
      (Game.collideProjectiles ps ces cds).1 ∧
    List.Forall₂ (fun o c : Enemy K => o.isActive = false → c = o) oes
      (Game.collideProjectiles ps ces cds).2.1 ∧
    List.Forall₂ (fun o c : DestructibleObject K => o.isActive = false → c = o) ods
      (Game.collideProjectiles ps ces cds).2.2 := by
  induction ps with
  | nil =>
    intro oes ces ods cds hE hD
    exact ⟨rfl, List.Forall₂.nil, hE, hD⟩
  | cons p rest ih =>
    intro oes ces ods cds hE hD
    by_cases hp : p.isActive = true
    · obtain ⟨s1, s2, s3⟩ := Game.collideProjectile_keptStates p oes ces ods cds hp hE hD
      obtain ⟨i1, i2, i3, i4⟩ := ih oes (Game.collideProjectile p ces cds).2.1 ods
        (Game.collideProjectile p ces cds).2.2 s2 s3
      refine ⟨?_, ?_, i3, i4⟩
      · simp only [List.filter_cons, hp, if_true, Game.collideProjectiles, s1, i1,
          keptStates_cons]
      · simp only [Game.collideProjectiles]
        exact List.Forall₂.cons (fun hf => by rw [hp] at hf; cases hf) i2
    · have hp2 : p.isActive = false := by simpa using hp
      have hskip := Game.collideProjectile_inactive p ces cds hp2
      obtain ⟨i1, i2, i3, i4⟩ := ih oes ces ods cds hE hD
      refine ⟨?_, ?_, ?_, ?_⟩
      · simp only [List.filter_cons, hp2, Bool.false_eq_true, if_false, Game.collideProjectiles,
          hskip, i1, keptStates_cons]
      · simp only [Game.collideProjectiles, hskip]
        exact List.Forall₂.cons (fun _ => rfl) i2
      · simpa only [Game.collideProjectiles, hskip] using i3
      · simpa only [Game.collideProjectiles, hskip] using i4

theorem Game.pushBack_foldl_filter {K : Type} [LinearOrderedField K] (walls : List (Wall K)) :
    ∀ player : Player K,
      (walls.filter (fun w => w.isActive)).foldl Game.pushBack player
        = walls.foldl Game.pushBack player := by
  induction walls with
  | nil => intro player; rfl
  | cons w rest ih =>
    intro player
    by_cases hw : w.isActive = true
    · simp only [List.filter_cons, hw, if_true, List.foldl_cons]
      exact ih _
    · have hw2 : w.isActive = false := by simpa using hw
      simp only [List.filter_cons, hw, if_false, List.foldl_cons,
        Game.pushBack_inactive player w hw2]
      exact ih _

/-- C20: Game::handleCollisions on the world from which every inactive wall, projectile,
pursuer and breakable obstacle was removed beforehand gives the same avatar, and gives for
each collection exactly the states that the run on the full world gives to the elements
that were active at the start, in the same order; the run on the full world leaves every
element that was inactive at the start, and every wall, as it was. -/
theorem Game.handleCollisions_ignores_inactive {K : Type} [LinearOrderedField K] [FloorRing K]
    (g : Game K) :
    (({ g with
        walls := g.walls.filter (fun w => w.isActive)
        projectiles := g.projectiles.filter (fun p => p.isActive)
        enemies := g.enemies.filter (fun e => e.isActive)
        destructibles := g.destructibles.filter (fun d => d.isActive) }
      : Game K).handleCollisions).player = (g.handleCollisions).player ∧
    (({ g with
        walls := g.walls.filter (fun w => w.isActive)
        projectiles := g.projectiles.filter (fun p => p.isActive)
        enemies := g.enemies.filter (fun e => e.isActive)
        destructibles := g.destructibles.filter (fun d => d.isActive) }
      : Game K).handleCollisions).projectiles
      = ((g.projectiles.zip (g.handleCollisions).projectiles).filter
          (fun q => q.1.isActive)).map Prod.snd ∧
    (({ g with
        walls := g.walls.filter (fun w => w.isActive)
        projectiles := g.projectiles.filter (fun p => p.isActive)
        enemies := g.enemies.filter (fun e => e.isActive)
        destructibles := g.destructibles.filter (fun d => d.isActive) }
      : Game K).handleCollisions).enemies
      = ((g.enemies.zip (g.handleCollisions).enemies).filter
          (fun q => q.1.isActive)).map Prod.snd ∧
    (({ g with
        walls := g.walls.filter (fun w => w.isActive)
        projectiles := g.projectiles.filter (fun p => p.isActive)
        enemies := g.enemies.filter (fun e => e.isActive)
        destructibles := g.destructibles.filter (fun d => d.isActive) }
      : Game K).handleCollisions).destructibles
      = ((g.destructibles.zip (g.handleCollisions).destructibles).filter
          (fun q => q.1.isActive)).map Prod.snd ∧
    List.Forall₂ (fun o c : Projectile K => o.isActive = false → c = o)
      g.projectiles (g.handleCollisions).projectiles ∧
    List.Forall₂ (fun o c : Enemy K => o.isActive = false → c = o)
      g.enemies (g.handleCollisions).enemies ∧
    List.Forall₂ (fun o c : DestructibleObject K => o.isActive = false → c = o)
      g.destructibles (g.handleCollisions).destructibles ∧
    (g.handleCollisions).walls = g.walls := by
  obtain ⟨h1, h2, h3, h4⟩ := Game.collideProjectiles_keptStates g.projectiles
    g.enemies g.enemies g.destructibles g.destructibles
    (frozen_refl _ _) (frozen_refl _ _)
  rw [keptStates_self, keptStates_self] at h1
  refine ⟨?_, ?_, ?_, ?_, h2, h3, h4, rfl⟩
  · simp only [Game.handleCollisions]
    exact Game.pushBack_foldl_filter g.walls g.player
  · simp only [Game.handleCollisions, h1]
    rfl
  · simp only [Game.handleCollisions, h1]
    rfl
  · simp only [Game.handleCollisions, h1]
    rfl

/-! ### Input handling: opposing keys -/

/-- C22: in Player::handleInput opposing keys do not cancel.  With up and down both pressed
the velocity is the one for down alone (vertical component positive), with left and right
both pressed it is the one for right alone (horizontal component positive); with all four
keys pressed the velocity is (0.707 * speed, 0.707 * speed), which is not zero; and, for a
positive speed, the velocity is the zero vector exactly when no key is pressed. -/
theorem Player.handleInput_opposing_keys {K : Type} [LinearOrderedField K] (p : Player K)
    (dt : K) (hs : 0 < p.speed) :
    (∀ a d : Bool, (p.handleInput ⟨true, true, a, d⟩ dt).velocity
        = (p.handleInput ⟨false, true, a, d⟩ dt).velocity ∧
      0 < (p.handleInput ⟨true, true, a, d⟩ dt).velocity.y) ∧
    (∀ w s : Bool, (p.handleInput ⟨w, s, true, true⟩ dt).velocity
        = (p.handleInput ⟨w, s, false, true⟩ dt).velocity ∧
      0 < (p.handleInput ⟨w, s, true, true⟩ dt).velocity.x) ∧
    (p.handleInput ⟨true, true, false, false⟩ dt).velocity = ⟨0, p.speed⟩ ∧
    (p.handleInput ⟨false, false, true, true⟩ dt).velocity = ⟨p.speed, 0⟩ ∧
    (p.handleInput ⟨true, true, true, true⟩ dt).velocity
      = ⟨707 / 1000 * p.speed, 707 / 1000 * p.speed⟩ ∧
    (p.handleInput ⟨true, true, true, true⟩ dt).velocity ≠ ⟨0, 0⟩ ∧
    (∀ k : Keys, (p.handleInput k dt).velocity = ⟨0, 0⟩ ↔
      (k.w = false ∧ k.s = false ∧ k.a = false ∧ k.d = false)) := by
  have hne : p.speed ≠ 0 := ne_of_gt hs
  refine ⟨?_, ?_, ?_, ?_, ?_, ?_, ?_⟩
  · intro a d
    cases a <;> cases d <;> simp [Player.handleInput, Entity.move, hs]
  · intro w s
    cases w <;> cases s <;> simp [Player.handleInput, Entity.move, hs]
  · simp [Player.handleInput, Entity.move]
  · simp [Player.handleInput, Entity.move]
  · simp [Player.handleInput, Entity.move]
  · simp [Player.handleInput, Entity.move, hne]
  · rintro ⟨w, s, a, d⟩
    cases w <;> cases s <;> cases a <;> cases d <;>
      simp [Player.handleInput, Entity.move, hne]

/-- C22 witness: the freshly constructed avatar with all four keys held. -/
theorem Player.handleInput_opposing_keys_witness :
    ((Player.new (400 : ℚ) 300).handleInput ⟨true, true, true, true⟩ (1 / 60)).velocity
      = ⟨707 / 1000 * (Player.new (400 : ℚ) 300).speed,
          707 / 1000 * (Player.new (400 : ℚ) 300).speed⟩ :=
  (Player.handleInput_opposing_keys (Player.new (400 : ℚ) 300) (1 / 60)
    (by norm_num [Player.new, Entity.new])).2.2.2.2.1

/-! ### Push-back: shallow penetration -/

/-- C24: for an active wall and an avatar box intersecting it (all extents positive), when
the overlap on the axis chosen for resolution is strictly smaller than both the avatar's
and the wall's extent on that axis, the correction leaves the other coordinate and the
size alone and makes the boxes touch on that axis: either the avatar was on the low side
and its far edge now equals the wall's near edge, or it was on the high side and its near
edge now equals the wall's far edge; the boxes no longer intersect. -/
theorem Game.pushBack_shallow {K : Type} [LinearOrderedField K] (player : Player K)
    (wall : Wall K) (inter : Rect K) (hw : wall.isActive = true)
    (hpx : 0 < player.size.x) (hpy : 0 < player.size.y)
    (hwx : 0 < wall.size.x) (hwy : 0 < wall.size.y)
    (hi : player.getBounds.findIntersection wall.getBounds = some inter) :
    (Game.pushBack player wall).size = player.size ∧
    (inter.size.x < inter.size.y → inter.size.x < player.size.x →
      inter.size.x < wall.size.x →
      (Game.pushBack player wall).position.y = player.position.y ∧
      ((player.position.x < wall.position.x ∧
          (Game.pushBack player wall).position.x + player.size.x = wall.position.x) ∨
        (wall.position.x ≤ player.position.x ∧
          (Game.pushBack player wall).position.x = wall.position.x + wall.size.x)) ∧
      (Game.pushBack player wall).getBounds.intersects wall.getBounds = false) ∧
    (¬ inter.size.x < inter.size.y → inter.size.y < player.size.y →
      inter.size.y < wall.size.y →
      (Game.pushBack player wall).position.x = player.position.x ∧
      ((player.position.y < wall.position.y ∧
          (Game.pushBack player wall).position.y + player.size.y = wall.position.y) ∨
        (wall.position.y ≤ player.position.y ∧
          (Game.pushBack player wall).position.y = wall.position.y + wall.size.y)) ∧
      (Game.pushBack player wall).getBounds.intersects wall.getBounds = false) := by
  have hpush := Game.pushBack_some player wall inter hw hi
  rw [Rect.findIntersection_pos player.getBounds wall.getBounds hpx hpy hwx hwy] at hi
  split_ifs at hi with hc
  simp only [Option.some.injEq] at hi
  have hsx : inter.size.x =
      min (player.position.x + player.size.x) (wall.position.x + wall.size.x)
        - max player.position.x wall.position.x := by rw [← hi]; rfl
  have hsy : inter.size.y =
      min (player.position.y + player.size.y) (wall.position.y + wall.size.y)
        - max player.position.y wall.position.y := by rw [← hi]; rfl
  have hcx : max player.position.x wall.position.x
      < min (player.position.x + player.size.x) (wall.position.x + wall.size.x) := hc.1
  have hcy : max player.position.y wall.position.y
      < min (player.position.y + player.size.y) (wall.position.y + wall.size.y) := hc.2
  have hX := overlap_after_push player.position.x player.size.x wall.position.x wall.size.x hcx
  have hY := overlap_after_push player.position.y player.size.y wall.position.y wall.size.y hcy
  refine ⟨by rw [hpush], ?_, ?_⟩
  · intro hlt h1 h2
    rw [hpush, if_pos hlt]
    by_cases hside : player.position.x < wall.position.x
    · rw [if_pos hside]
      have hmax : max player.position.x wall.position.x = wall.position.x :=
        max_eq_right (le_of_lt hside)
      have hle : player.position.x + player.size.x ≤ wall.position.x + wall.size.x := by
        by_contra hcon
        rw [hsx, hmax, min_eq_right (le_of_lt (not_le.mp hcon))] at h2
        linarith
      have hval : inter.size.x = player.position.x + player.size.x - wall.position.x := by
        rw [hsx, hmax, min_eq_left hle]
      refine ⟨rfl, Or.inl ⟨hside, ?_⟩, ?_⟩
      · show player.position.x - inter.size.x + player.size.x = wall.position.x
        rw [hval]; ring
      · rw [← Bool.not_eq_true, Game.moved_intersects_iff _ _ _ hpx hpy hwx hwy, hsx]
        simp only [hX.1 hside, hcy, and_true, not_lt]
        exact hle
    · rw [if_neg hside]
      have hge : wall.position.x ≤ player.position.x := not_lt.mp hside
      have hmax : max player.position.x wall.position.x = player.position.x :=
        max_eq_left hge
      have hle : wall.position.x + wall.size.x ≤ player.position.x + player.size.x := by
        by_contra hcon
        rw [hsx, hmax, min_eq_left (le_of_lt (not_le.mp hcon))] at h1
        linarith
      have hval : inter.size.x = wall.position.x + wall.size.x - player.position.x := by
        rw [hsx, hmax, min_eq_right hle]
      refine ⟨rfl, Or.inr ⟨hge, ?_⟩, ?_⟩
      · show player.position.x + inter.size.x = wall.position.x + wall.size.x
        rw [hval]; ring
      · rw [← Bool.not_eq_true, Game.moved_intersects_iff _ _ _ hpx hpy hwx hwy, hsx]
        simp only [hX.2 hside, hcy, and_true, not_lt]
        exact hle
  · intro hlt h1 h2
    rw [hpush, if_neg hlt]
    by_cases hside : player.position.y < wall.position.y
    · rw [if_pos hside]
      have hmax : max player.position.y wall.position.y = wall.position.y :=
        max_eq_right (le_of_lt hside)
      have hle : player.position.y + player.size.y ≤ wall.position.y + wall.size.y := by
        by_contra hcon
        rw [hsy, hmax, min_eq_right (le_of_lt (not_le.mp hcon))] at h2
        linarith
      have hval : inter.size.y = player.position.y + player.size.y - wall.position.y := by
        rw [hsy, hmax, min_eq_left hle]
      refine ⟨rfl, Or.inl ⟨hside, ?_⟩, ?_⟩
      · show player.position.y - inter.size.y + player.size.y = wall.position.y
        rw [hval]; ring
      · rw [← Bool.not_eq_true, Game.moved_intersects_iff _ _ _ hpx hpy hwx hwy, hsy]
        simp only [hY.1 hside, hcx, true_and, not_lt]
        exact hle
    · rw [if_neg hside]
      have hge : wall.position.y ≤ player.position.y := not_lt.mp hside
      have hmax : max player.position.y wall.position.y = player.position.y :=
        max_eq_left hge
      have hle : wall.position.y + wall.size.y ≤ player.position.y + player.size.y := by
        by_contra hcon
        rw [hsy, hmax, min_eq_left (le_of_lt (not_le.mp hcon))] at h1
        linarith
      have hval : inter.size.y = wall.position.y + wall.size.y - player.position.y := by
        rw [hsy, hmax, min_eq_right hle]
      refine ⟨rfl, Or.inr ⟨hge, ?_⟩, ?_⟩
      · show player.position.y + inter.size.y = wall.position.y + wall.size.y
        rw [hval]; ring
      · rw [← Bool.not_eq_true, Game.moved_intersects_iff _ _ _ hpx hpy hwx hwy, hsy]
        simp only [hY.2 hside, hcx, true_and, not_lt]
        exact hle

/-- C24 witness: the avatar at (400, 560) dips 10 units into the bottom wall
(0, 580, 800, 20) and is put back so that the boxes do not intersect. -/
theorem Game.pushBack_shallow_witness :
    (Game.pushBack (Player.new (400 : ℚ) 560) (Wall.new 0 580 800 20)).getBounds.intersects
      (Wall.new (0 : ℚ) 580 800 20).getBounds = false :=
  have hinter : (Player.new (400 : ℚ) 560).getBounds.findIntersection
      (Wall.new (0 : ℚ) 580 800 20).getBounds = some ⟨⟨400, 580⟩, ⟨30, 10⟩⟩ := by
    rw [Rect.findIntersection_pos _ _
      (by norm_num [GameObject.getBounds, Player.new, Entity.new, GameObject.new])
      (by norm_num [GameObject.getBounds, Player.new, Entity.new, GameObject.new])
      (by norm_num [GameObject.getBounds, Wall.new, StaticObject.new, GameObject.new])
      (by norm_num [GameObject.getBounds, Wall.new, StaticObject.new, GameObject.new])]
    simp only [GameObject.getBounds, Player.new, Entity.new, Wall.new, StaticObject.new,
      GameObject.new]
    have e1 : max (400 : ℚ) 0 = 400 := max_eq_left (by norm_num)
    have e2 : min ((400 : ℚ) + 30) (0 + 800) = 430 := by
      rw [min_eq_left (by norm_num)]; norm_num
    have e3 : max (560 : ℚ) 580 = 580 := max_eq_right (by norm_num)
    have e4 : min ((560 : ℚ) + 30) (580 + 20) = 590 := by
      rw [min_eq_left (by norm_num)]; norm_num
    rw [e1, e2, e3, e4, if_pos (by norm_num)]
    norm_num
  ((Game.pushBack_shallow (Player.new (400 : ℚ) 560) (Wall.new 0 580 800 20)
    ⟨⟨400, 580⟩, ⟨30, 10⟩⟩ rfl
    (by norm_num [Player.new, Entity.new, GameObject.new])
    (by norm_num [Player.new, Entity.new, GameObject.new])
    (by norm_num [Wall.new, StaticObject.new, GameObject.new])
    (by norm_num [Wall.new, StaticObject.new, GameObject.new])
    hinter).2.2 (by norm_num)
    (by norm_num [Player.new, Entity.new, GameObject.new])
    (by norm_num [Wall.new, StaticObject.new, GameObject.new])).2.2

/-! ### Pursuit: closing in -/

/-- A pursuer placed exactly at the position of its active target gets zero velocity and
stays where it is, whatever std::sqrt returns for 0. -/
theorem Enemy.update_at_target {K : Type} [LinearOrderedField K] (sqrtf : K → K)
    (e : Enemy K) (player : Player K) (dt : K) (ha : player.isActive = true)
    (hsame : player.position = e.position) :
    (Enemy.update sqrtf e (some player) dt).velocity = ⟨0, 0⟩ ∧
    (Enemy.update sqrtf e (some player) dt).position = e.position := by
  unfold Enemy.update
  simp only [ha, if_true, hsame, sub_self, zero_div, mul_zero, add_zero]
  by_cases hc : sqrtf 0 < e.detectionRange ∧ sqrtf 0 > 0
  · simp [hc, Entity.move, Entity.update]
  · simp [hc, Entity.move, Entity.update]

/-- C25: for a pursuer of speed 100 and detection range 300 whose target is active at a
distance d (the exact non-negative root returned by std::sqrt) with 0 < d < 300, and a
step with 100 * dt <= d, the squared distance from the new pursuer position to the
target is (d - 100 * dt)^2 with d - 100 * dt >= 0, so every exact non-negative root of it
equals d - 100 * dt; and a pursuer located at the position of its active target gets zero
velocity and does not move. -/
theorem Enemy.update_closes_in {K : Type} [LinearOrderedField K] (sqrtf : K → K) (e : Enemy K)
    (player : Player K) (dt d : K) (hs : e.speed = 100) (hr : e.detectionRange = 300)
    (ha : player.isActive = true)
    (hd : d = sqrtf ((player.position.x - e.position.x) * (player.position.x - e.position.x)
      + (player.position.y - e.position.y) * (player.position.y - e.position.y)))
    (hroot : d * d = (player.position.x - e.position.x) * (player.position.x - e.position.x)
      + (player.position.y - e.position.y) * (player.position.y - e.position.y))
    (hpos : 0 < d) (hnear : d < 300) (hdt1 : 100 * dt ≤ d) :
    (player.position.x - (Enemy.update sqrtf e (some player) dt).position.x) *
        (player.position.x - (Enemy.update sqrtf e (some player) dt).position.x) +
      (player.position.y - (Enemy.update sqrtf e (some player) dt).position.y) *
        (player.position.y - (Enemy.update sqrtf e (some player) dt).position.y)
      = (d - 100 * dt) * (d - 100 * dt) ∧
    0 ≤ d - 100 * dt ∧
    (∀ d2 : K, 0 ≤ d2 →
      d2 * d2 = (player.position.x - (Enemy.update sqrtf e (some player) dt).position.x) *
          (player.position.x - (Enemy.update sqrtf e (some player) dt).position.x) +
        (player.position.y - (Enemy.update sqrtf e (some player) dt).position.y) *
          (player.position.y - (Enemy.update sqrtf e (some player) dt).position.y) →
      d2 = d - 100 * dt) ∧
    (∀ (e0 : Enemy K) (p0 : Player K) (dt0 : K), p0.isActive = true →
      p0.position = e0.position →
      (Enemy.update sqrtf e0 (some p0) dt0).velocity = ⟨0, 0⟩ ∧
      (Enemy.update sqrtf e0 (some p0) dt0).position = e0.position) := by
  have hdne : d ≠ 0 := ne_of_gt hpos
  have hlt2 : d < e.detectionRange := by rw [hr]; exact hnear
  have hx : (Enemy.update sqrtf e (some player) dt).position.x
      = e.position.x + (player.position.x - e.position.x) / d * 100 * dt := by
    simp [Enemy.update, ha, hlt2, hpos, Entity.move, Entity.update, hs, ← hd]
  have hy : (Enemy.update sqrtf e (some player) dt).position.y
      = e.position.y + (player.position.y - e.position.y) / d * 100 * dt := by
    simp [Enemy.update, ha, hlt2, hpos, Entity.move, Entity.update, hs, ← hd]
  have hox : player.position.x - (e.position.x + (player.position.x - e.position.x) / d
      * 100 * dt) = (player.position.x - e.position.x) * ((d - 100 * dt) / d) := by
    field_simp; ring
  have hoy : player.position.y - (e.position.y + (player.position.y - e.position.y) / d
      * 100 * dt) = (player.position.y - e.position.y) * ((d - 100 * dt) / d) := by
    field_simp; ring
  have hrem : 0 ≤ d - 100 * dt := sub_nonneg.mpr hdt1
  have hsq : (player.position.x - (Enemy.update sqrtf e (some player) dt).position.x) ^ 2 +
      (player.position.y - (Enemy.update sqrtf e (some player) dt).position.y) ^ 2
      = (d - 100 * dt) ^ 2 := by
    rw [hx, hy, hox, hoy]
    calc ((player.position.x - e.position.x) * ((d - 100 * dt) / d)) ^ 2 +
          ((player.position.y - e.position.y) * ((d - 100 * dt) / d)) ^ 2
        = ((player.position.x - e.position.x) * (player.position.x - e.position.x) +
            (player.position.y - e.position.y) * (player.position.y - e.position.y))
            * ((d - 100 * dt) / d) ^ 2 := by ring
      _ = d * d * ((d - 100 * dt) / d) ^ 2 := by rw [hroot]
      _ = (d - 100 * dt) ^ 2 := by field_simp; ring
  have hprod : (player.position.x - (Enemy.update sqrtf e (some player) dt).position.x) *
        (player.position.x - (Enemy.update sqrtf e (some player) dt).position.x) +
      (player.position.y - (Enemy.update sqrtf e (some player) dt).position.y) *
        (player.position.y - (Enemy.update sqrtf e (some player) dt).position.y)
      = (d - 100 * dt) * (d - 100 * dt) := by
    rw [← pow_two, ← pow_two, hsq, pow_two]
  refine ⟨hprod, hrem, ?_, fun e0 p0 dt0 h1 h2 => Enemy.update_at_target sqrtf e0 p0 dt0 h1 h2⟩
  intro d2 hd2 heq
  have h2 : d2 * d2 = (d - 100 * dt) * (d - 100 * dt) := by
    rw [heq, hprod]
  rcases mul_self_eq_mul_self_iff.mp h2 with h | h
  · exact h
  · have hz : d2 = 0 := by linarith
    have hz2 : d - 100 * dt = 0 := by linarith
    rw [hz, hz2]

/-- C25 witness: a fresh pursuer at (0, 0), a fresh avatar at (30, 40) and dt = 1/10:
the squared distance goes from 50 * 50 to (50 - 10) * (50 - 10). -/
theorem Enemy.update_closes_in_witness :
    ((Player.new (30 : ℚ) 40).position.x -
        (Enemy.update Rat.sqrt (Enemy.new (0 : ℚ) 0) (some (Player.new 30 40))
          (1 / 10)).position.x) *
      ((Player.new (30 : ℚ) 40).position.x -
        (Enemy.update Rat.sqrt (Enemy.new (0 : ℚ) 0) (some (Player.new 30 40))
          (1 / 10)).position.x) +
    ((Player.new (30 : ℚ) 40).position.y -
        (Enemy.update Rat.sqrt (Enemy.new (0 : ℚ) 0) (some (Player.new 30 40))
          (1 / 10)).position.y) *
      ((Player.new (30 : ℚ) 40).position.y -
        (Enemy.update Rat.sqrt (Enemy.new (0 : ℚ) 0) (some (Player.new 30 40))
          (1 / 10)).position.y)
      = (50 - 100 * (1 / 10)) * (50 - 100 * (1 / 10)) :=
  have h50 : Rat.sqrt (((30 : ℚ) - 0) * (30 - 0) + (40 - 0) * (40 - 0)) = 50 := by
    rw [show ((30 : ℚ) - 0) * (30 - 0) + (40 - 0) * (40 - 0) = 50 * 50 by norm_num,
      Rat.sqrt_eq]
    norm_num
  (Enemy.update_closes_in Rat.sqrt (Enemy.new (0 : ℚ) 0) (Player.new 30 40) (1 / 10) 50
    rfl rfl rfl h50.symm (by norm_num [Player.new, Entity.new, GameObject.new, Enemy.new])
    (by norm_num) (by norm_num) (by norm_num)).1

/-! ### Frame time clamp -/

theorem Player.update_position {K : Type} [LinearOrderedField K] (p : Player K) (dt : K) :
    (p.update dt).position.x = p.position.x + p.velocity.x * dt ∧
    (p.update dt).position.y = p.position.y + p.velocity.y * dt := by
  unfold Player.update
  by_cases hc : p.canShoot = true
  · simp [hc, Entity.update]
  · by_cases ht : p.shootCooldown ≤ p.cooldownTimer + dt <;> simp [hc, ht, Entity.update]

/-- Handling events never changes the Entity part of the avatar (position, velocity,
speed): a shot only clears canShoot. -/
theorem Game.handleEvents_player_entity {K : Type} [LinearOrderedField K] (sqrtf : K → K)
    (events : List Event) :
    ∀ g : Game K, (Game.handleEvents sqrtf g events).player.toEntity = g.player.toEntity := by
  induction events with
  | nil => intro g; rfl
  | cons ev rest ih =>
    intro g
    have hstep : (Game.handleEvent sqrtf g ev).player.toEntity = g.player.toEntity := by
      cases ev with
      | closed => rfl
      | other => rfl
      | mouseLeftPressed mx my =>
        unfold Game.handleEvent Player.tryShoot
        by_cases hc : g.player.canShoot = true <;> simp [hc]
    have := ih (Game.handleEvent sqrtf g ev)
    rw [hstep] at this
    simpa [Game.handleEvents] using this

/-- Displacement of the avatar by handleInput followed by update, for a non-negative step
of at most 0.05 and speed 200. -/
theorem Player.step_bound {K : Type} [LinearOrderedField K] (p : Player K) (k : Keys) (dt : K)
    (hs : p.speed = 200) (h0 : 0 ≤ dt) (h1 : dt ≤ 5 / 100) :
    |((p.handleInput k dt).update dt).position.x - p.position.x| ≤ 10 ∧
    |((p.handleInput k dt).update dt).position.y - p.position.y| ≤ 10 := by
  obtain ⟨hx, hy⟩ := Player.update_position (p.handleInput k dt) dt
  have hpx : (p.handleInput k dt).position = p.position := rfl
  have hv : |(p.handleInput k dt).velocity.x| ≤ 200 ∧
      |(p.handleInput k dt).velocity.y| ≤ 200 := by
    obtain ⟨w, s, a, d⟩ := k
    cases w <;> cases s <;> cases a <;> cases d <;>
      refine ⟨abs_le.mpr ⟨?_, ?_⟩, abs_le.mpr ⟨?_, ?_⟩⟩ <;>
      simp only [Player.handleInput, Entity.move, hs] <;>
      norm_num
  have hscale : ∀ v : K, |v| ≤ 200 → |v * dt| ≤ 10 := by
    intro v hv200
    rw [abs_mul, abs_of_nonneg h0]
    calc |v| * dt ≤ 200 * (5 / 100) := mul_le_mul hv200 h1 h0 (by norm_num)
      _ = 10 := by norm_num
  rw [hx, hy, hpx, add_sub_cancel_left, add_sub_cancel_left]
  exact ⟨hscale _ hv.1, hscale _ hv.2⟩

/-- C21: one iteration of Game::run calls Game::update with dt = min(raw dt, 0.05), which
never exceeds 0.05 and equals the raw value whenever that is <= 0.05; for a raw frame time
>= 0, an avatar of speed 200 and any input snapshot and events, the integration step of
the frame (handleInput followed by update, before the push-back) moves the avatar by at
most 10 units along each axis. -/
theorem Game.runFrame_clamped {K : Type} [LinearOrderedField K] [FloorRing K] (sqrtf : K → K)
    (g : Game K) (rawDt : K) (events : List Event) (keys : Keys)
    (hraw : 0 ≤ rawDt) (hs : g.player.speed = 200) :
    Game.runFrame sqrtf g rawDt events keys
      = Game.update sqrtf (Game.handleEvents sqrtf g events) keys (min rawDt (5 / 100)) ∧
    min rawDt (5 / 100 : K) ≤ 5 / 100 ∧
    (rawDt ≤ 5 / 100 → min rawDt (5 / 100 : K) = rawDt) ∧
    (Game.runFrame sqrtf g rawDt events keys).player
      = (Game.handleEvents sqrtf g events).walls.foldl Game.pushBack
          (((Game.handleEvents sqrtf g events).player.handleInput keys
            (min rawDt (5 / 100))).update (min rawDt (5 / 100))) ∧
    |(((Game.handleEvents sqrtf g events).player.handleInput keys
        (min rawDt (5 / 100))).update (min rawDt (5 / 100))).position.x
      - g.player.position.x| ≤ 10 ∧
    |(((Game.handleEvents sqrtf g events).player.handleInput keys
        (min rawDt (5 / 100))).update (min rawDt (5 / 100))).position.y
      - g.player.position.y| ≤ 10 := by
  have hent := Game.handleEvents_player_entity sqrtf events g
  have hs2 : (Game.handleEvents sqrtf g events).player.speed = 200 := by
    have : (Game.handleEvents sqrtf g events).player.speed = g.player.speed :=
      congrArg Entity.speed hent
    rw [this, hs]
  have hpos : (Game.handleEvents sqrtf g events).player.position = g.player.position :=
    congrArg (fun e : Entity K => e.position) hent
  have hb := Player.step_bound (Game.handleEvents sqrtf g events).player keys
    (min rawDt (5 / 100)) hs2 (le_min hraw (by norm_num)) (min_le_right _ _)
  rw [hpos] at hb
  exact ⟨rfl, min_le_right _ _, fun h => min_eq_left h, rfl, hb.1, hb.2⟩

/-- C21 witness: the world of Game::Game after a stall of two seconds, with D held. -/
theorem Game.runFrame_clamped_witness :
    |(((Game.handleEvents Rat.sqrt (Game.new : Game ℚ) []).player.handleInput
        ⟨false, false, false, true⟩ (min 2 (5 / 100))).update (min 2 (5 / 100))).position.x
      - (Game.new : Game ℚ).player.position.x| ≤ 10 :=
  (Game.runFrame_clamped Rat.sqrt (Game.new : Game ℚ) 2 [] ⟨false, false, false, true⟩
    (by norm_num) rfl).2.2.2.2.1

/-! ### Counting hits -/

theorem countDeactivated_cons {α : Type} (active : α → Bool) (o c : α) (os cs : List α) :
    countDeactivated active (o :: os) (c :: cs) =
      (if (active o && !active c) = true then 1 else 0) + countDeactivated active os cs := by
  unfold countDeactivated
  by_cases h : (active o && !active c) = true
  · simp [h, Nat.add_comm]
  · simp [h]

theorem countDeactivated_self {α : Type} (active : α → Bool) (xs : List α) :
    countDeactivated active xs xs = 0 := by
  induction xs with
  | nil => rfl
  | cons x rest ih =>
    rw [countDeactivated_cons, ih]
    cases h : active x <;> simp

theorem forFirst_false {α : Type} (cond : α → Bool) (act : α → α) (xs : List α)
    (h : (forFirst cond act xs).1 = false) : ∀ x ∈ xs, cond x = false := by
  induction xs with
  | nil => intro x hx; cases hx
  | cons a rest ih =>
    by_cases ha : cond a = true
    · simp [forFirst, ha] at h
    · have ha2 : cond a = false := by simpa using ha
      have hrest : (forFirst cond act rest).1 = false := by
        simpa [forFirst, ha] using h
      intro x hx
      rcases List.mem_cons.mp hx with rfl | hx
      · exact ha2
      · exact ih hrest x hx

theorem forFirst_true {α : Type} (cond : α → Bool) (act : α → α) (xs : List α)
    (h : (forFirst cond act xs).1 = true) : ∃ x ∈ xs, cond x = true := by
  by_contra hno
  have hall : ∀ x ∈ xs, cond x = false := by
    intro x hx
    by_contra hc
    exact hno ⟨x, hx, by simpa using hc⟩
  rw [forFirst_none cond act xs hall] at h
  cases h

/-- A first-match loop whose condition selects active elements and whose action
deactivates the element deactivates exactly one element if it finds a match, none
otherwise. -/
theorem forFirst_countDeactivated {α : Type} (active : α → Bool) (cond : α → Bool)
    (act : α → α) (hcond : ∀ x, cond x = true → active x = true)
    (hact : ∀ x, active (act x) = false) (xs : List α) :
    countDeactivated active xs (forFirst cond act xs).2
      = if (forFirst cond act xs).1 = true then 1 else 0 := by
  induction xs with
  | nil => rfl
  | cons x rest ih =>
    by_cases h : cond x = true
    · simp [forFirst, h, countDeactivated_cons, hcond x h, hact x, countDeactivated_self]
    · have h2 : cond x = false := by simpa using h
      have hx : (if (active x && !active x) = true then 1 else 0) = 0 := by
        cases active x <;> simp
      simp only [forFirst, h2, Bool.false_eq_true, if_false, countDeactivated_cons, hx, ih,
        Nat.zero_add]

/-- Deactivations add up along two passes that never reactivate an element. -/
theorem countDeactivated_trans {α : Type} (active : α → Bool) (as bs cs : List α)
    (h1 : List.Forall₂ (fun o c => active o = false → active c = false) as bs)
    (h2 : List.Forall₂ (fun o c => active o = false → active c = false) bs cs) :
    countDeactivated active as cs
      = countDeactivated active as bs + countDeactivated active bs cs := by
  induction h1 generalizing cs with
  | nil =>
    cases h2
    rfl
  | @cons a b as bs hab _ ih =>
    cases h2 with
    | @cons _ c _ cs hbc hrest =>
      rw [countDeactivated_cons, countDeactivated_cons, countDeactivated_cons, ih cs hrest]
      cases ha : active a <;> cases hb : active b <;> cases hc : active c <;>
        first
        | (simp; done)
        | (simp; omega)
        | (exfalso; have h := hab ha; rw [hb] at h; cases h)
        | (exfalso; have h := hbc hb; rw [hc] at h; cases h)

theorem Game.collideProjectile_frozen {K : Type} [LinearOrderedField K] [FloorRing K]
    (proj : Projectile K) (es : List (Enemy K)) (ds : List (DestructibleObject K)) :
    List.Forall₂ (fun o c : Enemy K => o.isActive = false → c = o) es
      (Game.collideProjectile proj es ds).2.1 ∧
    List.Forall₂ (fun o c : DestructibleObject K => o.isActive = false → c = o) ds
      (Game.collideProjectile proj es ds).2.2 := by
  by_cases hp : proj.isActive = true
  · obtain ⟨_, h2, h3⟩ := Game.collideProjectile_keptStates proj es es ds ds hp
      (frozen_refl _ _) (frozen_refl _ _)
    exact ⟨h2, h3⟩
  · have hp2 : proj.isActive = false := by simpa using hp
    rw [Game.collideProjectile_inactive proj es ds hp2]
    exact ⟨frozen_refl _ _, frozen_refl _ _⟩

theorem frozen_no_reactivation {α : Type} (active : α → Bool) (os cs : List α)
    (h : List.Forall₂ (fun o c => active o = false → c = o) os cs) :
    List.Forall₂ (fun o c => active o = false → active c = false) os cs := by
  induction h with
  | nil => exact List.Forall₂.nil
  | cons hoc _ ih =>
    exact List.Forall₂.cons (fun hf => by rw [hoc hf]; exact hf) ih

/-- Pass for one projectile: the projectile is deactivated exactly when a pursuer is
deactivated or takeDamage(25) is executed, and never both. -/
theorem Game.collideProjectile_count {K : Type} [LinearOrderedField K] [FloorRing K]
    (proj : Projectile K) (es : List (Enemy K)) (ds : List (DestructibleObject K)) :
    (if (proj.isActive && !(Game.collideProjectile proj es ds).1.isActive) = true then 1
      else 0)
      = countDeactivated (fun e : Enemy K => e.isActive) es
          (Game.collideProjectile proj es ds).2.1 + Game.damageCalls proj es ds := by
  by_cases hp : proj.isActive = true
  · have hcount := forFirst_countDeactivated (fun e : Enemy K => e.isActive)
      (fun enemy : Enemy K => enemy.isActive && proj.getBounds.intersects enemy.getBounds)
      (fun enemy => { enemy with isActive := false })
      (fun x hx => by simp only [Bool.and_eq_true] at hx; exact hx.1) (fun _ => rfl) es
    rw [Game.collideProjectile_active proj es ds hp]
    unfold Game.damageCalls
    by_cases h1 : (forFirst
        (fun enemy : Enemy K => enemy.isActive && proj.getBounds.intersects enemy.getBounds)
        (fun enemy => { enemy with isActive := false }) es).1 = true
    · rw [h1] at hcount
      simp only [h1, if_true, hp, not_true_eq_false, if_false, hcount]
      simp
    · have h1f : (forFirst
          (fun enemy : Enemy K => enemy.isActive && proj.getBounds.intersects enemy.getBounds)
          (fun enemy => { enemy with isActive := false }) es).1 = false := by
        simpa using h1
      rw [h1f] at hcount
      rw [h1f]
      simp only [Bool.false_eq_true, if_false, hp, not_true_eq_false, hcount, Nat.zero_add]
      by_cases h2 : (forFirst
          (fun dest : DestructibleObject K =>
            dest.isActive && proj.getBounds.intersects dest.getBounds)
          (fun dest => dest.takeDamage 25) ds).1 = true
      · simp [h2]
      · simp [h2, hp]
  · have hp2 : proj.isActive = false := by simpa using hp
    rw [Game.collideProjectile_inactive proj es ds hp2]
    unfold Game.damageCalls
    simp [hp2, countDeactivated_self]

/-- The ghost counter agrees with what the pass does to the obstacles: no call leaves the
collection as it was, one call replaces exactly one obstacle d by d.takeDamage(25). -/
theorem Game.damageCalls_effect {K : Type} [LinearOrderedField K] [FloorRing K]
    (proj : Projectile K) (es : List (Enemy K)) (ds : List (DestructibleObject K)) :
    (Game.damageCalls proj es ds = 0 ∧ (Game.collideProjectile proj es ds).2.2 = ds) ∨
    (Game.damageCalls proj es ds = 1 ∧
      ∃ pre d post, ds = pre ++ d :: post ∧
        (Game.collideProjectile proj es ds).2.2 = pre ++ d.takeDamage 25 :: post) := by
  by_cases hp : proj.isActive = true
  · rw [Game.collideProjectile_active proj es ds hp]
    unfold Game.damageCalls
    by_cases h1 : (forFirst
        (fun enemy : Enemy K => enemy.isActive && proj.getBounds.intersects enemy.getBounds)
        (fun enemy => { enemy with isActive := false }) es).1 = true
    · left
      simp [h1, hp]
    · have h1f : (forFirst
          (fun enemy : Enemy K => enemy.isActive && proj.getBounds.intersects enemy.getBounds)
          (fun enemy => { enemy with isActive := false }) es).1 = false := by
        simpa using h1
      rw [h1f]
      simp only [Bool.false_eq_true, if_false, hp, not_true_eq_false]
      by_cases h2 : (forFirst
          (fun dest : DestructibleObject K =>
            dest.isActive && proj.getBounds.intersects dest.getBounds)
          (fun dest => dest.takeDamage 25) ds).1 = true
      · right
        obtain ⟨pre, d, post, hsplit, hpre, hd⟩ := exists_first_split _ ds
          (forFirst_true _ _ ds h2)
        have hfirst := forFirst_hit _ (fun dest : DestructibleObject K => dest.takeDamage 25)
          pre d post hpre hd
        refine ⟨by rw [if_pos h2], pre, d, post, hsplit, ?_⟩
        rw [hsplit, hfirst]
      · left
        have h2f : (forFirst
            (fun dest : DestructibleObject K =>
              dest.isActive && proj.getBounds.intersects dest.getBounds)
            (fun dest => dest.takeDamage 25) ds).1 = false := by
          simpa using h2
        refine ⟨by rw [if_neg h2], ?_⟩
        rw [forFirst_none _ _ ds (forFirst_false _ _ ds h2f)]
  · have hp2 : proj.isActive = false := by simpa using hp
    left
    rw [Game.collideProjectile_inactive proj es ds hp2]
    unfold Game.damageCalls
    simp [hp2]

/-- The projectile loop: deactivated projectiles are as many as deactivated pursuers plus
executions of takeDamage(25); pursuers are never reactivated. -/
theorem Game.collideProjectiles_count {K : Type} [LinearOrderedField K] [FloorRing K]
    (ps : List (Projectile K)) :
    ∀ (es : List (Enemy K)) (ds : List (DestructibleObject K)),
    countDeactivated (fun p : Projectile K => p.isActive) ps
        (Game.collideProjectiles ps es ds).1
      = countDeactivated (fun e : Enemy K => e.isActive) es
          (Game.collideProjectiles ps es ds).2.1 + Game.damageCallsAll ps es ds ∧
    List.Forall₂ (fun o c : Enemy K => o.isActive = false → c.isActive = false) es
      (Game.collideProjectiles ps es ds).2.1 := by
  induction ps with
  | nil =>
    intro es ds
    refine ⟨?_, frozen_no_reactivation _ _ _ (frozen_refl _ _)⟩
    simp [Game.collideProjectiles, Game.damageCallsAll, countDeactivated_self]
  | cons p rest ih =>
    intro es ds
    obtain ⟨i1, i2⟩ := ih (Game.collideProjectile p es ds).2.1
      (Game.collideProjectile p es ds).2.2
    have hstep := Game.collideProjectile_count p es ds
    have hmono := frozen_no_reactivation (fun e : Enemy K => e.isActive) _ _
      (Game.collideProjectile_frozen p es ds).1
    have htrans := countDeactivated_trans (fun e : Enemy K => e.isActive) es
      (Game.collideProjectile p es ds).2.1
      (Game.collideProjectiles rest (Game.collideProjectile p es ds).2.1
        (Game.collideProjectile p es ds).2.2).2.1 hmono i2
    constructor
    · simp only [Game.collideProjectiles, Game.damageCallsAll, countDeactivated_cons]
      rw [hstep, i1, htrans]
      omega
    · simp only [Game.collideProjectiles]
      have hfz : ∀ (as bs cs : List (Enemy K)),
          List.Forall₂ (fun o c : Enemy K => o.isActive = false → c.isActive = false) as bs →
          List.Forall₂ (fun o c : Enemy K => o.isActive = false → c.isActive = false) bs cs →
          List.Forall₂ (fun o c : Enemy K => o.isActive = false → c.isActive = false)
            as cs := by
        intro as bs cs h1
        induction h1 generalizing cs with
        | nil => intro h2; cases h2; exact List.Forall₂.nil
        | cons hab _ ih2 =>
          intro h2
          cases h2 with
          | cons hbc hrest => exact List.Forall₂.cons (fun hf => hbc (hab hf)) (ih2 _ hrest)
      exact hfz _ _ _ hmono i2

theorem Game.pushBack_isActive {K : Type} [LinearOrderedField K] (player : Player K)
    (wall : Wall K) : (Game.pushBack player wall).isActive = player.isActive := by
  by_cases hw : wall.isActive = true
  · cases hi : player.getBounds.findIntersection wall.getBounds with
    | none => rw [Game.pushBack_none player wall hi]
    | some inter => rw [Game.pushBack_some player wall inter hw hi]
  · rw [Game.pushBack_inactive player wall (by simpa using hw)]

theorem Game.pushBack_foldl_isActive {K : Type} [LinearOrderedField K]
    (walls : List (Wall K)) :
    ∀ player : Player K, (walls.foldl Game.pushBack player).isActive = player.isActive := by
  induction walls with
  | nil => intro player; rfl
  | cons w rest ih =>
    intro player
    rw [List.foldl_cons, ih, Game.pushBack_isActive]

/-- C23: Game::handleCollisions never turns an active flag from false to true (projectiles,
pursuers, breakable obstacles, avatar; the walls are not touched), and the number of
projectiles that go from active to inactive equals the number of pursuers that go from
active to inactive plus the number of executions of takeDamage(25); in the pass for any
one projectile at most one pursuer is deactivated or one takeDamage(25) executed, never
both, and an execution of takeDamage(25) changes exactly one obstacle. -/
theorem Game.handleCollisions_conserves_hits {K : Type} [LinearOrderedField K] [FloorRing K]
    (g : Game K) :
    List.Forall₂ (fun o c : Projectile K => o.isActive = false → c.isActive = false)
      g.projectiles (g.handleCollisions).projectiles ∧
    List.Forall₂ (fun o c : Enemy K => o.isActive = false → c.isActive = false)
      g.enemies (g.handleCollisions).enemies ∧
    List.Forall₂ (fun o c : DestructibleObject K => o.isActive = false → c.isActive = false)
      g.destructibles (g.handleCollisions).destructibles ∧
    (g.handleCollisions).player.isActive = g.player.isActive ∧
    (g.handleCollisions).walls = g.walls ∧
    countDeactivated (fun p : Projectile K => p.isActive) g.projectiles
        (g.handleCollisions).projectiles
      = countDeactivated (fun e : Enemy K => e.isActive) g.enemies
          (g.handleCollisions).enemies
        + Game.damageCallsAll g.projectiles g.enemies g.destructibles ∧
    (∀ (proj : Projectile K) (es : List (Enemy K)) (ds : List (DestructibleObject K)),
      countDeactivated (fun e : Enemy K => e.isActive) es
          (Game.collideProjectile proj es ds).2.1 + Game.damageCalls proj es ds ≤ 1 ∧
      ((Game.damageCalls proj es ds = 0 ∧ (Game.collideProjectile proj es ds).2.2 = ds) ∨
        (Game.damageCalls proj es ds = 1 ∧
          ∃ pre d post, ds = pre ++ d :: post ∧
            (Game.collideProjectile proj es ds).2.2 = pre ++ d.takeDamage 25 :: post))) := by
  obtain ⟨_, f1, f2, f3⟩ := Game.collideProjectiles_keptStates g.projectiles
    g.enemies g.enemies g.destructibles g.destructibles (frozen_refl _ _) (frozen_refl _ _)
  obtain ⟨hcount, _⟩ := Game.collideProjectiles_count g.projectiles g.enemies g.destructibles
  refine ⟨frozen_no_reactivation _ _ _ f1, frozen_no_reactivation _ _ _ f2,
    frozen_no_reactivation _ _ _ f3, Game.pushBack_foldl_isActive g.walls g.player, rfl,
    hcount, ?_⟩
  intro proj es ds
  refine ⟨?_, Game.damageCalls_effect proj es ds⟩
  rw [← Game.collideProjectile_count proj es ds]
  split_ifs <;> omega

end Theorems

end Shooter
